import Mathlib

/-! # Brand tracker: the analytics aggregation engine

A shallow embedding of the aggregation code of the brand tracker backend
(`routes/analytics.js`, `models/Analytics.js`, `models/Mention.js`) and the
properties its specification states about it.

Conventions of the embedding:

* a JavaScript array is a `List`, in array order;
* a JavaScript `Number` that holds a count is a `Nat`; a `Number` obtained by
  division is a `ℚ`; where a percentage is printed with `toFixed`, every
  operation is rounded to the nearest double (`binary64`), as the runtime does,
  and `toFixed` reads the exact value of that double;
* a property that may be `undefined` is an `Option`;
* `calculateRealTimeAnalytics` is embedded from the point where the awaited
  `Mention.find` query has returned its array of documents.
-/

namespace BrandTracker

/-! ## Data model (`models/Mention.js`) -/

/-- The `source` enum of the mention schema: the stored source of a mention
is one of these five names. -/
inductive Source where
  | twitter
  | facebook
  | news
  | blog
  | forum
deriving DecidableEq, Repr

/-- The `engagement` sub-document; each counter may be missing. -/
structure Engagement where
  likes : Option Nat
  shares : Option Nat
  comments : Option Nat
deriving DecidableEq, Repr

/-- A mention document. `sentiment` is the stored label (a string);
`timestamp` is the time value of the stored date, in milliseconds since the
epoch. -/
structure Mention where
  brandName : String
  source : Source
  content : String
  sentiment : String
  topics : Option (List String)
  engagement : Option Engagement
  timestamp : Int
deriving DecidableEq, Repr

/-- The sentiment label is one of the three labels of the schema enum. -/
def validSentiment (m : Mention) : Prop :=
  m.sentiment = "positive" ∨ m.sentiment = "negative" ∨ m.sentiment = "neutral"

instance (m : Mention) : Decidable (validSentiment m) := by
  unfold validSentiment; infer_instance

/-! ## `calculateRealTimeAnalytics` (`routes/analytics.js`, lines 344-410) -/

/-- Source: `mentions.length` -/
def totalMentions (mentions : List Mention) : Nat :=
  mentions.length

/-- Source: `mentions.filter(m => m.sentiment === 'positive').length` -/
def positiveMentions (mentions : List Mention) : Nat :=
  (mentions.filter (fun m => m.sentiment = "positive")).length

/-- Source: `mentions.filter(m => m.sentiment === 'negative').length` -/
def negativeMentions (mentions : List Mention) : Nat :=
  (mentions.filter (fun m => m.sentiment = "negative")).length

/-- Source: `mentions.filter(m => m.sentiment === 'neutral').length` -/
def neutralMentions (mentions : List Mention) : Nat :=
  (mentions.filter (fun m => m.sentiment = "neutral")).length

/-- Source: `totalMentions > 0 ? (positiveMentions - negativeMentions) / totalMentions : 0` -/
def sentimentScore (mentions : List Mention) : ℚ :=
  if totalMentions mentions > 0 then
    ((positiveMentions mentions : ℚ) - (negativeMentions mentions : ℚ)) /
      (totalMentions mentions : ℚ)
  else 0

/-- Source: `mention.engagement?.likes || 0` -/
def likesOf (mention : Mention) : Nat :=
  (mention.engagement.bind (fun e => e.likes)).getD 0

/-- Source: `mention.engagement?.shares || 0` -/
def sharesOf (mention : Mention) : Nat :=
  (mention.engagement.bind (fun e => e.shares)).getD 0

/-- Source: `mention.engagement?.comments || 0` -/
def commentsOf (mention : Mention) : Nat :=
  (mention.engagement.bind (fun e => e.comments)).getD 0

/-- The `reduce` of the engagement score: the running sum, started at 0. -/
def engagementTotal (mentions : List Mention) : Nat :=
  mentions.foldl
    (fun sum mention => sum + likesOf mention + sharesOf mention + commentsOf mention) 0

/-- Source: `totalMentions > 0 ? mentions.reduce(...) / totalMentions : 0` -/
def engagementScore (mentions : List Mention) : ℚ :=
  if totalMentions mentions > 0 then
    (engagementTotal mentions : ℚ) / (totalMentions mentions : ℚ)
  else 0

/-! ### Source breakdown -/

/-- An object used as a map from sources to counts: its own properties in
insertion order. -/
abbrev SourceMap := List (Source × Nat)

/-- Source: `acc[source]`: the value of the property, `none` when it is absent. -/
def SourceMap.get (acc : SourceMap) (source : Source) : Option Nat :=
  (acc.find? (fun p => p.1 = source)).map (fun p => p.2)

/-- Source: `acc[source] = value`: overwrite the property when present, else add it. -/
def SourceMap.set : SourceMap → Source → Nat → SourceMap
  | [], source, value => [(source, value)]
  | p :: rest, source, value =>
    if p.1 = source then (source, value) :: rest
    else p :: SourceMap.set rest source value

/-- The callback of the source breakdown `reduce`:
`acc[mention.source] = (acc[mention.source] || 0) + 1; return acc`. -/
def sourceStep (acc : SourceMap) (mention : Mention) : SourceMap :=
  acc.set mention.source ((acc.get mention.source).getD 0 + 1)

/-- Source: `mentions.reduce((acc, mention) => ..., {})` -/
def sourceBreakdown (mentions : List Mention) : SourceMap :=
  mentions.foldl sourceStep []

/-! ### Topic distribution -/

/-- The per-sentiment sub-counts of a topic entry. -/
structure SentimentCounts where
  positive : Nat
  negative : Nat
  neutral : Nat
deriving DecidableEq, Repr

/-- An entry of `topicDistribution`. -/
structure TopicEntry where
  topic : String
  count : Nat
  sentiment : SentimentCounts
deriving DecidableEq, Repr

/-- The entry pushed for a topic seen for the first time. -/
def newEntry (topic : String) (sentiment : String) : TopicEntry :=
  { topic := topic
    count := 1
    sentiment :=
      { positive := if sentiment = "positive" then 1 else 0
        negative := if sentiment = "negative" then 1 else 0
        neutral := if sentiment = "neutral" then 1 else 0 } }

/-- Source: `existing.count++; existing.sentiment[mention.sentiment]++` on the three
sub-counts the entry carries (a label outside the three leaves them as they
are). -/
def bump (existing : TopicEntry) (sentiment : String) : TopicEntry :=
  { topic := existing.topic
    count := existing.count + 1
    sentiment :=
      { positive := existing.sentiment.positive + (if sentiment = "positive" then 1 else 0)
        negative := existing.sentiment.negative + (if sentiment = "negative" then 1 else 0)
        neutral := existing.sentiment.neutral + (if sentiment = "neutral" then 1 else 0) } }

/-- The in-place update of the entry that `acc.find(t => t.topic === topic)`
returns: the first entry with that topic. -/
def bumpFirst (topic : String) (sentiment : String) : List TopicEntry → List TopicEntry
  | [] => []
  | e :: rest =>
    if e.topic = topic then bump e sentiment :: rest
    else e :: bumpFirst topic sentiment rest

/-- The body of the `forEach` over a mention's topics. -/
def upsert (acc : List TopicEntry) (topic : String) (sentiment : String) : List TopicEntry :=
  match acc.find? (fun t => t.topic = topic) with
  | some _ => bumpFirst topic sentiment acc
  | none => acc ++ [newEntry topic sentiment]

/-- The body of the `reduce` over the mentions: `mention.topics?.forEach(...)`. -/
def addMention (acc : List TopicEntry) (mention : Mention) : List TopicEntry :=
  match mention.topics with
  | some topics => topics.foldl (fun acc topic => upsert acc topic mention.sentiment) acc
  | none => acc

/-- The accumulated topic entries before sorting. -/
def topicAccumulate (mentions : List Mention) : List TopicEntry :=
  mentions.foldl addMention []

/-- The comparator `(a, b) => b.count - a.count` is not positive: `a` may stay
before `b`. -/
def countDesc (a b : TopicEntry) : Prop :=
  b.count ≤ a.count

instance : DecidableRel countDesc := fun a b => by
  unfold countDesc; infer_instance

instance : IsTotal TopicEntry countDesc :=
  ⟨fun a b => by unfold countDesc; omega⟩

instance : IsTrans TopicEntry countDesc :=
  ⟨fun a b c hab hbc => by unfold countDesc at *; omega⟩

/-- Source: `Array.prototype.sort` with the comparator above. The sort is stable, so
its result is determined; it is computed here by a stable insertion sort. -/
def topicSorted (mentions : List Mention) : List TopicEntry :=
  (topicAccumulate mentions).insertionSort countDesc

/-- Source: `.sort((a, b) => b.count - a.count).slice(0, 10)` -/
def topicDistribution (mentions : List Mention) : List TopicEntry :=
  (topicSorted mentions).take 10

/-! ### Peak hours -/

/-- Source: `new Date(timestamp).getHours()`: the hour of the local time, where
`tz t` is the offset of local time from UTC at the instant `t`, in
milliseconds. -/
def getHours (tz : Int → Int) (timestamp : Int) : Nat :=
  (((timestamp + tz timestamp) / 3600000) % 24).toNat

/-- An entry of `peakHours`. -/
structure HourEntry where
  hour : Nat
  count : Nat
deriving DecidableEq, Repr

/-- Source: `Array.from({ length: 24 }, (_, hour) => ({ hour, count: ... }))` -/
def peakHours (tz : Int → Int) (mentions : List Mention) : List HourEntry :=
  (List.range 24).map (fun hour =>
    { hour := hour
      count := (mentions.filter (fun m => getHours tz m.timestamp = hour)).length })

/-! ### The returned object -/

/-- The `metrics` object. -/
structure Metrics where
  totalMentions : Nat
  positiveMentions : Nat
  negativeMentions : Nat
  neutralMentions : Nat
  sentimentScore : ℚ
  engagementScore : ℚ
  reach : Nat
deriving DecidableEq

/-- An entry of `trendingKeywords`. -/
structure KeywordEntry where
  keyword : String
  count : Nat
  growth : Nat
deriving DecidableEq, Repr

/-- The object `calculateRealTimeAnalytics` returns. -/
structure AnalyticsResult where
  metrics : Metrics
  sourceBreakdown : SourceMap
  topicDistribution : List TopicEntry
  peakHours : List HourEntry
  trendingKeywords : List KeywordEntry

/-- The computation of `calculateRealTimeAnalytics` on the array of mentions
the query returned. -/
def calculateRealTimeAnalytics (tz : Int → Int) (mentions : List Mention) : AnalyticsResult :=
  { metrics :=
      { totalMentions := totalMentions mentions
        positiveMentions := positiveMentions mentions
        negativeMentions := negativeMentions mentions
        neutralMentions := neutralMentions mentions
        sentimentScore := sentimentScore mentions
        engagementScore := engagementScore mentions
        reach := totalMentions mentions * 100 }
    sourceBreakdown := sourceBreakdown mentions
    topicDistribution := topicDistribution mentions
    peakHours := peakHours tz mentions
    trendingKeywords :=
      ((topicDistribution mentions).take 5).map (fun t =>
        { keyword := t.topic, count := t.count, growth := 0 }) }

/-- A mention with the given label, source, topics and hour offset, for
concrete evaluations. -/
def sampleMention (sentiment : String) (source : Source) (topics : List String)
    (timestamp : Int) : Mention :=
  { brandName := "acme"
    source := source
    content := "text"
    sentiment := sentiment
    topics := some topics
    engagement := some { likes := some 3, shares := none, comments := some 1 }
    timestamp := timestamp }

/-! ## `calculateGrowth` (`models/Analytics.js`, lines 81-87) -/

/-- A value `calculateGrowth` may return: a JavaScript number or a JavaScript
string. -/
inductive JSValue where
  | number (value : ℚ)
  | string (text : String)
deriving DecidableEq

/-- An analytics snapshot document, with the fields `calculateGrowth` reads. -/
structure Analytics where
  brandName : String
  date : Int
  period : String
  metrics : Metrics

/-- Source: `metrics[metric]`: the value of the named property, `none` when the
object has no number under that name. -/
def Metrics.lookup (metrics : Metrics) (metric : String) : Option ℚ :=
  if metric = "totalMentions" then some (metrics.totalMentions : ℚ)
  else if metric = "positiveMentions" then some (metrics.positiveMentions : ℚ)
  else if metric = "negativeMentions" then some (metrics.negativeMentions : ℚ)
  else if metric = "neutralMentions" then some (metrics.neutralMentions : ℚ)
  else if metric = "sentimentScore" then some metrics.sentimentScore
  else if metric = "engagementScore" then some metrics.engagementScore
  else if metric = "reach" then some (metrics.reach : ℚ)
  else none

/-- The integer n that `Number.prototype.toFixed` picks for a number of
magnitude `|x|`: the one for which n / 10^fractionDigits - |x| is closest to
zero, the larger one when there are two. -/
def toFixedDigits (fractionDigits : Nat) (x : ℚ) : Nat :=
  (2 * x.num.natAbs * 10 ^ fractionDigits + x.den) / (2 * x.den)

/-- Source: `x.toFixed(fractionDigits)` for a finite number of magnitude below
10^21 (from there on the runtime answers in exponent notation, which this
definition does not reproduce): the sign, the decimal digits of n padded with
zeros to fractionDigits + 1 places, and a point before the last
fractionDigits of them. -/
def toFixed (fractionDigits : Nat) (x : ℚ) : String :=
  let s : List Char := if x < 0 then ['-'] else []
  let m : List Char := Nat.toDigits 10 (toFixedDigits fractionDigits x)
  if fractionDigits = 0 then String.mk (s ++ m)
  else
    let m := if m.length ≤ fractionDigits then
      List.replicate (fractionDigits + 1 - m.length) '0' ++ m else m
    let k := m.length
    String.mk (s ++ m.take (k - fractionDigits) ++ ['.'] ++ m.drop (k - fractionDigits))

/-! ### Double-precision arithmetic -/

/-- The integer nearest to n / d, the even one of the two when n / d lies
halfway between two integers. -/
def roundHalfEven (n d : Nat) : Nat :=
  if 2 * (n % d) < d then n / d
  else if d < 2 * (n % d) then n / d + 1
  else if (n / d) % 2 = 0 then n / d
  else n / d + 1

/-- The number of binary digits of `n`, counted with `fuel` halvings. -/
def bitLengthAux : Nat → Nat → Nat
  | 0, _ => 0
  | fuel + 1, n => if n = 0 then 0 else bitLengthAux fuel (n / 2) + 1

/-- The number of binary digits of `n`. -/
def bitLength (n : Nat) : Nat :=
  bitLengthAux n n

/-- The binary exponent of a / d for positive a and d: the integer E with
2^E ≤ a / d < 2^(E + 1). -/
def floorLog2 (a d : Nat) : Int :=
  if d * 2 ^ (bitLength a - bitLength d) ≤ a * 2 ^ (bitLength d - bitLength a) then
    (bitLength a : Int) - (bitLength d : Int)
  else (bitLength a : Int) - (bitLength d : Int) - 1

/-- The exponent of the last binary place of the double nearest to a / d: 52
below the binary exponent, and not below -1074, the last place of the
subnormal doubles. -/
def binaryExponent (a d : Nat) : Int :=
  max (floorLog2 a d - 52) (-1074)

/-- The significand of the double nearest to a / d, in units of the last
place: a / d over 2^exponent, rounded to the nearest integer, ties to even. -/
def binaryMantissa (a d : Nat) : Nat :=
  if 0 ≤ binaryExponent a d then roundHalfEven a (d * 2 ^ (binaryExponent a d).toNat)
  else roundHalfEven (a * 2 ^ (-(binaryExponent a d)).toNat) d

/-- The double nearest to the rational `x` (IEEE 754 binary64, round to
nearest, ties to even), for magnitudes below 2^1024: what a `Number` holds
when the exact result of an operation is `x`. -/
def binary64 (x : ℚ) : ℚ :=
  if x = 0 then 0
  else
    (if x < 0 then -1 else 1) * (binaryMantissa x.num.natAbs x.den : ℚ)
      * (2 : ℚ) ^ binaryExponent x.num.natAbs x.den

/-- Source: `(current - previous) / previous * 100` on two numbers, each
operation rounded to the nearest double. -/
def percentChange (current previous : ℚ) : ℚ :=
  binary64 (binary64 (binary64 (binary64 current - binary64 previous) / binary64 previous) * 100)

/-- Source: `count / total * 100` on two numbers, each operation rounded to
the nearest double. -/
def percentShare (count total : ℚ) : ℚ :=
  binary64 (binary64 (binary64 count / binary64 total) * 100)

/-- The method `calculateGrowth(previousData, metric)` of a snapshot `self`.
Arithmetic on a missing value gives NaN, which `toFixed` prints as "NaN". -/
def calculateGrowth (self : Analytics) (previousData : Option Analytics) (metric : String) :
    JSValue :=
  match previousData with
  | none => JSValue.number 0
  | some previousData =>
    if previousData.metrics.lookup metric = some 0 then JSValue.number 0
    else
      match self.metrics.lookup metric, previousData.metrics.lookup metric with
      | some current, some previous =>
        JSValue.string (toFixed 1 (percentChange current previous))
      | _, _ => JSValue.string "NaN"

/-- A snapshot whose counts are all `total` positive mentions, for concrete
evaluations. -/
def sampleSnapshot (total : Nat) : Analytics :=
  { brandName := "acme"
    date := 0
    period := "daily"
    metrics :=
      { totalMentions := total
        positiveMentions := total
        negativeMentions := 0
        neutralMentions := 0
        sentimentScore := if total = 0 then 0 else 1
        engagementScore := 0
        reach := total * 100 } }

/-- Three mentions with valid labels, for concrete evaluations. -/
def sampleMentions : List Mention :=
  [sampleMention "positive" .news ["a", "b"] 0,
   sampleMention "negative" .blog ["b"] 3600000,
   sampleMention "neutral" .forum [] 7200000]

/-! ### Vocabulary of the statements about topics -/

/-- The topic tags of a mention, none when the property is missing. -/
def tagsOf (m : Mention) : List String :=
  m.topics.getD []

/-- All topic tags in scanning order: the mentions in list order, the tags of
each mention in tag order. -/
def allTags (mentions : List Mention) : List String :=
  mentions.flatMap tagsOf

/-- All topic tags in scanning order, each with the label of its mention. -/
def tagPairs (mentions : List Mention) : List (String × String) :=
  mentions.flatMap (fun m => (tagsOf m).map (fun t => (t, m.sentiment)))

/-- What holds of the accumulated entries `acc` once the tags `seen` have been
processed. -/
structure TopicInv (acc : List TopicEntry) (seen : List (String × String)) : Prop where
  nodup : (acc.map (fun e => e.topic)).Nodup
  complete : ∀ p ∈ seen, p.1 ∈ acc.map (fun e => e.topic)
  sound : ∀ e ∈ acc, e.topic ∈ seen.map (fun p => p.1)
  counts : ∀ e ∈ acc,
    e.count = seen.countP (fun p => p.1 = e.topic)
    ∧ e.sentiment.positive = seen.countP (fun p => p.1 = e.topic ∧ p.2 = "positive")
    ∧ e.sentiment.negative = seen.countP (fun p => p.1 = e.topic ∧ p.2 = "negative")
    ∧ e.sentiment.neutral = seen.countP (fun p => p.1 = e.topic ∧ p.2 = "neutral")
  order : (acc.map (fun e => e.topic)).Pairwise (fun a b =>
    (seen.map (fun p => p.1)).indexOf a < (seen.map (fun p => p.1)).indexOf b)

/-! ## Spike alerts (`routes/analytics.js`, lines 149-202) -/

/-- The instants the spike-alerts handler derives from the request time:
seven days before the request, and the first and the last millisecond of the
local day of the request. -/
structure SpikeWindow where
  weekAgo : Int
  todayStart : Int
  todayEnd : Int

/-- The day that `$dateToString` with format `%Y-%m-%d` names: the UTC day of
the time value, counted from the epoch. -/
def utcDay (timestamp : Int) : Int :=
  timestamp / 86400000

/-- Source: `Mention.countDocuments({ brandName, timestamp: { $gte, $lt } })` -/
def todayCount (collection : List Mention) (brand : String) (w : SpikeWindow) : Nat :=
  (collection.filter (fun m =>
    m.brandName = brand ∧ w.todayStart ≤ m.timestamp ∧ m.timestamp < w.todayEnd)).length

/-- The `$match` stage of the weekly aggregation: the mentions of the brand
from `weekAgo` on, with no upper bound. -/
def weeklyMatch (collection : List Mention) (brand : String) (w : SpikeWindow) : List Mention :=
  collection.filter (fun m => m.brandName = brand ∧ w.weekAgo ≤ m.timestamp)

/-- The first `$group` stage: one document for each day that has a mention,
with the number of mentions of that day. -/
def groupByDay (mentions : List Mention) : List (Int × Nat) :=
  ((mentions.map (fun m => utcDay m.timestamp)).dedup).map (fun d =>
    (d, (mentions.filter (fun m => utcDay m.timestamp = d)).length))

/-- The second `$group` stage, `{ _id: null, avgCount: { $avg: "$count" } }`:
no document for no input, else one document with the mean of the counts. -/
def avgCount (groups : List (Int × Nat)) : List ℚ :=
  match groups with
  | [] => []
  | _ :: _ => [((groups.map (fun g => g.2)).sum : ℚ) / (groups.length : ℚ)]

/-- The aggregation `weeklyAvg` of the handler. -/
def weeklyAvg (collection : List Mention) (brand : String) (w : SpikeWindow) : List ℚ :=
  avgCount (groupByDay (weeklyMatch collection brand w))

/-- Source: `weeklyAvg[0]?.avgCount || 0` -/
def avgOf (weeklyAvg : List ℚ) : ℚ :=
  weeklyAvg.head?.getD 0

/-- The body of the spike-alerts response. -/
structure SpikeAlert where
  todayCount : Nat
  weeklyAverage : ℚ
  isSpike : Bool
  spikePercentage : JSValue
deriving DecidableEq

/-- Lines 191-198: the response computed from `todayCount` and `avg`. -/
def spikeResponse (todayCount : Nat) (avg : ℚ) : SpikeAlert :=
  { todayCount := todayCount
    weeklyAverage := avg
    isSpike := decide ((todayCount : ℚ) > avg * 2)
    spikePercentage :=
      if avg > 0 then JSValue.string (toFixed 2 (percentChange (todayCount : ℚ) avg))
      else JSValue.number 0 }

/-- The handler of `GET /spike-alerts` on the collection of mentions. -/
def spikeAlerts (collection : List Mention) (brand : String) (w : SpikeWindow) : SpikeAlert :=
  spikeResponse (todayCount collection brand w) (avgOf (weeklyAvg collection brand w))

/-- A request on day 7 after the epoch, in a UTC locale: the window starts at
the epoch and today runs from day 7, 00:00:00.000 to 23:59:59.999. -/
def sampleWindow : SpikeWindow :=
  { weekAgo := 0, todayStart := 604800000, todayEnd := 691199999 }

/-- One mention of the brand on day 6, the day before the request. -/
def sampleBaseline : List Mention :=
  [sampleMention "neutral" .news [] 518400000]

/-- Three mentions of the brand on day 7, the day of the request. -/
def sampleToday : List Mention :=
  [sampleMention "neutral" .news [] 604800000,
   sampleMention "positive" .blog [] 604800001,
   sampleMention "negative" .forum [] 650000000]

/-! ## Insights (`routes/dashboard.js`, lines 268-329) -/

/-- An insight record. -/
structure Insight where
  type : String
  title : String
  message : String
deriving DecidableEq, Repr

/-- The name of a source, as the template literal prints it. -/
def Source.name : Source → String
  | .twitter => "twitter"
  | .facebook => "facebook"
  | .news => "news"
  | .blog => "blog"
  | .forum => "forum"

/-- The insight pushed for an empty list of mentions. -/
def noDataInsight : Insight :=
  { type := "info"
    title := "No Data Available"
    message := "Start monitoring to see insights about your brand mentions." }

/-- The insight pushed when `positiveCount / total > 0.7`. -/
def excellentInsight (positiveCount total : Nat) : Insight :=
  { type := "positive"
    title := "Excellent Sentiment"
    message := "Your brand has "
      ++ toFixed 1 (percentShare (positiveCount : ℚ) (total : ℚ))
      ++ "% positive mentions. Great job!" }

/-- The insight pushed when `negativeCount / total > 0.3`. -/
def negativeInsight (negativeCount total : Nat) : Insight :=
  { type := "warning"
    title := "Negative Sentiment Alert"
    message := "Your brand has "
      ++ toFixed 1 (percentShare (negativeCount : ℚ) (total : ℚ))
      ++ "% negative mentions. Consider addressing concerns." }

/-- The insight pushed when `avgEngagement > 50`. -/
def engagementInsight (avgEngagement : ℚ) : Insight :=
  { type := "positive"
    title := "High Engagement"
    message := "Your mentions are receiving high engagement (avg "
      ++ toFixed 1 avgEngagement ++ " interactions per mention)." }

/-- The insight pushed last, naming the top source. -/
def topPlatformInsight (topSource : Source) : Insight :=
  { type := "info"
    title := "Top Platform"
    message := "Most of your mentions are coming from " ++ topSource.name ++ "." }

/-- Lines 282-298: the sentiment insight, if any. -/
def sentimentInsights (mentions : List Mention) : List Insight :=
  if (positiveMentions mentions : ℚ) / (mentions.length : ℚ) > 7 / 10 then
    [excellentInsight (positiveMentions mentions) mentions.length]
  else if (negativeMentions mentions : ℚ) / (mentions.length : ℚ) > 3 / 10 then
    [negativeInsight (negativeMentions mentions) mentions.length]
  else []

/-- Lines 301-312: the engagement insight, if any. The `reduce` is the one of
the engagement score. -/
def engagementInsights (mentions : List Mention) : List Insight :=
  if (engagementTotal mentions : ℚ) / (mentions.length : ℚ) > 50 then
    [engagementInsight (binary64 ((engagementTotal mentions : ℚ) / (mentions.length : ℚ)))]
  else []

/-- Source: `array.reduce(f)` with no initial value: the first element starts
the accumulator; on an empty array a TypeError is thrown (`none`). -/
def reduce1 {α : Type} (f : α → α → α) : List α → Option α
  | [] => none
  | a :: rest => some (rest.foldl f a)

/-- The callback `(a, b) => a[1] > b[1] ? a : b`. -/
def pickTop (a b : Source × Nat) : Source × Nat :=
  if a.2 > b.2 then a else b

/-- Line 320: `Object.entries(sourceCounts).reduce(...)[0]`, where
`sourceCounts` is built by the `reduce` of the source breakdown. -/
def topSource (mentions : List Mention) : Option Source :=
  (reduce1 pickTop (sourceBreakdown mentions)).map (fun entry => entry.1)

/-- The function `generateInsights(mentions)`; `none` stands for a thrown
TypeError. -/
def generateInsights (mentions : List Mention) : Option (List Insight) :=
  if mentions.length = 0 then some [noDataInsight]
  else
    match topSource mentions with
    | none => none
    | some top =>
      some (sentimentInsights mentions ++ engagementInsights mentions ++ [topPlatformInsight top])

/-! ## Dashboard summary (`routes/dashboard.js`, lines 6-73) -/

/-- Source: `period === '7d' ? 7 : period === '30d' ? 30 : 90` -/
def periodDays (period : String) : Nat :=
  if period = "7d" then 7 else if period = "30d" then 30 else 90

/-- The order of `.sort({ timestamp: -1 })`: newest first. -/
def newestFirst (a b : Mention) : Prop :=
  b.timestamp ≤ a.timestamp

instance : DecidableRel newestFirst := fun a b => by
  unfold newestFirst; infer_instance

/-- Source: `Mention.find({ brandName, timestamp: { $gte: startDate } })
.sort({ timestamp: -1 }).limit(50)` -/
def recentMentions (collection : List Mention) (brand : String) (startDate : Int) :
    List Mention :=
  ((collection.filter (fun m => m.brandName = brand ∧ startDate ≤ m.timestamp)).insertionSort
    newestFirst).take 50

/-- Source: `recentMentions.filter(m => new Date(m.timestamp) >= today).length` -/
def todayMentions (recent : List Mention) (today : Int) : Nat :=
  (recent.filter (fun m => today ≤ m.timestamp)).length

/-- Source: `totalMentions > 0 ? (count / totalMentions * 100).toFixed(1) : 0` -/
def percentOf (count total : Nat) : JSValue :=
  if total > 0 then JSValue.string (toFixed 1 (percentShare (count : ℚ) (total : ℚ)))
  else JSValue.number 0

/-- The `sentimentDistribution` object of the summary. -/
structure SentimentDistribution where
  positive : JSValue
  negative : JSValue
  neutral : JSValue
deriving DecidableEq

/-- The `realTime` object of the summary. -/
structure RealTime where
  totalMentions : Nat
  positiveMentions : Nat
  negativeMentions : Nat
  neutralMentions : Nat
  sentimentDistribution : SentimentDistribution
  sourceBreakdown : SourceMap
  recentEngagement : Nat
  todayMentions : Nat
  isSpike : Bool
  spikePercentage : JSValue

/-- Source: `avgDailyMentions = totalMentions / days`, a double. -/
def avgDailyMentions (recent : List Mention) (days : Nat) : ℚ :=
  binary64 ((recent.length : ℚ) / (days : ℚ))

/-- Lines 22-64: the `realTime` object computed from the fetched mentions,
the days of the period and the midnight `today`. -/
def summaryRealTime (recent : List Mention) (days : Nat) (today : Int) : RealTime :=
  { totalMentions := recent.length
    positiveMentions := positiveMentions recent
    negativeMentions := negativeMentions recent
    neutralMentions := neutralMentions recent
    sentimentDistribution :=
      { positive := percentOf (positiveMentions recent) recent.length
        negative := percentOf (negativeMentions recent) recent.length
        neutral := percentOf (neutralMentions recent) recent.length }
    sourceBreakdown := sourceBreakdown recent
    recentEngagement := engagementTotal recent
    todayMentions := todayMentions recent today
    isSpike :=
      decide ((todayMentions recent today : ℚ)
        > binary64 (avgDailyMentions recent days * (3 / 2)))
    spikePercentage :=
      if avgDailyMentions recent days > 0 then
        JSValue.string (toFixed 1
          (percentChange (todayMentions recent today : ℚ) (avgDailyMentions recent days)))
      else JSValue.number 0 }

/-- The summary object. -/
structure Summary where
  realTime : RealTime
  insights : List Insight

/-- The handler of `GET /:brand/summary` on the collection of mentions, with
the instants `startDate` and `today` it derives from the request time; `none`
stands for the answer with status 500. -/
def dashboardSummary (collection : List Mention) (brand period : String)
    (startDate today : Int) : Option Summary :=
  match generateInsights (recentMentions collection brand startDate) with
  | none => none
  | some insights =>
    some
      { realTime :=
          summaryRealTime (recentMentions collection brand startDate) (periodDays period) today
        insights := insights }

/-- The spike detector in the words of the specification (section 4.3), with
the multiplier and the number of decimals as parameters, in the arithmetic of
the code: isSpike = currentCount > baselineAverage × multiplier, and
spikePercentage = (currentCount − baselineAverage) / baselineAverage × 100,
rounded, or 0 when baselineAverage = 0. -/
def specSpikeDetector (multiplier : ℚ) (decimals : Nat) (currentCount : Nat)
    (baselineAverage : ℚ) : Bool × JSValue :=
  (decide ((currentCount : ℚ) > binary64 (baselineAverage * multiplier)),
   if baselineAverage = 0 then JSValue.number 0
   else JSValue.string
     (toFixed decimals (percentChange (currentCount : ℚ) baselineAverage)))

/-- Seven mentions of the brand, all at the first instant of day 7. -/
def sampleBurst : List Mention :=
  List.replicate 7 (sampleMention "neutral" .news [] 604800000)

/-- Thirty-two mentions of the brand: one at the first instant of day 7 and
thirty-one at the epoch. -/
def sampleMonth : List Mention :=
  sampleMention "neutral" .news [] 604800000
    :: List.replicate 31 (sampleMention "neutral" .news [] 0)

/-! ## Sentiment widget (`routes/dashboard.js`, lines 112-137) -/

/-- An object used as a map from sentiment labels to counts: its own
properties in insertion order. -/
abbrev LabelMap := List (String × Nat)

/-- Source: `acc[label]`: the value of the property, `none` when it is absent. -/
def LabelMap.get (acc : LabelMap) (label : String) : Option Nat :=
  (acc.find? (fun p => p.1 = label)).map (fun p => p.2)

/-- Source: `acc[label] = value`: overwrite the property when present, else add it. -/
def LabelMap.set : LabelMap → String → Nat → LabelMap
  | [], label, value => [(label, value)]
  | p :: rest, label, value =>
    if p.1 = label then (label, value) :: rest
    else p :: LabelMap.set rest label value

/-- The callback of the `reduce` of the sentiment widget:
`acc[mention.sentiment] = (acc[mention.sentiment] || 0) + 1; return acc`. -/
def labelStep (acc : LabelMap) (mention : Mention) : LabelMap :=
  acc.set mention.sentiment ((acc.get mention.sentiment).getD 0 + 1)

/-- Source: `mentions.reduce(..., { positive: 0, negative: 0, neutral: 0 })` -/
def sentimentCounts (mentions : List Mention) : LabelMap :=
  mentions.foldl labelStep [("positive", 0), ("negative", 0), ("neutral", 0)]

/-- Source: `total > 0 ? (sentimentCounts[label] / total * 100).toFixed(1) : 0`;
arithmetic on a missing count gives NaN. -/
def labelPercent (counts : LabelMap) (label : String) (total : Nat) : JSValue :=
  if total > 0 then
    match counts.get label with
    | some count => JSValue.string (toFixed 1 (percentShare (count : ℚ) (total : ℚ)))
    | none => JSValue.string "NaN"
  else JSValue.number 0

/-- The object `getSentimentWidgetData` returns. -/
structure SentimentWidget where
  data : LabelMap
  percentages : SentimentDistribution
  totalMentions : Nat
deriving DecidableEq

/-- The computation of `getSentimentWidgetData` on the array of mentions the
query returned. -/
def getSentimentWidgetData (mentions : List Mention) : SentimentWidget :=
  { data := sentimentCounts mentions
    percentages :=
      { positive := labelPercent (sentimentCounts mentions) "positive" mentions.length
        negative := labelPercent (sentimentCounts mentions) "negative" mentions.length
        neutral := labelPercent (sentimentCounts mentions) "neutral" mentions.length }
    totalMentions := mentions.length }

/-- Mentions labelled positive, positive, negative, neutral. -/
def sampleFour : List Mention :=
  [sampleMention "positive" .news [] 0,
   sampleMention "positive" .blog [] 0,
   sampleMention "negative" .forum [] 0,
   sampleMention "neutral" .news [] 0]

/-- Ten mentions of which eight are labelled positive and two negative. -/
def sampleTen : List Mention :=
  List.replicate 8 (sampleMention "positive" .news [] 0)
    ++ List.replicate 2 (sampleMention "negative" .blog [] 0)

/-- A twitter mention followed by a news mention: two sources with one mention
each. -/
def sampleTie : List Mention :=
  [sampleMention "neutral" .twitter [] 0, sampleMention "neutral" .news [] 0]

/-! ## Widget dispatcher (`routes/dashboard.js`, lines 75-109;
`models/Dashboard.js`, lines 9-14) -/

/-- The `enum` of the widget type in the dashboard schema. -/
def widgetTypeEnum : List String :=
  ["sentiment", "sources", "timeline", "metrics", "topics", "engagement", "alerts"]

/-- The helper functions the dispatcher may call. -/
inductive WidgetHelper where
  | sentimentHelper
  | sourcesHelper
  | timelineHelper
  | topicsHelper
  | engagementHelper
deriving DecidableEq, Repr

/-- What the handler of `GET /:brand/widgets/:widgetType` answers: the data of
a helper, status 400 with a message, or status 500 (a thrown error). -/
inductive WidgetReply where
  | widgetData (helper : WidgetHelper)
  | badRequest (message : String)
  | serverError
deriving DecidableEq, Repr

/-- The handler, where `configParses` tells whether `JSON.parse(config)`
returns: the `switch` over the widget type with its `default` branch. -/
def widgetRoute (widgetType : String) (configParses : Bool) : WidgetReply :=
  if configParses then
    if widgetType = "sentiment" then WidgetReply.widgetData WidgetHelper.sentimentHelper
    else if widgetType = "sources" then WidgetReply.widgetData WidgetHelper.sourcesHelper
    else if widgetType = "timeline" then WidgetReply.widgetData WidgetHelper.timelineHelper
    else if widgetType = "topics" then WidgetReply.widgetData WidgetHelper.topicsHelper
    else if widgetType = "engagement" then WidgetReply.widgetData WidgetHelper.engagementHelper
    else WidgetReply.badRequest "Unknown widget type"
  else WidgetReply.serverError

/-! ## Daily job (`cron/analyticsGenerator.js`, lines 7-36) -/

/-- What the awaited `fetch` of one brand does: a response that is ok, a
response that is not ok, or a thrown error. -/
inductive FetchOutcome where
  | ok
  | notOk
  | thrown
deriving DecidableEq, Repr

/-- The lines the job writes to the console. -/
inductive JobEvent where
  | starting
  | generating (brand : String)
  | generated (brand : String)
  | failed (brand : String)
  | completed
  | jobError
deriving DecidableEq, Repr

/-- The `for` loop over the brands, each with the outcome of its `fetch`: the
lines written, and whether the loop ran to its end (a thrown error leaves it). -/
def brandLoop : List (String × FetchOutcome) → List JobEvent × Bool
  | [] => ([], true)
  | (brand, FetchOutcome.ok) :: rest =>
    (JobEvent.generating brand :: JobEvent.generated brand :: (brandLoop rest).1,
      (brandLoop rest).2)
  | (brand, FetchOutcome.notOk) :: rest =>
    (JobEvent.generating brand :: JobEvent.failed brand :: (brandLoop rest).1,
      (brandLoop rest).2)
  | (brand, FetchOutcome.thrown) :: _ => ([JobEvent.generating brand], false)

/-- The callback of `cron.schedule`: `brands` is what `Brand.find` gives
(`none` when it throws); the `try` block holds the whole loop and the `catch`
block writes the job error. -/
def dailyJob (brands : Option (List (String × FetchOutcome))) : List JobEvent :=
  match brands with
  | none => [JobEvent.starting, JobEvent.jobError]
  | some brands =>
    JobEvent.starting :: ((brandLoop brands).1
      ++ [if (brandLoop brands).2 then JobEvent.completed else JobEvent.jobError])

/-- The brands for which the job called `fetch`. -/
def attempted (events : List JobEvent) : List String :=
  events.filterMap (fun e =>
    match e with
    | JobEvent.generating brand => some brand
    | _ => none)

/-! ## generate-daily (`routes/analytics.js`, lines 302-332) -/

/-- What the handler of `POST /generate-daily` answers. -/
inductive GenerateDailyReply where
  | success (message : String) (analytics : AnalyticsResult)
  | badRequest (message : String)
  | serverError (message : String)

/-- The handler: `brand` is the field of the request body, `query` what the
query of the mentions gives and `save` what `savedAnalytics.save()` gives (an
error stands for a thrown error with that message). The `Analytics` model is a
required module, so the guard `if (Analytics)` holds. -/
def generateDaily (tz : Int → Int) (brand : Option String)
    (query : Except String (List Mention)) (save : Except String Unit) : GenerateDailyReply :=
  if brand = none ∨ brand = some "" then
    GenerateDailyReply.badRequest "Brand name is required"
  else
    match query with
    | Except.error message => GenerateDailyReply.serverError message
    | Except.ok mentions =>
      match save with
      | Except.error message => GenerateDailyReply.serverError message
      | Except.ok _ =>
        GenerateDailyReply.success "Daily analytics generated successfully"
          (calculateRealTimeAnalytics tz mentions)

/-! ## Quick stats (`models/Dashboard.js`, lines 93-120) -/

/-- A JavaScript number that need not be finite. -/
inductive JSNumber where
  | finite (value : ℚ)
  | infinity
  | negInfinity
  | nan
deriving DecidableEq

/-- Source: `count / total * 100` on two finite numbers, with no guard: a zero
divisor gives NaN for 0 / 0 and an infinity otherwise, and the product with
100 keeps them. -/
def jsRate (count total : ℚ) : JSNumber :=
  if total = 0 then
    if count = 0 then JSNumber.nan
    else if count > 0 then JSNumber.infinity
    else JSNumber.negInfinity
  else JSNumber.finite (count / total * 100)

/-- The object assigned to `quickStats`. -/
structure QuickStats where
  totalMentions : Nat
  positiveRate : JSNumber
  negativeRate : JSNumber
  avgEngagement : ℚ
  topSource : Source
  trendingTopic : String
deriving DecidableEq

/-- What `updateQuickStats` does to `quickStats`: nothing when there is no
snapshot, a new object, or a TypeError thrown by the `reduce` over an empty
array of entries. -/
inductive QuickStatsOutcome where
  | unchanged
  | assigned (stats : QuickStats)
  | thrown
deriving DecidableEq

/-- The method `updateQuickStats`, on the latest snapshot `recentAnalytics` of
the brand (`none` when there is none), up to the object it assigns. -/
def updateQuickStats (recentAnalytics : Option AnalyticsResult) : QuickStatsOutcome :=
  match recentAnalytics with
  | none => QuickStatsOutcome.unchanged
  | some snapshot =>
    match reduce1 pickTop snapshot.sourceBreakdown with
    | none => QuickStatsOutcome.thrown
    | some top =>
      QuickStatsOutcome.assigned
        { totalMentions := snapshot.metrics.totalMentions
          positiveRate :=
            jsRate (snapshot.metrics.positiveMentions : ℚ) (snapshot.metrics.totalMentions : ℚ)
          negativeRate :=
            jsRate (snapshot.metrics.negativeMentions : ℚ) (snapshot.metrics.totalMentions : ℚ)
          avgEngagement := snapshot.metrics.engagementScore
          topSource := top.1
          trendingTopic :=
            match snapshot.topicDistribution with
            | [] => "No topics"
            | first :: _ => first.topic }

/-- The snapshot that generate-daily stores for a brand with no mention in the
window: the analytics of the empty list, with the defaults of the schema for
the five sources. -/
def emptySnapshot : AnalyticsResult :=
  { metrics := (calculateRealTimeAnalytics (fun _ => 0) []).metrics
    sourceBreakdown :=
      [(Source.twitter, 0), (Source.facebook, 0), (Source.news, 0), (Source.blog, 0),
       (Source.forum, 0)]
    topicDistribution := []
    peakHours := (calculateRealTimeAnalytics (fun _ => 0) []).peakHours
    trendingKeywords := [] }

/-! ## Sentiment counts and scores -/

/-- The three label counts add up to the length when every label is valid. -/
theorem label_counts_add (mentions : List Mention)
    (h : ∀ m ∈ mentions, validSentiment m) :
    positiveMentions mentions + negativeMentions mentions + neutralMentions mentions
      = mentions.length := by
  induction mentions with
  | nil => rfl
  | cons m ms ih =>
    have hm : validSentiment m := h m (List.mem_cons_self _ _)
    have ih := ih (fun x hx => h x (List.mem_cons_of_mem _ hx))
    unfold positiveMentions negativeMentions neutralMentions at *
    rcases hm with hm | hm | hm <;> simp [List.filter_cons, hm] <;> omega

/-- The positive and negative counts together never exceed the length. -/
theorem positive_add_negative_le (mentions : List Mention) :
    positiveMentions mentions + negativeMentions mentions ≤ mentions.length := by
  induction mentions with
  | nil => simp [positiveMentions, negativeMentions]
  | cons m ms ih =>
    unfold positiveMentions negativeMentions at *
    by_cases hp : m.sentiment = "positive"
    · simp [List.filter_cons, hp]; omega
    · by_cases hn : m.sentiment = "negative"
      · simp [List.filter_cons, hn]; omega
      · simp [List.filter_cons, hp, hn]; omega

/-- C1: when every mention carries one of the labels positive, negative or
neutral, the metrics of `calculateRealTimeAnalytics` satisfy
positiveMentions + negativeMentions + neutralMentions = totalMentions, and
totalMentions is the length of the list. -/
theorem metrics_counts_sum (tz : Int → Int) (mentions : List Mention)
    (h : ∀ m ∈ mentions, validSentiment m) :
    (calculateRealTimeAnalytics tz mentions).metrics.positiveMentions
        + (calculateRealTimeAnalytics tz mentions).metrics.negativeMentions
        + (calculateRealTimeAnalytics tz mentions).metrics.neutralMentions
      = (calculateRealTimeAnalytics tz mentions).metrics.totalMentions
    ∧ (calculateRealTimeAnalytics tz mentions).metrics.totalMentions = mentions.length :=
  ⟨label_counts_add mentions h, rfl⟩

/-- C1 on three sample mentions with valid labels: the total is 3. -/
theorem metrics_counts_sum_witness :
    (∀ m ∈ [sampleMention "positive" .news ["a"] 0, sampleMention "neutral" .blog [] 5,
        sampleMention "negative" .forum ["b"] 7], validSentiment m)
    ∧ (calculateRealTimeAnalytics (fun _ => 0)
        [sampleMention "positive" .news ["a"] 0, sampleMention "neutral" .blog [] 5,
          sampleMention "negative" .forum ["b"] 7]).metrics.totalMentions = 3 :=
  ⟨by decide,
    (metrics_counts_sum (fun _ => 0)
      [sampleMention "positive" .news ["a"] 0, sampleMention "neutral" .blog [] 5,
        sampleMention "negative" .forum ["b"] 7] (by decide)).2⟩

/-- C2: the sentiment score of `calculateRealTimeAnalytics` is 0 for the empty
list and (positiveMentions - negativeMentions) / totalMentions otherwise, and
it lies in the closed interval from -1 to 1. -/
theorem sentimentScore_value_and_range (tz : Int → Int) (mentions : List Mention) :
    (calculateRealTimeAnalytics tz mentions).metrics.sentimentScore
      = (if mentions = [] then 0
         else (((calculateRealTimeAnalytics tz mentions).metrics.positiveMentions : ℚ)
            - ((calculateRealTimeAnalytics tz mentions).metrics.negativeMentions : ℚ))
            / ((calculateRealTimeAnalytics tz mentions).metrics.totalMentions : ℚ))
    ∧ -1 ≤ (calculateRealTimeAnalytics tz mentions).metrics.sentimentScore
    ∧ (calculateRealTimeAnalytics tz mentions).metrics.sentimentScore ≤ 1 := by
  show sentimentScore mentions = (if mentions = [] then 0
         else ((positiveMentions mentions : ℚ) - (negativeMentions mentions : ℚ))
            / (totalMentions mentions : ℚ))
    ∧ -1 ≤ sentimentScore mentions ∧ sentimentScore mentions ≤ 1
  have hle := positive_add_negative_le mentions
  unfold sentimentScore totalMentions
  cases mentions with
  | nil => simp
  | cons m ms =>
    have hpos : (0 : ℚ) < (((m :: ms).length : ℕ) : ℚ) := by
      have : 0 < (m :: ms).length := by simp
      exact_mod_cast this
    have hq : ((positiveMentions (m :: ms) : ℚ) + (negativeMentions (m :: ms) : ℚ))
        ≤ (((m :: ms).length : ℕ) : ℚ) := by exact_mod_cast hle
    have hp0 : (0 : ℚ) ≤ (positiveMentions (m :: ms) : ℚ) := Nat.cast_nonneg _
    have hn0 : (0 : ℚ) ≤ (negativeMentions (m :: ms) : ℚ) := Nat.cast_nonneg _
    have hlen : 0 < (m :: ms).length := by simp
    rw [if_pos hlen, if_neg (List.cons_ne_nil m ms)]
    refine ⟨rfl, ?_, ?_⟩
    · rw [le_div_iff₀ hpos]; linarith
    · rw [div_le_iff₀ hpos]; linarith

/-- The hour of a time value is one of 0..23. -/
theorem getHours_lt (tz : Int → Int) (timestamp : Int) : getHours tz timestamp < 24 := by
  unfold getHours
  have h1 : 0 ≤ ((timestamp + tz timestamp) / 3600000) % 24 := Int.emod_nonneg _ (by norm_num)
  have h2 : ((timestamp + tz timestamp) / 3600000) % 24 < 24 := Int.emod_lt_of_pos _ (by norm_num)
  omega

/-- One more slot: the keys below `n + 1` are those below `n` and those equal
to `n`. -/
theorem filter_lt_succ_length {α : Type} (key : α → Nat) (l : List α) (n : Nat) :
    (l.filter (fun a => key a < n)).length + (l.filter (fun a => key a = n)).length
      = (l.filter (fun a => key a < n + 1)).length := by
  induction l with
  | nil => simp
  | cons a l ihl =>
    simp only [List.filter_cons]
    by_cases h1 : key a < n
    · have h2 : key a ≠ n := by omega
      have h3 : key a < n + 1 := by omega
      simp [h1, h2, h3]; omega
    · by_cases h2 : key a = n
      · have h3 : key a < n + 1 := by omega
        simp [h1, h2]; omega
      · have h3 : ¬ key a < n + 1 := by omega
        simp [h1, h2, h3]; omega

/-- Counting a list by the values below `n` of a key, slot by slot. -/
theorem sum_slot_counts {α : Type} (key : α → Nat) (l : List α) (n : Nat) :
    ((List.range n).map (fun i => (l.filter (fun a => key a = i)).length)).sum
      = (l.filter (fun a => key a < n)).length := by
  induction n with
  | zero => simp
  | succ n ih =>
    rw [List.range_succ, List.map_append, List.sum_append, ih]
    simp only [List.map_cons, List.map_nil, List.sum_cons, List.sum_nil, Nat.add_zero]
    exact filter_lt_succ_length key l n

/-- C3: `peakHours` of `calculateRealTimeAnalytics` has exactly 24 entries, the
hours of its entries are 0, 1, ..., 23 in this order, the count of the entry of
hour i is the number of mentions whose timestamp hour is i (a natural number,
hence never negative), and the 24 counts add up to totalMentions. -/
theorem peakHours_slots (tz : Int → Int) (mentions : List Mention) :
    (calculateRealTimeAnalytics tz mentions).peakHours.length = 24
    ∧ (calculateRealTimeAnalytics tz mentions).peakHours.map (fun e => e.hour)
        = List.range 24
    ∧ (calculateRealTimeAnalytics tz mentions).peakHours.map (fun e => e.count)
        = (List.range 24).map (fun i =>
            (mentions.filter (fun m => getHours tz m.timestamp = i)).length)
    ∧ ((calculateRealTimeAnalytics tz mentions).peakHours.map (fun e => e.count)).sum
        = (calculateRealTimeAnalytics tz mentions).metrics.totalMentions := by
  show (peakHours tz mentions).length = 24
    ∧ (peakHours tz mentions).map (fun e => e.hour) = List.range 24
    ∧ (peakHours tz mentions).map (fun e => e.count)
        = (List.range 24).map (fun i =>
            (mentions.filter (fun m => getHours tz m.timestamp = i)).length)
    ∧ ((peakHours tz mentions).map (fun e => e.count)).sum = totalMentions mentions
  have hc : (peakHours tz mentions).map (fun e => e.count)
      = (List.range 24).map (fun i =>
          (mentions.filter (fun m => getHours tz m.timestamp = i)).length) := by
    simp [peakHours, List.map_map, Function.comp_def]
  refine ⟨by simp [peakHours], ?_, hc, ?_⟩
  · simp [peakHours, List.map_map, Function.comp_def]
  · rw [hc, sum_slot_counts (fun m => getHours tz m.timestamp) mentions 24]
    unfold totalMentions
    congr 1
    apply List.filter_eq_self.mpr
    intro m _
    simpa using getHours_lt tz m.timestamp

/-- The running sum of the engagement `reduce`, from any start value. -/
theorem engagement_foldl (mentions : List Mention) (start : Nat) :
    mentions.foldl
        (fun sum mention => sum + likesOf mention + sharesOf mention + commentsOf mention) start
      = start + (mentions.map (fun m =>
          match m.engagement with
          | none => 0
          | some e => e.likes.getD 0 + e.shares.getD 0 + e.comments.getD 0)).sum := by
  induction mentions generalizing start with
  | nil => simp
  | cons m ms ih =>
    rw [List.foldl_cons, ih]
    simp only [List.map_cons, List.sum_cons]
    cases hm : m.engagement with
    | none => simp [likesOf, sharesOf, commentsOf, hm]
    | some e => simp [likesOf, sharesOf, commentsOf, hm]; omega

/-- C8: the engagement score of `calculateRealTimeAnalytics` is 0 for the empty
list, and otherwise the sum over the mentions of likes + shares + comments,
where a missing field and a missing engagement record count as 0, divided by
the number of mentions. -/
theorem engagementScore_mean (tz : Int → Int) (mentions : List Mention) :
    (calculateRealTimeAnalytics tz mentions).metrics.engagementScore
      = (if mentions = [] then 0
         else (((mentions.map (fun m =>
            match m.engagement with
            | none => 0
            | some e => e.likes.getD 0 + e.shares.getD 0 + e.comments.getD 0)).sum : ℕ) : ℚ)
            / ((mentions.length : ℕ) : ℚ)) := by
  show engagementScore mentions = _
  unfold engagementScore engagementTotal totalMentions
  cases mentions with
  | nil => simp
  | cons m ms =>
    have hlen : 0 < (m :: ms).length := by simp
    rw [if_pos hlen, if_neg (List.cons_ne_nil m ms), engagement_foldl, Nat.zero_add]

/-! ## Source breakdown -/

/-- Reading a property after a write. -/
theorem SourceMap.get_set (acc : SourceMap) (k k' : Source) (v : Nat) :
    (acc.set k v).get k' = if k' = k then some v else acc.get k' := by
  induction acc with
  | nil =>
    by_cases h : k' = k
    · simp [SourceMap.set, SourceMap.get, h]
    · have h' : ¬ k = k' := fun e => h e.symm
      simp [SourceMap.set, SourceMap.get, h, h']
  | cons p rest ih =>
    unfold SourceMap.get at ih ⊢
    by_cases hp : p.1 = k
    · by_cases h : k' = k
      · simp [SourceMap.set, hp, h]
      · have h' : ¬ k = k' := fun e => h e.symm
        have h'' : ¬ p.1 = k' := fun e => h (e.symm.trans hp)
        simp [SourceMap.set, hp, h, h', List.find?_cons, h'', hp ▸ h'']
    · by_cases h : k' = k
      · have h'' : ¬ p.1 = k' := fun e => hp (e.trans h)
        simp only [SourceMap.set, hp, if_false, List.find?_cons, h'', decide_False]
        simpa [h] using ih
      · by_cases hq : p.1 = k'
        · simp [SourceMap.set, hp, h, List.find?_cons, hq]
        · simp only [SourceMap.set, hp, if_false, List.find?_cons, hq, decide_False]
          simpa [h] using ih

/-- A write changes the sum of the values by the difference of the new and
the old value of the property. -/
theorem SourceMap.sum_set (acc : SourceMap) (k : Source) (v : Nat) :
    ((acc.set k v).map (fun p => p.2)).sum + (acc.get k).getD 0
      = (acc.map (fun p => p.2)).sum + v := by
  induction acc with
  | nil => simp [SourceMap.set, SourceMap.get]
  | cons p rest ih =>
    unfold SourceMap.get at ih ⊢
    by_cases hp : p.1 = k
    · simp [SourceMap.set, hp, List.find?_cons]; omega
    · simp only [SourceMap.set, hp, if_false, List.find?_cons, decide_False, List.map_cons,
        List.sum_cons]
      omega

/-- A write keeps the property names distinct. -/
theorem SourceMap.keys_set (acc : SourceMap) (k : Source) (v : Nat) :
    (acc.set k v).map (fun p => p.1)
      = if k ∈ acc.map (fun p => p.1) then acc.map (fun p => p.1)
        else acc.map (fun p => p.1) ++ [k] := by
  induction acc with
  | nil => simp [SourceMap.set]
  | cons p rest ih =>
    by_cases hp : p.1 = k
    · simp [SourceMap.set, hp]
    · have hp' : ¬ k = p.1 := fun e => hp e.symm
      simp only [SourceMap.set, hp, if_false, List.map_cons, List.mem_cons, hp', false_or, ih]
      split <;> simp

/-- The value of a property after the `reduce` has run over `mentions` from
the accumulator `acc`. -/
theorem sourceFold_get (mentions : List Mention) (acc : SourceMap) (s : Source) :
    (mentions.foldl sourceStep acc).get s
      = if (mentions.filter (fun m => m.source = s)).length = 0 then acc.get s
        else some ((acc.get s).getD 0 + (mentions.filter (fun m => m.source = s)).length) := by
  induction mentions generalizing acc with
  | nil => simp
  | cons m ms ih =>
    rw [List.foldl_cons, ih]
    unfold sourceStep
    rw [SourceMap.get_set]
    by_cases hs : m.source = s
    · have hs' : s = m.source := hs.symm
      subst hs'
      by_cases h0 : (ms.filter (fun x => x.source = m.source)).length = 0
      · simp [List.filter_cons, h0]
      · simp [List.filter_cons, h0]; omega
    · have hs' : ¬ s = m.source := fun e => hs e.symm
      simp [List.filter_cons, hs, hs']

/-- The sum of the values after the `reduce` has run over `mentions`. -/
theorem sourceFold_sum (mentions : List Mention) (acc : SourceMap) :
    ((mentions.foldl sourceStep acc).map (fun p => p.2)).sum
      = (acc.map (fun p => p.2)).sum + mentions.length := by
  induction mentions generalizing acc with
  | nil => simp
  | cons m ms ih =>
    rw [List.foldl_cons, ih]
    have h := SourceMap.sum_set acc m.source ((acc.get m.source).getD 0 + 1)
    unfold sourceStep
    simp only [List.length_cons]
    omega

/-- The property names stay distinct through the `reduce`. -/
theorem sourceFold_nodup (mentions : List Mention) (acc : SourceMap)
    (h : (acc.map (fun p => p.1)).Nodup) :
    ((mentions.foldl sourceStep acc).map (fun p => p.1)).Nodup := by
  induction mentions generalizing acc with
  | nil => simpa using h
  | cons m ms ih =>
    rw [List.foldl_cons]
    apply ih
    unfold sourceStep
    rw [SourceMap.keys_set]
    split
    · exact h
    · rename_i hk
      exact List.Nodup.append h (List.nodup_singleton _) (by simpa using hk)

/-- C7: `sourceBreakdown` of `calculateRealTimeAnalytics` maps a source to n
exactly when n > 0 mentions of the list carry that source: a source carried by
no mention is absent, every other source is mapped to the number of mentions
that carry it; each source is a key at most once, and the values of the map
add up to totalMentions. -/
theorem sourceBreakdown_counts (tz : Int → Int) (mentions : List Mention) :
    (∀ s : Source, (calculateRealTimeAnalytics tz mentions).sourceBreakdown.get s
        = if (mentions.filter (fun m => m.source = s)).length = 0 then none
          else some (mentions.filter (fun m => m.source = s)).length)
    ∧ ((calculateRealTimeAnalytics tz mentions).sourceBreakdown.map (fun p => p.1)).Nodup
    ∧ ((calculateRealTimeAnalytics tz mentions).sourceBreakdown.map (fun p => p.2)).sum
        = (calculateRealTimeAnalytics tz mentions).metrics.totalMentions := by
  show (∀ s : Source, (sourceBreakdown mentions).get s
        = if (mentions.filter (fun m => m.source = s)).length = 0 then none
          else some (mentions.filter (fun m => m.source = s)).length)
    ∧ ((sourceBreakdown mentions).map (fun p => p.1)).Nodup
    ∧ ((sourceBreakdown mentions).map (fun p => p.2)).sum = totalMentions mentions
  unfold sourceBreakdown totalMentions
  refine ⟨fun s => ?_, sourceFold_nodup mentions [] (by simp), ?_⟩
  · rw [sourceFold_get]
    simp [SourceMap.get]
  · rw [sourceFold_sum]
    simp

/-! ## Topic distribution -/

/-- The in-place update leaves the topics and their order as they are. -/
theorem bumpFirst_topics (t s : String) (acc : List TopicEntry) :
    (bumpFirst t s acc).map (fun e => e.topic) = acc.map (fun e => e.topic) := by
  induction acc with
  | nil => rfl
  | cons e rest ih =>
    by_cases h : e.topic = t
    · simp [bumpFirst, h, bump]
    · simp [bumpFirst, h, ih]

/-- The two branches of `upsert`, by membership of the topic. -/
theorem upsert_eq (acc : List TopicEntry) (t s : String) :
    upsert acc t s
      = if t ∈ acc.map (fun e => e.topic) then bumpFirst t s acc
        else acc ++ [newEntry t s] := by
  unfold upsert
  cases hf : acc.find? (fun e => e.topic = t) with
  | none =>
    have hn : t ∉ acc.map (fun e => e.topic) := by
      intro hm
      rcases List.mem_map.mp hm with ⟨e, he, het⟩
      have := List.find?_eq_none.mp hf e he
      simp [het] at this
    simp [hn]
  | some e =>
    have hm : t ∈ acc.map (fun e => e.topic) := by
      have h1 := List.mem_of_find?_eq_some hf
      have h2 := List.find?_some hf
      exact List.mem_map.mpr ⟨e, h1, by simpa using h2⟩
    simp [hm]

/-- The entries after the in-place update, when the topics are distinct. -/
theorem mem_bumpFirst (t s : String) (acc : List TopicEntry)
    (hnd : (acc.map (fun e => e.topic)).Nodup) (x : TopicEntry)
    (hx : x ∈ bumpFirst t s acc) :
    (x ∈ acc ∧ x.topic ≠ t) ∨ (∃ e ∈ acc, e.topic = t ∧ x = bump e s) := by
  induction acc with
  | nil => simp [bumpFirst] at hx
  | cons e rest ih =>
    rw [List.map_cons, List.nodup_cons] at hnd
    by_cases h : e.topic = t
    · simp only [bumpFirst, h, if_true, List.mem_cons] at hx
      rcases hx with hx | hx
      · exact Or.inr ⟨e, List.mem_cons_self _ _, h, hx⟩
      · left
        refine ⟨List.mem_cons_of_mem _ hx, fun hxt => hnd.1 ?_⟩
        rw [h, ← hxt]
        exact List.mem_map.mpr ⟨x, hx, rfl⟩
    · simp only [bumpFirst, h, if_false, List.mem_cons] at hx
      rcases hx with hx | hx
      · exact Or.inl ⟨by rw [hx]; exact List.mem_cons_self _ _, by rw [hx]; exact h⟩
      · rcases ih hnd.2 hx with ⟨h1, h2⟩ | ⟨e', he', h1, h2⟩
        · exact Or.inl ⟨List.mem_cons_of_mem _ h1, h2⟩
        · exact Or.inr ⟨e', List.mem_cons_of_mem _ he', h1, h2⟩

/-- Processing one more tag keeps the invariant of the accumulated entries. -/
theorem TopicInv.step {acc : List TopicEntry} {seen : List (String × String)}
    (inv : TopicInv acc seen) (t s : String) :
    TopicInv (upsert acc t s) (seen ++ [(t, s)]) := by
  rw [upsert_eq]
  by_cases hm : t ∈ acc.map (fun e => e.topic)
  · rw [if_pos hm]
    have hts : t ∈ seen.map (fun p => p.1) := by
      rcases List.mem_map.mp hm with ⟨e, he, het⟩
      exact het ▸ inv.sound e he
    refine ⟨?_, ?_, ?_, ?_, ?_⟩
    · rw [bumpFirst_topics]; exact inv.nodup
    · intro p hp
      rw [bumpFirst_topics]
      rcases List.mem_append.mp hp with hp | hp
      · exact inv.complete p hp
      · have : p = (t, s) := by simpa using hp
        rw [this]; exact hm
    · intro e he
      have h1 : e.topic ∈ (bumpFirst t s acc).map (fun e => e.topic) :=
        List.mem_map.mpr ⟨e, he, rfl⟩
      rw [bumpFirst_topics] at h1
      rcases List.mem_map.mp h1 with ⟨e', he', het⟩
      rw [List.map_append, ← het]
      exact List.mem_append_left _ (inv.sound e' he')
    · intro x hx
      rcases mem_bumpFirst t s acc inv.nodup x hx with ⟨h1, h2⟩ | ⟨e, he, h1, h2⟩
      · have h3 : ¬ t = x.topic := fun e => h2 e.symm
        have := inv.counts x h1
        simp only [List.countP_append, List.countP_singleton, h3, decide_False, false_and]
        simpa using this
      · have := inv.counts e he
        simp only [Bool.decide_and] at this
        subst h2
        subst h1
        simp only [List.countP_append, List.countP_singleton, bump, true_and, decide_True]
        refine ⟨by simp; omega, ?_, ?_, ?_⟩
        · by_cases hs : s = "positive" <;> simp [hs] <;> omega
        · by_cases hs : s = "negative" <;> simp [hs] <;> omega
        · by_cases hs : s = "neutral" <;> simp [hs] <;> omega
    · rw [bumpFirst_topics]
      have hall : ∀ a ∈ acc.map (fun e => e.topic), a ∈ seen.map (fun p => p.1) := by
        intro a ha
        rcases List.mem_map.mp ha with ⟨e, he, het⟩
        exact het ▸ inv.sound e he
      refine List.Pairwise.imp_of_mem ?_ inv.order
      intro a b ha hb hab
      rw [List.map_append, List.indexOf_append_of_mem (hall a ha),
        List.indexOf_append_of_mem (hall b hb)]
      exact hab
  · rw [if_neg hm]
    have hts : t ∉ seen.map (fun p => p.1) := by
      intro h
      rcases List.mem_map.mp h with ⟨p, hp, hpt⟩
      exact hm (hpt ▸ inv.complete p hp)
    have hall : ∀ a ∈ acc.map (fun e => e.topic), a ∈ seen.map (fun p => p.1) := by
      intro a ha
      rcases List.mem_map.mp ha with ⟨e, he, het⟩
      exact het ▸ inv.sound e he
    have hzero : ∀ q : String × String → Bool, (∀ p, q p = true → p.1 = t) →
        seen.countP q = 0 := by
      intro q hq
      rw [List.countP_eq_zero]
      intro p hp hqp
      exact hts (List.mem_map.mpr ⟨p, hp, hq p hqp⟩)
    refine ⟨?_, ?_, ?_, ?_, ?_⟩
    · rw [List.map_append]
      exact List.Nodup.append inv.nodup (List.nodup_singleton _) (by simpa [newEntry] using hm)
    · intro p hp
      rw [List.map_append]
      rcases List.mem_append.mp hp with hp | hp
      · exact List.mem_append_left _ (inv.complete p hp)
      · have : p = (t, s) := by simpa using hp
        rw [this]; simp [newEntry]
    · intro e he
      rw [List.map_append]
      rcases List.mem_append.mp he with he | he
      · exact List.mem_append_left _ (inv.sound e he)
      · have : e = newEntry t s := by simpa using he
        rw [this]; simp [newEntry]
    · intro x hx
      rcases List.mem_append.mp hx with hx | hx
      · have h2 : ¬ t = x.topic := fun e => hm (e ▸ List.mem_map.mpr ⟨x, hx, rfl⟩)
        have := inv.counts x hx
        simp only [List.countP_append, List.countP_singleton, h2, decide_False, false_and]
        simpa using this
      · have hx' : x = newEntry t s := by simpa using hx
        subst hx'
        have h0 := hzero (fun p => p.1 = t) (by simp)
        have h1 := hzero (fun p => p.1 = t ∧ p.2 = "positive") (by simp)
        have h2 := hzero (fun p => p.1 = t ∧ p.2 = "negative") (by simp)
        have h3 := hzero (fun p => p.1 = t ∧ p.2 = "neutral") (by simp)
        simp only [List.countP_append, List.countP_singleton, newEntry, h0, h1, h2, h3]
        simp
    · simp only [List.map_append, List.map_cons, List.map_nil]
      rw [List.pairwise_append]
      refine ⟨?_, by simp, ?_⟩
      · refine List.Pairwise.imp_of_mem ?_ inv.order
        intro a b ha hb hab
        rw [List.indexOf_append_of_mem (hall a ha),
          List.indexOf_append_of_mem (hall b hb)]
        exact hab
      · intro a ha b hb
        have hb' : b = t := by simpa [newEntry] using hb
        subst hb'
        rw [List.indexOf_append_of_mem (hall a ha),
          List.indexOf_append_of_not_mem hts]
        have := List.indexOf_lt_length.mpr (hall a ha)
        omega

/-- The invariant holds of the empty accumulator. -/
theorem TopicInv.nil : TopicInv [] [] :=
  ⟨by simp, by simp, by simp, by simp, by simp⟩

/-- Processing a list of tags keeps the invariant. -/
theorem TopicInv.fold (ps : List (String × String)) {acc : List TopicEntry}
    {seen : List (String × String)} (inv : TopicInv acc seen) :
    TopicInv (ps.foldl (fun a p => upsert a p.1 p.2) acc) (seen ++ ps) := by
  induction ps generalizing acc seen with
  | nil => simpa using inv
  | cons p ps ih =>
    rw [List.foldl_cons]
    have h := ih (inv.step p.1 p.2)
    simpa [List.append_assoc] using h

/-- The callback of the `reduce` processes the tags of the mention in order. -/
theorem addMention_eq (acc : List TopicEntry) (m : Mention) :
    addMention acc m
      = ((tagsOf m).map (fun t => (t, m.sentiment))).foldl (fun a p => upsert a p.1 p.2) acc := by
  unfold addMention tagsOf
  cases m.topics with
  | none => simp
  | some topics => simp [List.foldl_map]

/-- The `reduce` over the mentions is one pass over all tags. -/
theorem foldl_addMention (mentions : List Mention) (acc : List TopicEntry) :
    mentions.foldl addMention acc
      = (tagPairs mentions).foldl (fun a p => upsert a p.1 p.2) acc := by
  induction mentions generalizing acc with
  | nil => simp [tagPairs]
  | cons m ms ih =>
    rw [List.foldl_cons, ih, addMention_eq]
    simp [tagPairs, List.flatMap_cons, List.foldl_append]

/-- The invariant holds of the accumulated entries of a mention list. -/
theorem topicAccumulate_inv (mentions : List Mention) :
    TopicInv (topicAccumulate mentions) (tagPairs mentions) := by
  unfold topicAccumulate
  rw [foldl_addMention]
  simpa using TopicInv.fold (tagPairs mentions) TopicInv.nil

/-- The tags of the pairs are all the tags. -/
theorem tagPairs_fst (mentions : List Mention) :
    (tagPairs mentions).map (fun p => p.1) = allTags mentions := by
  induction mentions with
  | nil => simp [tagPairs, allTags]
  | cons m ms ih =>
    simp only [tagPairs, allTags, List.flatMap_cons, List.map_append] at ih ⊢
    rw [ih]
    simp [List.map_map, Function.comp_def]

/-- The occurrences of a tag, counted on the pairs. -/
theorem countP_tagPairs (mentions : List Mention) (t : String) :
    (tagPairs mentions).countP (fun p => p.1 = t) = (allTags mentions).count t := by
  rw [← tagPairs_fst, List.count, List.countP_map]
  congr 1

/-- The occurrences of a tag on the mentions of one label, counted on the
pairs. -/
theorem countP_tagPairs_label (mentions : List Mention) (t label : String) :
    (tagPairs mentions).countP (fun p => p.1 = t ∧ p.2 = label)
      = (allTags (mentions.filter (fun m => m.sentiment = label))).count t := by
  induction mentions with
  | nil => simp [tagPairs, allTags]
  | cons m ms ih =>
    simp only [tagPairs, allTags, List.flatMap_cons, List.countP_append] at ih ⊢
    rw [ih]
    by_cases hl : m.sentiment = label
    · simp only [List.filter_cons, hl, decide_True, if_true, List.flatMap_cons,
        List.count_append]
      congr 1
      rw [List.countP_map, List.count]
      congr 1
      funext x
      by_cases hx : x = t
      · subst hx; simp
      · have hx' : ¬ t = x := fun e => hx e.symm
        simp [hx, hx']
    · simp only [List.filter_cons, hl, decide_False, if_false]
      rw [List.countP_map]
      simp [Function.comp_def, hl]

/-! ### Sorting and the cut at ten entries -/

/-- Inserting an entry into a list keeps a relation that holds between the
entry and all the list and is forced wherever the comparator would swap. -/
theorem orderedInsert_pairwise (P : TopicEntry → TopicEntry → Prop)
    (hP : ∀ a b, ¬ countDesc a b → P b a) (a : TopicEntry) (l : List TopicEntry)
    (hl : l.Pairwise P) (ha : ∀ b ∈ l, P a b) :
    (l.orderedInsert countDesc a).Pairwise P := by
  induction l with
  | nil => simp
  | cons b l ih =>
    rw [List.pairwise_cons] at hl
    by_cases hab : countDesc a b
    · rw [List.orderedInsert, if_pos hab]
      exact List.pairwise_cons.mpr ⟨ha, List.pairwise_cons.mpr hl⟩
    · rw [List.orderedInsert, if_neg hab]
      refine List.pairwise_cons.mpr ⟨?_, ih hl.2 (fun c hc => ha c (List.mem_cons_of_mem _ hc))⟩
      intro c hc
      rcases (List.mem_orderedInsert countDesc).mp hc with hc | hc
      · rw [hc]; exact hP a b hab
      · exact hl.1 c hc

/-- The sort is stable: a relation between earlier and later entries that is
forced wherever the comparator would swap still holds after sorting. -/
theorem insertionSort_pairwise (P : TopicEntry → TopicEntry → Prop)
    (hP : ∀ a b, ¬ countDesc a b → P b a) (l : List TopicEntry) (hl : l.Pairwise P) :
    (l.insertionSort countDesc).Pairwise P := by
  induction l with
  | nil => simp
  | cons a l ih =>
    rw [List.pairwise_cons] at hl
    rw [List.insertionSort]
    exact orderedInsert_pairwise P hP a _ (ih hl.2)
      (fun b hb => hl.1 b ((List.mem_insertionSort countDesc).mp hb))

/-- The sorted entries are the accumulated entries in another order. -/
theorem topicSorted_perm (mentions : List Mention) :
    (topicSorted mentions).Perm (topicAccumulate mentions) :=
  List.perm_insertionSort countDesc _

/-- The counts of the sorted entries never increase. -/
theorem topicSorted_sorted (mentions : List Mention) :
    (topicSorted mentions).Pairwise countDesc :=
  List.sorted_insertionSort countDesc _

/-- Every entry of the sorted list carries the number of occurrences of its
topic, overall and per label. -/
theorem topicSorted_counts (mentions : List Mention) (e : TopicEntry)
    (he : e ∈ topicSorted mentions) :
    e.count = (allTags mentions).count e.topic
    ∧ e.sentiment.positive
        = (allTags (mentions.filter (fun m => m.sentiment = "positive"))).count e.topic
    ∧ e.sentiment.negative
        = (allTags (mentions.filter (fun m => m.sentiment = "negative"))).count e.topic
    ∧ e.sentiment.neutral
        = (allTags (mentions.filter (fun m => m.sentiment = "neutral"))).count e.topic := by
  have hacc : e ∈ topicAccumulate mentions := (topicSorted_perm mentions).mem_iff.mp he
  have h := (topicAccumulate_inv mentions).counts e hacc
  rw [countP_tagPairs, countP_tagPairs_label, countP_tagPairs_label, countP_tagPairs_label] at h
  exact h

/-- Every tag of the mentions has an entry in the sorted list. -/
theorem topicSorted_complete (mentions : List Mention) (t : String)
    (ht : t ∈ allTags mentions) : ∃ e ∈ topicSorted mentions, e.topic = t := by
  rw [← tagPairs_fst] at ht
  rcases List.mem_map.mp ht with ⟨p, hp, hpt⟩
  have h := (topicAccumulate_inv mentions).complete p hp
  rcases List.mem_map.mp h with ⟨e, he, het⟩
  exact ⟨e, (topicSorted_perm mentions).mem_iff.mpr he, het.trans hpt⟩

/-- C4: `topicDistribution` of `calculateRealTimeAnalytics` has at most 10
entries, its counts never increase from first to last, no topic text appears
in two entries, and every topic of the mentions that is left out occurs no
more often than the count of any entry kept, the last one included. -/
theorem topicDistribution_top_ten (tz : Int → Int) (mentions : List Mention) :
    (calculateRealTimeAnalytics tz mentions).topicDistribution.length ≤ 10
    ∧ (calculateRealTimeAnalytics tz mentions).topicDistribution.Pairwise
        (fun a b => b.count ≤ a.count)
    ∧ ((calculateRealTimeAnalytics tz mentions).topicDistribution.map
        (fun e => e.topic)).Nodup
    ∧ (∀ t ∈ allTags mentions,
        t ∉ (calculateRealTimeAnalytics tz mentions).topicDistribution.map (fun e => e.topic) →
        ∀ k ∈ (calculateRealTimeAnalytics tz mentions).topicDistribution,
          (allTags mentions).count t ≤ k.count) := by
  show (topicDistribution mentions).length ≤ 10
    ∧ (topicDistribution mentions).Pairwise (fun a b => b.count ≤ a.count)
    ∧ ((topicDistribution mentions).map (fun e => e.topic)).Nodup
    ∧ (∀ t ∈ allTags mentions, t ∉ (topicDistribution mentions).map (fun e => e.topic) →
        ∀ k ∈ topicDistribution mentions, (allTags mentions).count t ≤ k.count)
  unfold topicDistribution
  have hsorted := topicSorted_sorted mentions
  have hnd : ((topicSorted mentions).map (fun e => e.topic)).Nodup :=
    (((topicSorted_perm mentions).map (fun e => e.topic)).nodup_iff).mpr
      (topicAccumulate_inv mentions).nodup
  refine ⟨?_, ?_, ?_, ?_⟩
  · rw [List.length_take]; omega
  · exact hsorted.sublist (List.take_sublist 10 _)
  · exact hnd.sublist ((List.take_sublist 10 _).map _)
  · intro t ht hout k hk
    rcases topicSorted_complete mentions t ht with ⟨e, he, het⟩
    have hcount := (topicSorted_counts mentions e he).1
    rw [het] at hcount
    rw [← hcount]
    rw [← List.take_append_drop 10 (topicSorted mentions)] at he hsorted
    rcases List.mem_append.mp he with he | he
    · exact absurd (List.mem_map.mpr ⟨e, he, het⟩) hout
    · exact (List.pairwise_append.mp hsorted).2.2 k hk e he

/-- C5: in the sorted topic entries, of which `topicDistribution` is the first
ten and the rest are the entries cut off, any two entries with equal counts
stand in first-seen order: the topic of the earlier entry occurs first in the
scan of the mentions in list order and of each mention's tags in tag order.
This holds among the entries kept and across the cut. -/
theorem topicDistribution_ties_first_seen (tz : Int → Int) (mentions : List Mention) :
    ((calculateRealTimeAnalytics tz mentions).topicDistribution
        ++ (topicSorted mentions).drop 10).Pairwise
      (fun a b => a.count = b.count →
        (allTags mentions).indexOf a.topic < (allTags mentions).indexOf b.topic)
    ∧ ((calculateRealTimeAnalytics tz mentions).topicDistribution
        ++ (topicSorted mentions).drop 10).Perm (topicAccumulate mentions) := by
  show ((topicSorted mentions).take 10 ++ (topicSorted mentions).drop 10).Pairwise
      (fun a b => a.count = b.count →
        (allTags mentions).indexOf a.topic < (allTags mentions).indexOf b.topic)
    ∧ ((topicSorted mentions).take 10 ++ (topicSorted mentions).drop 10).Perm
        (topicAccumulate mentions)
  rw [List.take_append_drop]
  refine ⟨?_, topicSorted_perm mentions⟩
  apply insertionSort_pairwise
  · intro a b hab heq
    unfold countDesc at hab
    omega
  · have h := (topicAccumulate_inv mentions).order
    rw [tagPairs_fst, List.pairwise_map] at h
    refine List.Pairwise.imp ?_ h
    intro a b hlt _
    exact hlt

/-- With valid labels, the occurrences of a tag split by label. -/
theorem count_split_labels (mentions : List Mention)
    (h : ∀ m ∈ mentions, validSentiment m) (t : String) :
    (allTags (mentions.filter (fun m => m.sentiment = "positive"))).count t
      + (allTags (mentions.filter (fun m => m.sentiment = "negative"))).count t
      + (allTags (mentions.filter (fun m => m.sentiment = "neutral"))).count t
      = (allTags mentions).count t := by
  induction mentions with
  | nil => simp [allTags]
  | cons m ms ih =>
    have hm : validSentiment m := h m (List.mem_cons_self _ _)
    have ih := ih (fun x hx => h x (List.mem_cons_of_mem _ hx))
    unfold allTags at *
    rcases hm with hm | hm | hm <;>
      simp [List.filter_cons, hm, List.flatMap_cons, List.count_append] <;> omega

/-- C6: when every mention carries one of the labels positive, negative or
neutral, each entry of `topicDistribution` has count equal to the number of
occurrences of its topic over all tag lists of all mentions (repeats on one
mention included), its positive, negative and neutral sub-counts equal the
occurrences on the mentions of that label, and the three sub-counts add up to
count. -/
theorem topicDistribution_entry_counts (tz : Int → Int) (mentions : List Mention)
    (h : ∀ m ∈ mentions, validSentiment m) (e : TopicEntry)
    (he : e ∈ (calculateRealTimeAnalytics tz mentions).topicDistribution) :
    e.count = (allTags mentions).count e.topic
    ∧ e.sentiment.positive
        = (allTags (mentions.filter (fun m => m.sentiment = "positive"))).count e.topic
    ∧ e.sentiment.negative
        = (allTags (mentions.filter (fun m => m.sentiment = "negative"))).count e.topic
    ∧ e.sentiment.neutral
        = (allTags (mentions.filter (fun m => m.sentiment = "neutral"))).count e.topic
    ∧ e.sentiment.positive + e.sentiment.negative + e.sentiment.neutral = e.count := by
  have he' : e ∈ topicSorted mentions := List.mem_of_mem_take he
  have hc := topicSorted_counts mentions e he'
  have hs := count_split_labels mentions h e.topic
  refine ⟨hc.1, hc.2.1, hc.2.2.1, hc.2.2.2, ?_⟩
  omega

/-- C6 on the sample list: the entry of topic b counts its two occurrences. -/
theorem topicDistribution_entry_counts_witness :
    (∀ m ∈ sampleMentions, validSentiment m)
    ∧ ({ topic := "b", count := 2, sentiment := { positive := 1, negative := 1, neutral := 0 } }
        : TopicEntry) ∈ (calculateRealTimeAnalytics (fun _ => 0) sampleMentions).topicDistribution
    ∧ 2 = (allTags sampleMentions).count "b" :=
  ⟨by decide, by decide,
    (topicDistribution_entry_counts (fun _ => 0) sampleMentions (by decide)
      { topic := "b", count := 2, sentiment := { positive := 1, negative := 1, neutral := 0 } }
      (by decide)).1⟩

/-! ## Double-precision arithmetic -/

/-- The double nearest to 0 is 0. -/
theorem binary64_zero : binary64 0 = 0 := by
  simp [binary64]

/-- Rounding to the nearest double keeps a number that is not negative so. -/
theorem binary64_nonneg (x : ℚ) (hx : 0 ≤ x) : 0 ≤ binary64 x := by
  unfold binary64
  by_cases h0 : x = 0
  · simp [h0]
  · have hnlt : ¬ x < 0 := not_lt.mpr hx
    rw [if_neg h0, if_neg hnlt]
    positivity

/-- The double nearest to the fraction n / d in lowest terms, from the
significand and the exponent computed on n and d. -/
theorem binary64_of_frac (n d : ℤ) (m : ℕ) (e : ℤ) (hd : 0 < d) (hn : n ≠ 0)
    (hcop : Nat.Coprime n.natAbs d.natAbs)
    (hm : binaryMantissa n.natAbs d.natAbs = m) (he : binaryExponent n.natAbs d.natAbs = e) :
    binary64 ((n : ℚ) / (d : ℚ)) = (if n < 0 then -1 else 1) * (m : ℚ) * (2 : ℚ) ^ e := by
  have hdq : (0 : ℚ) < (d : ℚ) := by exact_mod_cast hd
  have hnq : (n : ℚ) ≠ 0 := by exact_mod_cast hn
  have hx : (n : ℚ) / (d : ℚ) ≠ 0 := div_ne_zero hnq (ne_of_gt hdq)
  have hnum : ((n : ℚ) / (d : ℚ)).num = n := Rat.num_div_eq_of_coprime hd hcop
  have hden : (((n : ℚ) / (d : ℚ)).den : ℤ) = d := Rat.den_div_eq_of_coprime hd hcop
  have hden' : ((n : ℚ) / (d : ℚ)).den = d.natAbs := by
    have := congrArg Int.natAbs hden
    simpa using this
  have hlt : ((n : ℚ) / (d : ℚ) < 0) ↔ n < 0 := by
    rw [div_lt_iff₀ hdq, zero_mul]
    exact_mod_cast Iff.rfl
  unfold binary64
  rw [if_neg hx, hnum, hden', hm, he]
  by_cases hneg : n < 0
  · rw [if_pos (hlt.mpr hneg), if_pos hneg]
  · rw [if_neg (fun h => hneg (hlt.mp h)), if_neg hneg]

/-- The double nearest to 1 is 1 itself. -/
theorem binary64_eval_1 : binary64 (1 : ℚ) = 1 := by
  have h := binary64_of_frac 1 1 4503599627370496 (-52) (by decide) (by decide) (by decide) (by decide)
    (by decide)
  have hx : ((1 : ℤ) : ℚ) / ((1 : ℤ) : ℚ) = (1 : ℚ) := by norm_num
  rw [hx] at h
  rw [h]
  norm_num

/-- The double nearest to 2 is 2 itself. -/
theorem binary64_eval_2 : binary64 (2 : ℚ) = 2 := by
  have h := binary64_of_frac 2 1 4503599627370496 (-51) (by decide) (by decide) (by decide) (by decide)
    (by decide)
  have hx : ((2 : ℤ) : ℚ) / ((1 : ℤ) : ℚ) = (2 : ℚ) := by norm_num
  rw [hx] at h
  rw [h]
  norm_num

/-- The double nearest to 4 is 4 itself. -/
theorem binary64_eval_4 : binary64 (4 : ℚ) = 4 := by
  have h := binary64_of_frac 4 1 4503599627370496 (-50) (by decide) (by decide) (by decide) (by decide)
    (by decide)
  have hx : ((4 : ℤ) : ℚ) / ((1 : ℤ) : ℚ) = (4 : ℚ) := by norm_num
  rw [hx] at h
  rw [h]
  norm_num

/-- The double nearest to 5 is 5 itself. -/
theorem binary64_eval_5 : binary64 (5 : ℚ) = 5 := by
  have h := binary64_of_frac 5 1 5629499534213120 (-50) (by decide) (by decide) (by decide) (by decide)
    (by decide)
  have hx : ((5 : ℤ) : ℚ) / ((1 : ℤ) : ℚ) = (5 : ℚ) := by norm_num
  rw [hx] at h
  rw [h]
  norm_num

/-- The double nearest to 10 is 10 itself. -/
theorem binary64_eval_10 : binary64 (10 : ℚ) = 10 := by
  have h := binary64_of_frac 10 1 5629499534213120 (-49) (by decide) (by decide) (by decide) (by decide)
    (by decide)
  have hx : ((10 : ℤ) : ℚ) / ((1 : ℤ) : ℚ) = (10 : ℚ) := by norm_num
  rw [hx] at h
  rw [h]
  norm_num

/-- The double nearest to 15 is 15 itself. -/
theorem binary64_eval_15 : binary64 (15 : ℚ) = 15 := by
  have h := binary64_of_frac 15 1 8444249301319680 (-49) (by decide) (by decide) (by decide) (by decide)
    (by decide)
  have hx : ((15 : ℤ) : ℚ) / ((1 : ℤ) : ℚ) = (15 : ℚ) := by norm_num
  rw [hx] at h
  rw [h]
  norm_num

/-- The double nearest to 20 is 20 itself. -/
theorem binary64_eval_20 : binary64 (20 : ℚ) = 20 := by
  have h := binary64_of_frac 20 1 5629499534213120 (-48) (by decide) (by decide) (by decide) (by decide)
    (by decide)
  have hx : ((20 : ℤ) : ℚ) / ((1 : ℤ) : ℚ) = (20 : ℚ) := by norm_num
  rw [hx] at h
  rw [h]
  norm_num

/-- The double nearest to 25 is 25 itself. -/
theorem binary64_eval_25 : binary64 (25 : ℚ) = 25 := by
  have h := binary64_of_frac 25 1 7036874417766400 (-48) (by decide) (by decide) (by decide) (by decide)
    (by decide)
  have hx : ((25 : ℤ) : ℚ) / ((1 : ℤ) : ℚ) = (25 : ℚ) := by norm_num
  rw [hx] at h
  rw [h]
  norm_num

/-- The double nearest to 30 is 30 itself. -/
theorem binary64_eval_30 : binary64 (30 : ℚ) = 30 := by
  have h := binary64_of_frac 30 1 8444249301319680 (-48) (by decide) (by decide) (by decide) (by decide)
    (by decide)
  have hx : ((30 : ℤ) : ℚ) / ((1 : ℤ) : ℚ) = (30 : ℚ) := by norm_num
  rw [hx] at h
  rw [h]
  norm_num

/-- The double nearest to 50 is 50 itself. -/
theorem binary64_eval_50 : binary64 (50 : ℚ) = 50 := by
  have h := binary64_of_frac 50 1 7036874417766400 (-47) (by decide) (by decide) (by decide) (by decide)
    (by decide)
  have hx : ((50 : ℤ) : ℚ) / ((1 : ℤ) : ℚ) = (50 : ℚ) := by norm_num
  rw [hx] at h
  rw [h]
  norm_num

/-- The double nearest to 200 is 200 itself. -/
theorem binary64_eval_200 : binary64 (200 : ℚ) = 200 := by
  have h := binary64_of_frac 200 1 7036874417766400 (-45) (by decide) (by decide) (by decide) (by decide)
    (by decide)
  have hx : ((200 : ℤ) : ℚ) / ((1 : ℤ) : ℚ) = (200 : ℚ) := by norm_num
  rw [hx] at h
  rw [h]
  norm_num

/-- The double nearest to 1 / 2 is 1 / 2 itself. -/
theorem binary64_eval_1_2 : binary64 ((1 : ℚ) / 2) = 1 / 2 := by
  have h := binary64_of_frac 1 2 4503599627370496 (-53) (by decide) (by decide) (by decide) (by decide)
    (by decide)
  have hx : ((1 : ℤ) : ℚ) / ((2 : ℤ) : ℚ) = ((1 : ℚ) / 2) := by norm_num
  rw [hx] at h
  rw [h]
  norm_num

/-- The double nearest to 1 / 4 is 1 / 4 itself. -/
theorem binary64_eval_1_4 : binary64 ((1 : ℚ) / 4) = 1 / 4 := by
  have h := binary64_of_frac 1 4 4503599627370496 (-54) (by decide) (by decide) (by decide) (by decide)
    (by decide)
  have hx : ((1 : ℤ) : ℚ) / ((4 : ℤ) : ℚ) = ((1 : ℚ) / 4) := by norm_num
  rw [hx] at h
  rw [h]
  norm_num

/-- The double nearest to 3 / 2 is 3 / 2 itself. -/
theorem binary64_eval_3_2 : binary64 ((3 : ℚ) / 2) = 3 / 2 := by
  have h := binary64_of_frac 3 2 6755399441055744 (-52) (by decide) (by decide) (by decide) (by decide)
    (by decide)
  have hx : ((3 : ℤ) : ℚ) / ((2 : ℤ) : ℚ) = ((3 : ℚ) / 2) := by norm_num
  rw [hx] at h
  rw [h]
  norm_num

/-- With no fuel left or nothing to count, the count of binary digits is 0. -/
theorem bitLengthAux_zero (fuel : Nat) : bitLengthAux fuel 0 = 0 := by
  cases fuel <;> simp [bitLengthAux]

/-- With enough fuel, a positive `n` lies between the powers of two that its
number of binary digits names. -/
theorem bitLengthAux_bounds (fuel : Nat) : ∀ n, n ≤ fuel → 0 < n →
    n < 2 ^ bitLengthAux fuel n ∧ 2 ^ bitLengthAux fuel n ≤ 2 * n := by
  induction fuel with
  | zero => intro n h h0; omega
  | succ fuel ih =>
    intro n h h0
    have hne : n ≠ 0 := by omega
    simp only [bitLengthAux, hne, if_false]
    by_cases h2 : n / 2 = 0
    · have h1 : n = 1 := by omega
      subst h1
      simp [bitLengthAux_zero]
    · have := ih (n / 2) (by omega) (by omega)
      rw [pow_succ]
      omega

/-- A positive `n` has exactly `bitLength n` binary digits. -/
theorem bitLength_bounds (n : Nat) (h : 0 < n) :
    n < 2 ^ bitLength n ∧ 2 ^ bitLength n ≤ 2 * n :=
  bitLengthAux_bounds n n (le_refl n) h

/-- The binary exponent: 2^E ≤ a / d < 2^(E + 1) for E = `floorLog2 a d`. -/
theorem floorLog2_spec (a d : Nat) (ha : 0 < a) (hd : 0 < d) :
    (2 : ℚ) ^ floorLog2 a d ≤ (a : ℚ) / (d : ℚ)
    ∧ (a : ℚ) / (d : ℚ) < (2 : ℚ) ^ (floorLog2 a d + 1) := by
  obtain ⟨ha1, ha2⟩ := bitLength_bounds a ha
  obtain ⟨hd1, hd2⟩ := bitLength_bounds d hd
  have hA1 : (a : ℚ) < (2 : ℚ) ^ bitLength a := by exact_mod_cast ha1
  have hA2 : (2 : ℚ) ^ bitLength a ≤ 2 * (a : ℚ) := by exact_mod_cast ha2
  have hD1 : (d : ℚ) < (2 : ℚ) ^ bitLength d := by exact_mod_cast hd1
  have hD2 : (2 : ℚ) ^ bitLength d ≤ 2 * (d : ℚ) := by exact_mod_cast hd2
  have haq : (0 : ℚ) < (a : ℚ) := by exact_mod_cast ha
  have hdq : (0 : ℚ) < (d : ℚ) := by exact_mod_cast hd
  have hApos : (0 : ℚ) < (2 : ℚ) ^ bitLength a := by positivity
  have hDpos : (0 : ℚ) < (2 : ℚ) ^ bitLength d := by positivity
  have htest : (d * 2 ^ (bitLength a - bitLength d) ≤ a * 2 ^ (bitLength d - bitLength a))
      ↔ (2 : ℚ) ^ bitLength a * (d : ℚ) ≤ (a : ℚ) * (2 : ℚ) ^ bitLength d := by
    rcases Nat.le_total (bitLength d) (bitLength a) with hle | hle
    · have h0 : bitLength d - bitLength a = 0 := Nat.sub_eq_zero_of_le hle
      have hsplit : (2 : ℚ) ^ bitLength a
          = (2 : ℚ) ^ (bitLength a - bitLength d) * (2 : ℚ) ^ bitLength d := by
        rw [← pow_add, Nat.sub_add_cancel hle]
      rw [h0, pow_zero, mul_one, hsplit]
      have hcast : (d * 2 ^ (bitLength a - bitLength d) ≤ a)
          ↔ (d : ℚ) * (2 : ℚ) ^ (bitLength a - bitLength d) ≤ (a : ℚ) := by
        exact_mod_cast Iff.rfl
      rw [hcast]
      constructor
      · intro h
        nlinarith [mul_le_mul_of_nonneg_right h (le_of_lt hDpos)]
      · intro h
        have h' : ((d : ℚ) * (2 : ℚ) ^ (bitLength a - bitLength d)) * (2 : ℚ) ^ bitLength d
            ≤ (a : ℚ) * (2 : ℚ) ^ bitLength d := by nlinarith
        exact le_of_mul_le_mul_right h' hDpos
    · have h0 : bitLength a - bitLength d = 0 := Nat.sub_eq_zero_of_le hle
      have hsplit : (2 : ℚ) ^ bitLength d
          = (2 : ℚ) ^ (bitLength d - bitLength a) * (2 : ℚ) ^ bitLength a := by
        rw [← pow_add, Nat.sub_add_cancel hle]
      rw [h0, pow_zero, mul_one, hsplit]
      have hcast : (d ≤ a * 2 ^ (bitLength d - bitLength a))
          ↔ (d : ℚ) ≤ (a : ℚ) * (2 : ℚ) ^ (bitLength d - bitLength a) := by
        exact_mod_cast Iff.rfl
      rw [hcast]
      constructor
      · intro h
        nlinarith [mul_le_mul_of_nonneg_right h (le_of_lt hApos)]
      · intro h
        have h' : (d : ℚ) * (2 : ℚ) ^ bitLength a
            ≤ ((a : ℚ) * (2 : ℚ) ^ (bitLength d - bitLength a)) * (2 : ℚ) ^ bitLength a := by
          nlinarith
        exact le_of_mul_le_mul_right h' hApos
  have h2 : (2 : ℚ) ≠ 0 := two_ne_zero
  have hz : (2 : ℚ) ^ ((bitLength a : Int) - (bitLength d : Int))
      = (2 : ℚ) ^ bitLength a / (2 : ℚ) ^ bitLength d := by
    rw [zpow_sub₀ h2, zpow_natCast, zpow_natCast]
  unfold floorLog2
  by_cases ht : d * 2 ^ (bitLength a - bitLength d) ≤ a * 2 ^ (bitLength d - bitLength a)
  · rw [if_pos ht]
    have ht' := htest.mp ht
    constructor
    · rw [hz, div_le_div_iff₀ hDpos hdq]
      exact ht'
    · rw [zpow_add_one₀ h2, hz, div_mul_eq_mul_div, div_lt_div_iff₀ hdq hDpos]
      nlinarith
  · rw [if_neg ht]
    have ht' : (a : ℚ) * (2 : ℚ) ^ bitLength d < (2 : ℚ) ^ bitLength a * (d : ℚ) :=
      not_le.mp (fun h => ht (htest.mpr h))
    constructor
    · rw [zpow_sub_one₀ h2, hz, div_mul_eq_mul_div, div_le_div_iff₀ hDpos hdq]
      have : (2 : ℚ) ^ bitLength a * (2 : ℚ)⁻¹ * (d : ℚ) ≤ (a : ℚ) * (2 : ℚ) ^ bitLength d := by
        nlinarith
      exact this
    · rw [sub_add_cancel, hz, div_lt_div_iff₀ hdq hDpos]
      exact ht'

/-- The rounded quotient, times the divisor, is within half a divisor of the
dividend. -/
theorem roundHalfEven_bounds (n d : Nat) (hd : 0 < d) :
    2 * n ≤ 2 * (roundHalfEven n d * d) + d ∧ 2 * (roundHalfEven n d * d) ≤ 2 * n + d := by
  have hdm := Nat.div_add_mod n d
  have hlt := Nat.mod_lt n hd
  have hmul : (n / d + 1) * d = d * (n / d) + d := by ring
  have hmul0 : n / d * d = d * (n / d) := Nat.mul_comm _ _
  unfold roundHalfEven
  split_ifs <;> simp only [hmul, hmul0] <;> omega

/-- The rounded quotient is within 1/2 of the exact quotient. -/
theorem roundHalfEven_error (n d : Nat) (hd : 0 < d) :
    |(roundHalfEven n d : ℚ) - (n : ℚ) / (d : ℚ)| ≤ 1 / 2 := by
  obtain ⟨h1, h2⟩ := roundHalfEven_bounds n d hd
  have hdq : (0 : ℚ) < (d : ℚ) := by exact_mod_cast hd
  have h1q : 2 * (n : ℚ) ≤ 2 * ((roundHalfEven n d : ℚ) * (d : ℚ)) + (d : ℚ) := by
    exact_mod_cast h1
  have h2q : 2 * ((roundHalfEven n d : ℚ) * (d : ℚ)) ≤ 2 * (n : ℚ) + (d : ℚ) := by
    exact_mod_cast h2
  have hsub : (roundHalfEven n d : ℚ) - (n : ℚ) / (d : ℚ)
      = ((roundHalfEven n d : ℚ) * (d : ℚ) - (n : ℚ)) / (d : ℚ) := by
    field_simp
  rw [hsub, abs_div, abs_of_pos hdq, div_le_iff₀ hdq, abs_le]
  constructor <;> linarith

/-- Dividing by 1 rounds nothing away. -/
theorem roundHalfEven_one (n : Nat) : roundHalfEven n 1 = n := by
  simp [roundHalfEven, Nat.mod_one]

/-- The significand times its unit is within half a unit of a / d. -/
theorem binaryMantissa_error (a d : Nat) (hd : 0 < d) :
    |(binaryMantissa a d : ℚ) * (2 : ℚ) ^ binaryExponent a d - (a : ℚ) / (d : ℚ)|
      ≤ (2 : ℚ) ^ binaryExponent a d / 2 := by
  have hdq : (0 : ℚ) < (d : ℚ) := by exact_mod_cast hd
  have h2 : (2 : ℚ) ≠ 0 := two_ne_zero
  have hpos : (0 : ℚ) < (2 : ℚ) ^ binaryExponent a d := zpow_pos (by norm_num) _
  unfold binaryMantissa
  by_cases he : 0 ≤ binaryExponent a d
  · rw [if_pos he]
    have hk : (2 : ℚ) ^ binaryExponent a d = (2 : ℚ) ^ (binaryExponent a d).toNat := by
      conv_lhs => rw [← Int.toNat_of_nonneg he]
      rw [zpow_natCast]
    have hkpos : (0 : ℚ) < (2 : ℚ) ^ (binaryExponent a d).toNat := by positivity
    have hr := roundHalfEven_error a (d * 2 ^ (binaryExponent a d).toNat) (by positivity)
    rw [hk]
    push_cast at hr
    have hsub : (roundHalfEven a (d * 2 ^ (binaryExponent a d).toNat) : ℚ)
          * (2 : ℚ) ^ (binaryExponent a d).toNat - (a : ℚ) / (d : ℚ)
        = ((roundHalfEven a (d * 2 ^ (binaryExponent a d).toNat) : ℚ)
            - (a : ℚ) / ((d : ℚ) * (2 : ℚ) ^ (binaryExponent a d).toNat))
          * (2 : ℚ) ^ (binaryExponent a d).toNat := by
      field_simp
      ring
    rw [hsub, abs_mul, abs_of_pos hkpos]
    calc _ ≤ 1 / 2 * (2 : ℚ) ^ (binaryExponent a d).toNat :=
          mul_le_mul_of_nonneg_right hr (le_of_lt hkpos)
      _ = (2 : ℚ) ^ (binaryExponent a d).toNat / 2 := by ring
  · rw [if_neg he]
    have he' : 0 ≤ -(binaryExponent a d) := by omega
    have hk : (2 : ℚ) ^ binaryExponent a d = ((2 : ℚ) ^ (-(binaryExponent a d)).toNat)⁻¹ := by
      rw [← zpow_natCast, Int.toNat_of_nonneg he', zpow_neg, inv_inv]
    have hkpos : (0 : ℚ) < (2 : ℚ) ^ (-(binaryExponent a d)).toNat := by positivity
    have hr := roundHalfEven_error (a * 2 ^ (-(binaryExponent a d)).toNat) d hd
    rw [hk]
    push_cast at hr
    have hsub : (roundHalfEven (a * 2 ^ (-(binaryExponent a d)).toNat) d : ℚ)
          * ((2 : ℚ) ^ (-(binaryExponent a d)).toNat)⁻¹ - (a : ℚ) / (d : ℚ)
        = ((roundHalfEven (a * 2 ^ (-(binaryExponent a d)).toNat) d : ℚ)
            - (a : ℚ) * (2 : ℚ) ^ (-(binaryExponent a d)).toNat / (d : ℚ))
          * ((2 : ℚ) ^ (-(binaryExponent a d)).toNat)⁻¹ := by
      field_simp
      ring
    rw [hsub, abs_mul, abs_of_pos (inv_pos.mpr hkpos)]
    calc _ ≤ 1 / 2 * ((2 : ℚ) ^ (-(binaryExponent a d)).toNat)⁻¹ :=
          mul_le_mul_of_nonneg_right hr (le_of_lt (inv_pos.mpr hkpos))
      _ = ((2 : ℚ) ^ (-(binaryExponent a d)).toNat)⁻¹ / 2 := by ring

/-- The magnitude of a rational from its numerator and denominator. -/
theorem abs_eq_natAbs_div_den (x : ℚ) : |x| = (x.num.natAbs : ℚ) / (x.den : ℚ) := by
  have hden : (0 : ℚ) < (x.den : ℚ) := by exact_mod_cast x.den_pos
  have hx : x = (x.num : ℚ) / (x.den : ℚ) := (Rat.num_div_den x).symm
  have hnat : (x.num.natAbs : ℚ) = |(x.num : ℚ)| := by
    rw [Nat.cast_natAbs, Int.cast_abs]
  conv_lhs => rw [hx]
  rw [abs_div, abs_of_pos hden, hnat]

/-- The nearest double is within half a unit of the last place. -/
theorem binary64_abs_error (x : ℚ) (hx : x ≠ 0) :
    |binary64 x - x| ≤ (2 : ℚ) ^ binaryExponent x.num.natAbs x.den / 2 := by
  have hm := binaryMantissa_error x.num.natAbs x.den x.den_pos
  rw [← abs_eq_natAbs_div_den] at hm
  unfold binary64
  rw [if_neg hx]
  by_cases hneg : x < 0
  · rw [if_pos hneg]
    rw [abs_of_neg hneg] at hm
    have : -1 * (binaryMantissa x.num.natAbs x.den : ℚ)
          * (2 : ℚ) ^ binaryExponent x.num.natAbs x.den - x
        = -((binaryMantissa x.num.natAbs x.den : ℚ)
          * (2 : ℚ) ^ binaryExponent x.num.natAbs x.den - -x) := by ring
    rw [this, abs_neg]
    exact hm
  · rw [if_neg hneg, one_mul]
    rw [abs_of_nonneg (not_lt.mp hneg)] at hm
    exact hm

/-- In the range of the normal doubles, the nearest double differs from the
exact value by at most the fraction 2^-53 of it. -/
theorem binary64_rel_error (x : ℚ) (hx : (2 : ℚ) ^ (-1022 : ℤ) ≤ |x|) :
    |binary64 x - x| ≤ |x| / 2 ^ 53 := by
  have hpos : (0 : ℚ) < |x| := lt_of_lt_of_le (zpow_pos (by norm_num) _) hx
  have hx0 : x ≠ 0 := abs_pos.mp hpos
  have ha : 0 < x.num.natAbs := Int.natAbs_pos.mpr (Rat.num_ne_zero.mpr hx0)
  obtain ⟨hlo, hhi⟩ := floorLog2_spec x.num.natAbs x.den ha x.den_pos
  rw [← abs_eq_natAbs_div_den] at hlo hhi
  have hE : (-1022 : ℤ) < floorLog2 x.num.natAbs x.den + 1 :=
    (zpow_lt_zpow_iff_right₀ (by norm_num : (1 : ℚ) < 2)).mp (lt_of_le_of_lt hx hhi)
  have he : binaryExponent x.num.natAbs x.den = floorLog2 x.num.natAbs x.den - 52 := by
    unfold binaryExponent
    omega
  have herr := binary64_abs_error x hx0
  rw [he] at herr
  have hz : (2 : ℚ) ^ (floorLog2 x.num.natAbs x.den - 52) / 2
      = (2 : ℚ) ^ floorLog2 x.num.natAbs x.den / 2 ^ 53 := by
    rw [zpow_sub₀ (two_ne_zero : (2 : ℚ) ≠ 0)]
    norm_num
    ring
  rw [hz] at herr
  exact le_trans herr (div_le_div_of_nonneg_right hlo (by positivity))

/-- A count below 2^53 is a double: rounding keeps it. -/
theorem binary64_natCast (n : Nat) (h : n < 2 ^ 53) : binary64 (n : ℚ) = (n : ℚ) := by
  by_cases h0 : n = 0
  · subst h0
    simp [binary64]
  · have hpos : 0 < n := Nat.pos_of_ne_zero h0
    have hq0 : (n : ℚ) ≠ 0 := by exact_mod_cast h0
    have hnlt : ¬ ((n : ℚ) < 0) := not_lt.mpr (Nat.cast_nonneg n)
    obtain ⟨hlo, hhi⟩ := floorLog2_spec n 1 hpos Nat.one_pos
    rw [Nat.cast_one, div_one] at hlo hhi
    have hnq : (n : ℚ) < (2 : ℚ) ^ (53 : ℤ) := by
      have : (n : ℚ) < (2 : ℚ) ^ (53 : ℕ) := by exact_mod_cast h
      rw [← zpow_natCast] at this
      exact_mod_cast this
    have h1q : (2 : ℚ) ^ (0 : ℤ) ≤ (n : ℚ) := by
      rw [zpow_zero]
      exact_mod_cast hpos
    have hE1 : floorLog2 n 1 < 53 :=
      (zpow_lt_zpow_iff_right₀ (by norm_num : (1 : ℚ) < 2)).mp (lt_of_le_of_lt hlo hnq)
    have hE0 : (0 : ℤ) < floorLog2 n 1 + 1 :=
      (zpow_lt_zpow_iff_right₀ (by norm_num : (1 : ℚ) < 2)).mp (lt_of_le_of_lt h1q hhi)
    have he : binaryExponent n 1 = floorLog2 n 1 - 52 := by
      unfold binaryExponent
      omega
    have hle : binaryExponent n 1 ≤ 0 := by omega
    have hm : binaryMantissa n 1 = n * 2 ^ (-(binaryExponent n 1)).toNat := by
      unfold binaryMantissa
      by_cases hz : 0 ≤ binaryExponent n 1
      · have hez : binaryExponent n 1 = 0 := le_antisymm hle hz
        rw [if_pos hz, hez]
        simp [roundHalfEven_one]
      · rw [if_neg hz, roundHalfEven_one]
    have hk : (2 : ℚ) ^ binaryExponent n 1
        = ((2 : ℚ) ^ (-(binaryExponent n 1)).toNat)⁻¹ := by
      rw [← zpow_natCast, Int.toNat_of_nonneg (by omega), zpow_neg, inv_inv]
    have hkpos : (0 : ℚ) < (2 : ℚ) ^ (-(binaryExponent n 1)).toNat := by positivity
    unfold binary64
    rw [if_neg hq0, if_neg hnlt, Rat.num_natCast, Rat.den_natCast, Int.natAbs_ofNat, hm, hk]
    push_cast
    field_simp

/-- Powers of two grow with the exponent. -/
theorem two_zpow_le_of_le (m n : ℤ) (h : m ≤ n) : (2 : ℚ) ^ m ≤ (2 : ℚ) ^ n :=
  zpow_le_zpow_right₀ (by norm_num) h

/-- Rounding y and then y times 100 to doubles, as `y * 100` does on a quotient
y, keeps the result within the fraction 2^-52 + 2^-106 of y * 100, when y is 0
or not below 2^-1010 in magnitude. -/
theorem binary64_times_hundred_error (y : ℚ) (hy : y = 0 ∨ (2 : ℚ) ^ (-1010 : ℤ) ≤ |y|) :
    |binary64 (binary64 y * 100) - y * 100| ≤ |y| * 100 * (2 / 2 ^ 53 + 1 / 2 ^ 106) := by
  rcases hy with hy | hy
  · subst hy
    simp [binary64_zero]
  · have hY : (0 : ℚ) ≤ |y| := abs_nonneg y
    have h1 : (2 : ℚ) ^ (-1022 : ℤ) ≤ |y| :=
      le_trans (two_zpow_le_of_le _ _ (by norm_num)) hy
    have e1 := binary64_rel_error y h1
    have hq1 : |binary64 y| ≤ |y| + |y| / 2 ^ 53 := by
      have := abs_sub_abs_le_abs_sub (binary64 y) y
      linarith
    have hq2 : |y| - |y| / 2 ^ 53 ≤ |binary64 y| := by
      have := abs_sub_abs_le_abs_sub y (binary64 y)
      rw [abs_sub_comm] at this
      linarith
    have hsmall : (2 : ℚ) ^ (-1022 : ℤ) ≤ (2 : ℚ) ^ (-1010 : ℤ) * 50 := by
      have : (2 : ℚ) ^ (-1022 : ℤ) ≤ (2 : ℚ) ^ (-1010 : ℤ) := two_zpow_le_of_le _ _ (by norm_num)
      have hp : (0 : ℚ) < (2 : ℚ) ^ (-1010 : ℤ) := zpow_pos (by norm_num) _
      linarith
    have h2 : (2 : ℚ) ^ (-1022 : ℤ) ≤ |binary64 y * 100| := by
      rw [abs_mul, abs_of_pos (by norm_num : (0 : ℚ) < 100)]
      have : |y| / 2 ^ 53 ≤ |y| / 2 := by
        apply div_le_div_of_nonneg_left hY (by norm_num) (by norm_num)
      linarith
    have e2 := binary64_rel_error (binary64 y * 100) h2
    rw [abs_mul, abs_of_pos (by norm_num : (0 : ℚ) < 100)] at e2
    have hsplit : binary64 (binary64 y * 100) - y * 100
        = (binary64 (binary64 y * 100) - binary64 y * 100) + (binary64 y - y) * 100 := by ring
    have h3 : |(binary64 y - y) * 100| ≤ |y| / 2 ^ 53 * 100 := by
      rw [abs_mul, abs_of_pos (by norm_num : (0 : ℚ) < 100)]
      linarith
    rw [hsplit]
    have h4 := abs_add (binary64 (binary64 y * 100) - binary64 y * 100) ((binary64 y - y) * 100)
    have h5 : |binary64 y| * 100 / 2 ^ 53 ≤ (|y| + |y| / 2 ^ 53) * 100 / 2 ^ 53 := by
      apply div_le_div_of_nonneg_right _ (by positivity)
      linarith
    have h6 : (|y| + |y| / 2 ^ 53) * 100 / 2 ^ 53 + |y| / 2 ^ 53 * 100
        = |y| * 100 * (2 / 2 ^ 53 + 1 / 2 ^ 106) := by ring
    linarith

/-- The share `count / total * 100` of two counts below 2^53, as the code
computes it in doubles, is within the fraction 2^-51 of the exact share. -/
theorem percentShare_accuracy (count total : Nat) (hc : count < 2 ^ 53) (ht : total < 2 ^ 53)
    (h0 : 0 < total) :
    |percentShare (count : ℚ) (total : ℚ) - (count : ℚ) / (total : ℚ) * 100|
      ≤ (count : ℚ) / (total : ℚ) * 100 / 2 ^ 51 := by
  have htq : (0 : ℚ) < (total : ℚ) := by exact_mod_cast h0
  have hnn : (0 : ℚ) ≤ (count : ℚ) / (total : ℚ) := div_nonneg (Nat.cast_nonneg _) (le_of_lt htq)
  have hy : (count : ℚ) / (total : ℚ) = 0
      ∨ (2 : ℚ) ^ (-1010 : ℤ) ≤ |(count : ℚ) / (total : ℚ)| := by
    by_cases hz : count = 0
    · left
      simp [hz]
    · right
      rw [abs_of_nonneg hnn, le_div_iff₀ htq]
      have h1 : (1 : ℚ) ≤ (count : ℚ) := by exact_mod_cast Nat.pos_of_ne_zero hz
      have h2 : (total : ℚ) < 2 ^ 53 := by exact_mod_cast ht
      have h3 : (2 : ℚ) ^ (-1010 : ℤ) ≤ (2 : ℚ) ^ (-53 : ℤ) := two_zpow_le_of_le _ _ (by norm_num)
      have h4 : (2 : ℚ) ^ (-53 : ℤ) * 2 ^ 53 = 1 := by
        rw [zpow_neg]
        norm_num
      have h5 : (0 : ℚ) < (2 : ℚ) ^ (-1010 : ℤ) := zpow_pos (by norm_num) _
      nlinarith
  have h := binary64_times_hundred_error _ hy
  rw [abs_of_nonneg hnn] at h
  unfold percentShare
  rw [binary64_natCast count hc, binary64_natCast total ht]
  refine le_trans h ?_
  have : (count : ℚ) / (total : ℚ) * 100 * (2 / 2 ^ 53 + 1 / 2 ^ 106)
      ≤ (count : ℚ) / (total : ℚ) * 100 * (1 / 2 ^ 51) :=
    mul_le_mul_of_nonneg_left (by norm_num) (by positivity)
  linarith

/-- The change `(c - a) / a * 100` of two doubles, as the code computes it in
doubles, is within the fraction 2^-51 of the exact change, when c = a or
neither the difference nor the quotient is below 2^-1000 in magnitude. -/
theorem percentChange_accuracy (c a : ℚ) (hc : binary64 c = c) (ha : binary64 a = a)
    (ha0 : a ≠ 0)
    (hn : c = a ∨ ((2 : ℚ) ^ (-1000 : ℤ) ≤ |c - a| ∧ (2 : ℚ) ^ (-1000 : ℤ) ≤ |(c - a) / a|)) :
    |percentChange c a - (c - a) / a * 100| ≤ |(c - a) / a * 100| / 2 ^ 51 := by
  unfold percentChange
  rw [hc, ha]
  rcases hn with hn | ⟨hn1, hn2⟩
  · subst hn
    simp [binary64_zero]
  · have hapos : (0 : ℚ) < |a| := abs_pos.mpr ha0
    have hY : (0 : ℚ) ≤ |(c - a) / a| := abs_nonneg _
    have h1 : (2 : ℚ) ^ (-1022 : ℤ) ≤ |c - a| :=
      le_trans (two_zpow_le_of_le _ _ (by norm_num)) hn1
    have e1 := binary64_rel_error (c - a) h1
    have hdiff : binary64 (c - a) / a - (c - a) / a = (binary64 (c - a) - (c - a)) / a := by
      ring
    have e2 : |binary64 (c - a) / a - (c - a) / a| ≤ |(c - a) / a| / 2 ^ 53 := by
      rw [hdiff, abs_div, abs_div, div_div, mul_comm |a|, ← div_div]
      exact div_le_div_of_nonneg_right e1 (le_of_lt hapos)
    have hq1 : |binary64 (c - a) / a| ≤ |(c - a) / a| + |(c - a) / a| / 2 ^ 53 := by
      have := abs_sub_abs_le_abs_sub (binary64 (c - a) / a) ((c - a) / a)
      linarith
    have hq2 : |(c - a) / a| - |(c - a) / a| / 2 ^ 53 ≤ |binary64 (c - a) / a| := by
      have := abs_sub_abs_le_abs_sub ((c - a) / a) (binary64 (c - a) / a)
      rw [abs_sub_comm] at this
      linarith
    have hy : binary64 (c - a) / a = 0
        ∨ (2 : ℚ) ^ (-1010 : ℤ) ≤ |binary64 (c - a) / a| := by
      right
      have hhalf : |(c - a) / a| / 2 ^ 53 ≤ |(c - a) / a| / 2 := by
        apply div_le_div_of_nonneg_left hY (by norm_num) (by norm_num)
      have h3 : (2 : ℚ) ^ (-1010 : ℤ) * 2 ≤ (2 : ℚ) ^ (-1000 : ℤ) := by
        have : (2 : ℚ) ^ (-1010 : ℤ) * 2 = (2 : ℚ) ^ (-1009 : ℤ) := by
          rw [← zpow_add_one₀ (two_ne_zero : (2 : ℚ) ≠ 0)]
          norm_num
        rw [this]
        exact two_zpow_le_of_le _ _ (by norm_num)
      linarith
    have e3 := binary64_times_hundred_error _ hy
    have hsplit : binary64 (binary64 (binary64 (c - a) / a) * 100) - (c - a) / a * 100
        = (binary64 (binary64 (binary64 (c - a) / a) * 100) - binary64 (c - a) / a * 100)
          + (binary64 (c - a) / a - (c - a) / a) * 100 := by ring
    have h4 := abs_add
      (binary64 (binary64 (binary64 (c - a) / a) * 100) - binary64 (c - a) / a * 100)
      ((binary64 (c - a) / a - (c - a) / a) * 100)
    have h5 : |(binary64 (c - a) / a - (c - a) / a) * 100| ≤ |(c - a) / a| / 2 ^ 53 * 100 := by
      rw [abs_mul, abs_of_pos (by norm_num : (0 : ℚ) < 100)]
      linarith
    have h6 : |binary64 (c - a) / a| * 100 * (2 / 2 ^ 53 + 1 / 2 ^ 106)
        ≤ (|(c - a) / a| + |(c - a) / a| / 2 ^ 53) * 100 * (2 / 2 ^ 53 + 1 / 2 ^ 106) := by
      apply mul_le_mul_of_nonneg_right _ (by norm_num)
      linarith
    have h7 : (|(c - a) / a| + |(c - a) / a| / 2 ^ 53) * 100 * (2 / 2 ^ 53 + 1 / 2 ^ 106)
          + |(c - a) / a| / 2 ^ 53 * 100
        ≤ |(c - a) / a| * 100 / 2 ^ 51 := by
      have : (|(c - a) / a| + |(c - a) / a| / 2 ^ 53) * 100 * (2 / 2 ^ 53 + 1 / 2 ^ 106)
          + |(c - a) / a| / 2 ^ 53 * 100
          = |(c - a) / a| * ((1 + 1 / 2 ^ 53) * 100 * (2 / 2 ^ 53 + 1 / 2 ^ 106)
            + 100 / 2 ^ 53) := by ring
      rw [this]
      have hc2 : (1 + 1 / 2 ^ 53) * 100 * (2 / 2 ^ 53 + 1 / 2 ^ 106) + 100 / 2 ^ 53
          ≤ (100 : ℚ) / 2 ^ 51 := by norm_num
      calc |(c - a) / a| * ((1 + 1 / 2 ^ 53) * 100 * (2 / 2 ^ 53 + 1 / 2 ^ 106) + 100 / 2 ^ 53)
          ≤ |(c - a) / a| * (100 / 2 ^ 51) := mul_le_mul_of_nonneg_left hc2 hY
        _ = |(c - a) / a| * 100 / 2 ^ 51 := by ring
    rw [hsplit, abs_mul ((c - a) / a) 100, abs_of_pos (by norm_num : (0 : ℚ) < 100)]
    linarith

/-- The change between two counts below 2^53, as the code computes it in
doubles, is within the fraction 2^-51 of the exact change. -/
theorem percentChange_accuracy_counts (c p : Nat) (hc : c < 2 ^ 53) (hp : p < 2 ^ 53)
    (h0 : 0 < p) :
    |percentChange (c : ℚ) (p : ℚ) - ((c : ℚ) - (p : ℚ)) / (p : ℚ) * 100|
      ≤ |((c : ℚ) - (p : ℚ)) / (p : ℚ) * 100| / 2 ^ 51 := by
  have hpq : (0 : ℚ) < (p : ℚ) := by exact_mod_cast h0
  apply percentChange_accuracy _ _ (binary64_natCast c hc) (binary64_natCast p hp)
    (ne_of_gt hpq)
  by_cases hcp : c = p
  · left
    rw [hcp]
  · right
    have hone : (1 : ℚ) ≤ |(c : ℚ) - (p : ℚ)| := by
      have hz : ((c : ℤ) - (p : ℤ)) ≠ 0 := by omega
      have := Int.one_le_abs hz
      have hq : ((1 : ℤ) : ℚ) ≤ ((|(c : ℤ) - (p : ℤ)| : ℤ) : ℚ) := by exact_mod_cast this
      push_cast at hq
      exact hq
    have hsm : (2 : ℚ) ^ (-1000 : ℤ) ≤ (2 : ℚ) ^ (-53 : ℤ) := two_zpow_le_of_le _ _ (by norm_num)
    have h53 : (2 : ℚ) ^ (-53 : ℤ) * 2 ^ 53 = 1 := by
      rw [zpow_neg]
      norm_num
    have h53le : (2 : ℚ) ^ (-53 : ℤ) ≤ 1 := by
      rw [zpow_neg]
      norm_num
    have hp2 : (p : ℚ) < 2 ^ 53 := by exact_mod_cast hp
    have hpos : (0 : ℚ) < (2 : ℚ) ^ (-1000 : ℤ) := zpow_pos (by norm_num) _
    constructor
    · linarith
    · rw [abs_div, abs_of_pos hpq, le_div_iff₀ hpq]
      nlinarith

/-- The text `toFixed` gives for the fraction n / d in lowest terms, computed
on n and d. -/
theorem toFixed_of_frac (k : Nat) (n d : ℤ) (hd : 0 < d)
    (hcop : Nat.Coprime n.natAbs d.natAbs) :
    toFixed k ((n : ℚ) / (d : ℚ))
      = (let s : List Char := if n < 0 then ['-'] else []
         let m : List Char :=
           Nat.toDigits 10 ((2 * n.natAbs * 10 ^ k + d.natAbs) / (2 * d.natAbs))
         if k = 0 then String.mk (s ++ m)
         else
           let m := if m.length ≤ k then List.replicate (k + 1 - m.length) '0' ++ m else m
           let j := m.length
           String.mk (s ++ m.take (j - k) ++ ['.'] ++ m.drop (j - k))) := by
  have hdq : (0 : ℚ) < (d : ℚ) := by exact_mod_cast hd
  have hnum : ((n : ℚ) / (d : ℚ)).num = n := Rat.num_div_eq_of_coprime hd hcop
  have hden : (((n : ℚ) / (d : ℚ)).den : ℤ) = d := Rat.den_div_eq_of_coprime hd hcop
  have hden' : ((n : ℚ) / (d : ℚ)).den = d.natAbs := by
    have := congrArg Int.natAbs hden
    simpa using this
  have hlt : ((n : ℚ) / (d : ℚ) < 0) ↔ n < 0 := by
    rw [div_lt_iff₀ hdq, zero_mul]
    exact_mod_cast Iff.rfl
  unfold toFixed toFixedDigits
  simp only [hnum, hden', hlt]

/-- In double-precision arithmetic (103 - 80) / 80 * 100 lies just below 28.75, and
`toFixed(1)` prints 28.7. -/
theorem percentChange_103_80_text :
    toFixed 1 (percentChange (103 : ℚ) (80 : ℚ)) = "28.7" := by
  have ec : binary64 (103 : ℚ)
      = (103 : ℚ) := by
    have h := binary64_of_frac 103 1
      7247980650299392 (-46) (by decide) (by decide) (by decide) (by decide) (by decide)
    have hx : ((103 : ℤ) : ℚ) / ((1 : ℤ) : ℚ)
        = (103 : ℚ) := by norm_num
    rw [hx] at h
    rw [h]
    norm_num
  have ea : binary64 (80 : ℚ)
      = (80 : ℚ) := by
    have h := binary64_of_frac 80 1
      5629499534213120 (-46) (by decide) (by decide) (by decide) (by decide) (by decide)
    have hx : ((80 : ℤ) : ℚ) / ((1 : ℤ) : ℚ)
        = (80 : ℚ) := by norm_num
    rw [hx] at h
    rw [h]
    norm_num
  have a1 : (103 : ℚ) - (80 : ℚ)
      = (23 : ℚ) := by norm_num
  have es : binary64 (23 : ℚ)
      = (23 : ℚ) := by
    have h := binary64_of_frac 23 1
      6473924464345088 (-48) (by decide) (by decide) (by decide) (by decide) (by decide)
    have hx : ((23 : ℤ) : ℚ) / ((1 : ℤ) : ℚ)
        = (23 : ℚ) := by norm_num
    rw [hx] at h
    rw [h]
    norm_num
  have a2 : (23 : ℚ)
        / (80 : ℚ)
      = ((23 : ℚ) / 80) := by norm_num
  have eq : binary64 ((23 : ℚ) / 80)
      = ((2589569785738035 : ℚ) / 9007199254740992) := by
    have h := binary64_of_frac 23 80
      5179139571476070 (-54) (by decide) (by decide) (by decide) (by decide) (by decide)
    have hx : ((23 : ℤ) : ℚ) / ((80 : ℤ) : ℚ)
        = ((23 : ℚ) / 80) := by norm_num
    rw [hx] at h
    rw [h]
    norm_num
  have a3 : ((2589569785738035 : ℚ) / 9007199254740992) * 100
      = ((64739244643450875 : ℚ) / 2251799813685248) := by norm_num
  have er : binary64 ((64739244643450875 : ℚ) / 2251799813685248)
      = ((8092405580431359 : ℚ) / 281474976710656) := by
    have h := binary64_of_frac 64739244643450875 2251799813685248
      8092405580431359 (-48) (by decide) (by decide) (by decide) (by decide) (by decide)
    have hx : ((64739244643450875 : ℤ) : ℚ) / ((2251799813685248 : ℤ) : ℚ)
        = ((64739244643450875 : ℚ) / 2251799813685248) := by norm_num
    rw [hx] at h
    rw [h]
    norm_num
  have ht : toFixed 1 ((8092405580431359 : ℚ) / 281474976710656) = "28.7" := by
    have h := toFixed_of_frac 1 8092405580431359 281474976710656
      (by decide) (by decide)
    have hx : ((8092405580431359 : ℤ) : ℚ) / ((281474976710656 : ℤ) : ℚ)
        = ((8092405580431359 : ℚ) / 281474976710656) := by norm_num
    rw [hx] at h
    rw [h]
    decide
  unfold percentChange
  rw [ec, ea, a1, es, a2, eq, a3, er, ht]

/-- In double-precision arithmetic (183 - 160) / 160 * 100 lies just below 14.375,
and `toFixed(2)` prints 14.37. -/
theorem percentChange_183_160_text :
    toFixed 2 (percentChange (183 : ℚ) (160 : ℚ)) = "14.37" := by
  have ec : binary64 (183 : ℚ)
      = (183 : ℚ) := by
    have h := binary64_of_frac 183 1
      6438740092256256 (-45) (by decide) (by decide) (by decide) (by decide) (by decide)
    have hx : ((183 : ℤ) : ℚ) / ((1 : ℤ) : ℚ)
        = (183 : ℚ) := by norm_num
    rw [hx] at h
    rw [h]
    norm_num
  have ea : binary64 (160 : ℚ)
      = (160 : ℚ) := by
    have h := binary64_of_frac 160 1
      5629499534213120 (-45) (by decide) (by decide) (by decide) (by decide) (by decide)
    have hx : ((160 : ℤ) : ℚ) / ((1 : ℤ) : ℚ)
        = (160 : ℚ) := by norm_num
    rw [hx] at h
    rw [h]
    norm_num
  have a1 : (183 : ℚ) - (160 : ℚ)
      = (23 : ℚ) := by norm_num
  have es : binary64 (23 : ℚ)
      = (23 : ℚ) := by
    have h := binary64_of_frac 23 1
      6473924464345088 (-48) (by decide) (by decide) (by decide) (by decide) (by decide)
    have hx : ((23 : ℤ) : ℚ) / ((1 : ℤ) : ℚ)
        = (23 : ℚ) := by norm_num
    rw [hx] at h
    rw [h]
    norm_num
  have a2 : (23 : ℚ)
        / (160 : ℚ)
      = ((23 : ℚ) / 160) := by norm_num
  have eq : binary64 ((23 : ℚ) / 160)
      = ((2589569785738035 : ℚ) / 18014398509481984) := by
    have h := binary64_of_frac 23 160
      5179139571476070 (-55) (by decide) (by decide) (by decide) (by decide) (by decide)
    have hx : ((23 : ℤ) : ℚ) / ((160 : ℤ) : ℚ)
        = ((23 : ℚ) / 160) := by norm_num
    rw [hx] at h
    rw [h]
    norm_num
  have a3 : ((2589569785738035 : ℚ) / 18014398509481984) * 100
      = ((64739244643450875 : ℚ) / 4503599627370496) := by norm_num
  have er : binary64 ((64739244643450875 : ℚ) / 4503599627370496)
      = ((8092405580431359 : ℚ) / 562949953421312) := by
    have h := binary64_of_frac 64739244643450875 4503599627370496
      8092405580431359 (-49) (by decide) (by decide) (by decide) (by decide) (by decide)
    have hx : ((64739244643450875 : ℤ) : ℚ) / ((4503599627370496 : ℤ) : ℚ)
        = ((64739244643450875 : ℚ) / 4503599627370496) := by norm_num
    rw [hx] at h
    rw [h]
    norm_num
  have ht : toFixed 2 ((8092405580431359 : ℚ) / 562949953421312) = "14.37" := by
    have h := toFixed_of_frac 2 8092405580431359 562949953421312
      (by decide) (by decide)
    have hx : ((8092405580431359 : ℤ) : ℚ) / ((562949953421312 : ℤ) : ℚ)
        = ((8092405580431359 : ℚ) / 562949953421312) := by norm_num
    rw [hx] at h
    rw [h]
    decide
  unfold percentChange
  rw [ec, ea, a1, es, a2, eq, a3, er, ht]

/-- In double-precision arithmetic (7 - a) / a * 100, for a the double nearest to
32 / 3, lies just above -34.375, and `toFixed(2)` prints -34.37. -/
theorem percentChange_7_32_3_text :
    toFixed 2 (percentChange (7 : ℚ) ((32 : ℚ) / 3)) = "-34.37" := by
  have ec : binary64 (7 : ℚ)
      = (7 : ℚ) := by
    have h := binary64_of_frac 7 1
      7881299347898368 (-50) (by decide) (by decide) (by decide) (by decide) (by decide)
    have hx : ((7 : ℤ) : ℚ) / ((1 : ℤ) : ℚ)
        = (7 : ℚ) := by norm_num
    rw [hx] at h
    rw [h]
    norm_num
  have ea : binary64 ((32 : ℚ) / 3)
      = ((6004799503160661 : ℚ) / 562949953421312) := by
    have h := binary64_of_frac 32 3
      6004799503160661 (-49) (by decide) (by decide) (by decide) (by decide) (by decide)
    have hx : ((32 : ℤ) : ℚ) / ((3 : ℤ) : ℚ)
        = ((32 : ℚ) / 3) := by norm_num
    rw [hx] at h
    rw [h]
    norm_num
  have a1 : (7 : ℚ) - ((6004799503160661 : ℚ) / 562949953421312)
      = ((-2064149829211477 : ℚ) / 562949953421312) := by norm_num
  have es : binary64 ((-2064149829211477 : ℚ) / 562949953421312)
      = ((-2064149829211477 : ℚ) / 562949953421312) := by
    have h := binary64_of_frac (-2064149829211477) 562949953421312
      8256599316845908 (-51) (by decide) (by decide) (by decide) (by decide) (by decide)
    have hx : (((-2064149829211477) : ℤ) : ℚ) / ((562949953421312 : ℤ) : ℚ)
        = ((-2064149829211477 : ℚ) / 562949953421312) := by norm_num
    rw [hx] at h
    rw [h]
    norm_num
  have a2 : ((-2064149829211477 : ℚ) / 562949953421312)
        / ((6004799503160661 : ℚ) / 562949953421312)
      = ((-294878547030211 : ℚ) / 857828500451523) := by norm_num
  have eq : binary64 ((-294878547030211 : ℚ) / 857828500451523)
      = ((-6192449487634431 : ℚ) / 18014398509481984) := by
    have h := binary64_of_frac (-294878547030211) 857828500451523
      6192449487634431 (-54) (by decide) (by decide) (by decide) (by decide) (by decide)
    have hx : (((-294878547030211) : ℤ) : ℚ) / ((857828500451523 : ℤ) : ℚ)
        = ((-294878547030211 : ℚ) / 857828500451523) := by norm_num
    rw [hx] at h
    rw [h]
    norm_num
  have a3 : ((-6192449487634431 : ℚ) / 18014398509481984) * 100
      = ((-154811237190860775 : ℚ) / 4503599627370496) := by norm_num
  have er : binary64 ((-154811237190860775 : ℚ) / 4503599627370496)
      = ((-4837851162214399 : ℚ) / 140737488355328) := by
    have h := binary64_of_frac (-154811237190860775) 4503599627370496
      4837851162214399 (-47) (by decide) (by decide) (by decide) (by decide) (by decide)
    have hx : (((-154811237190860775) : ℤ) : ℚ) / ((4503599627370496 : ℤ) : ℚ)
        = ((-154811237190860775 : ℚ) / 4503599627370496) := by norm_num
    rw [hx] at h
    rw [h]
    norm_num
  have ht : toFixed 2 ((-4837851162214399 : ℚ) / 140737488355328) = "-34.37" := by
    have h := toFixed_of_frac 2 (-4837851162214399) 140737488355328
      (by decide) (by decide)
    have hx : (((-4837851162214399) : ℤ) : ℚ) / ((140737488355328 : ℤ) : ℚ)
        = ((-4837851162214399 : ℚ) / 140737488355328) := by norm_num
    rw [hx] at h
    rw [h]
    decide
  unfold percentChange
  rw [ec, ea, a1, es, a2, eq, a3, er, ht]

/-- In double-precision arithmetic 23 / 80 * 100 lies just below 28.75, and
`toFixed(1)` prints 28.7. -/
theorem percentShare_23_80_text :
    toFixed 1 (percentShare (23 : ℚ) (80 : ℚ)) = "28.7" := by
  have ec : binary64 (23 : ℚ)
      = (23 : ℚ) := by
    have h := binary64_of_frac 23 1
      6473924464345088 (-48) (by decide) (by decide) (by decide) (by decide) (by decide)
    have hx : ((23 : ℤ) : ℚ) / ((1 : ℤ) : ℚ)
        = (23 : ℚ) := by norm_num
    rw [hx] at h
    rw [h]
    norm_num
  have et : binary64 (80 : ℚ)
      = (80 : ℚ) := by
    have h := binary64_of_frac 80 1
      5629499534213120 (-46) (by decide) (by decide) (by decide) (by decide) (by decide)
    have hx : ((80 : ℤ) : ℚ) / ((1 : ℤ) : ℚ)
        = (80 : ℚ) := by norm_num
    rw [hx] at h
    rw [h]
    norm_num
  have a1 : (23 : ℚ) / (80 : ℚ)
      = ((23 : ℚ) / 80) := by norm_num
  have eq : binary64 ((23 : ℚ) / 80)
      = ((2589569785738035 : ℚ) / 9007199254740992) := by
    have h := binary64_of_frac 23 80
      5179139571476070 (-54) (by decide) (by decide) (by decide) (by decide) (by decide)
    have hx : ((23 : ℤ) : ℚ) / ((80 : ℤ) : ℚ)
        = ((23 : ℚ) / 80) := by norm_num
    rw [hx] at h
    rw [h]
    norm_num
  have a2 : ((2589569785738035 : ℚ) / 9007199254740992) * 100
      = ((64739244643450875 : ℚ) / 2251799813685248) := by norm_num
  have er : binary64 ((64739244643450875 : ℚ) / 2251799813685248)
      = ((8092405580431359 : ℚ) / 281474976710656) := by
    have h := binary64_of_frac 64739244643450875 2251799813685248
      8092405580431359 (-48) (by decide) (by decide) (by decide) (by decide) (by decide)
    have hx : ((64739244643450875 : ℤ) : ℚ) / ((2251799813685248 : ℤ) : ℚ)
        = ((64739244643450875 : ℚ) / 2251799813685248) := by norm_num
    rw [hx] at h
    rw [h]
    norm_num
  have ht : toFixed 1 ((8092405580431359 : ℚ) / 281474976710656) = "28.7" := by
    have h := toFixed_of_frac 1 8092405580431359 281474976710656
      (by decide) (by decide)
    have hx : ((8092405580431359 : ℤ) : ℚ) / ((281474976710656 : ℤ) : ℚ)
        = ((8092405580431359 : ℚ) / 281474976710656) := by norm_num
    rw [hx] at h
    rw [h]
    decide
  unfold percentShare
  rw [ec, et, a1, eq, a2, er, ht]

/-- The double nearest to 32 / 30. -/
theorem binary64_eval_16_15 :
    binary64 ((16 : ℚ) / 15) = ((4803839602528529 : ℚ) / 4503599627370496) := by
  have e : binary64 ((16 : ℚ) / 15)
      = ((4803839602528529 : ℚ) / 4503599627370496) := by
    have h := binary64_of_frac 16 15
      4803839602528529 (-52) (by decide) (by decide) (by decide) (by decide) (by decide)
    have hx : ((16 : ℤ) : ℚ) / ((15 : ℤ) : ℚ)
        = ((16 : ℚ) / 15) := by norm_num
    rw [hx] at h
    rw [h]
    norm_num
  exact e

/-- In double-precision arithmetic (1 - a) / a * 100, for a the double nearest to
32 / 30, lies just above -6.25, and `toFixed(1)` prints -6.2. -/
theorem percentChange_1_16_15_text :
    toFixed 1 (percentChange (1 : ℚ) ((4803839602528529 : ℚ) / 4503599627370496)) = "-6.2" := by
  have ec : binary64 (1 : ℚ)
      = (1 : ℚ) := by
    have h := binary64_of_frac 1 1
      4503599627370496 (-52) (by decide) (by decide) (by decide) (by decide) (by decide)
    have hx : ((1 : ℤ) : ℚ) / ((1 : ℤ) : ℚ)
        = (1 : ℚ) := by norm_num
    rw [hx] at h
    rw [h]
    norm_num
  have ea : binary64 ((4803839602528529 : ℚ) / 4503599627370496)
      = ((4803839602528529 : ℚ) / 4503599627370496) := by
    have h := binary64_of_frac 4803839602528529 4503599627370496
      4803839602528529 (-52) (by decide) (by decide) (by decide) (by decide) (by decide)
    have hx : ((4803839602528529 : ℤ) : ℚ) / ((4503599627370496 : ℤ) : ℚ)
        = ((4803839602528529 : ℚ) / 4503599627370496) := by norm_num
    rw [hx] at h
    rw [h]
    norm_num
  have a1 : (1 : ℚ) - ((4803839602528529 : ℚ) / 4503599627370496)
      = ((-300239975158033 : ℚ) / 4503599627370496) := by norm_num
  have es : binary64 ((-300239975158033 : ℚ) / 4503599627370496)
      = ((-300239975158033 : ℚ) / 4503599627370496) := by
    have h := binary64_of_frac (-300239975158033) 4503599627370496
      4803839602528528 (-56) (by decide) (by decide) (by decide) (by decide) (by decide)
    have hx : (((-300239975158033) : ℤ) : ℚ) / ((4503599627370496 : ℤ) : ℚ)
        = ((-300239975158033 : ℚ) / 4503599627370496) := by norm_num
    rw [hx] at h
    rw [h]
    norm_num
  have a2 : ((-300239975158033 : ℚ) / 4503599627370496)
        / ((4803839602528529 : ℚ) / 4503599627370496)
      = ((-300239975158033 : ℚ) / 4803839602528529) := by norm_num
  have eq : binary64 ((-300239975158033 : ℚ) / 4803839602528529)
      = ((-4503599627370495 : ℚ) / 72057594037927936) := by
    have h := binary64_of_frac (-300239975158033) 4803839602528529
      9007199254740990 (-57) (by decide) (by decide) (by decide) (by decide) (by decide)
    have hx : (((-300239975158033) : ℤ) : ℚ) / ((4803839602528529 : ℤ) : ℚ)
        = ((-300239975158033 : ℚ) / 4803839602528529) := by norm_num
    rw [hx] at h
    rw [h]
    norm_num
  have a3 : ((-4503599627370495 : ℚ) / 72057594037927936) * 100
      = ((-112589990684262375 : ℚ) / 18014398509481984) := by norm_num
  have er : binary64 ((-112589990684262375 : ℚ) / 18014398509481984)
      = ((-3518437208883199 : ℚ) / 562949953421312) := by
    have h := binary64_of_frac (-112589990684262375) 18014398509481984
      7036874417766398 (-50) (by decide) (by decide) (by decide) (by decide) (by decide)
    have hx : (((-112589990684262375) : ℤ) : ℚ) / ((18014398509481984 : ℤ) : ℚ)
        = ((-112589990684262375 : ℚ) / 18014398509481984) := by norm_num
    rw [hx] at h
    rw [h]
    norm_num
  have ht : toFixed 1 ((-3518437208883199 : ℚ) / 562949953421312) = "-6.2" := by
    have h := toFixed_of_frac 1 (-3518437208883199) 562949953421312
      (by decide) (by decide)
    have hx : (((-3518437208883199) : ℤ) : ℚ) / ((562949953421312 : ℤ) : ℚ)
        = ((-3518437208883199 : ℚ) / 562949953421312) := by norm_num
    rw [hx] at h
    rw [h]
    decide
  unfold percentChange
  rw [ec, ea, a1, es, a2, eq, a3, er, ht]

/-! ## Growth -/

/-- C9: `calculateGrowth` returns the number 0 when the previous snapshot is
absent, and when the previous snapshot holds 0 for the metric, whatever the
current snapshot and its value are. -/
theorem calculateGrowth_zero_guard (self : Analytics) (previousData : Option Analytics)
    (metric : String)
    (h : previousData = none
      ∨ ∃ previous, previousData = some previous ∧ previous.metrics.lookup metric = some 0) :
    calculateGrowth self previousData metric = JSValue.number 0 := by
  rcases h with h | ⟨previous, h, h0⟩
  · subst h; rfl
  · subst h
    simp [calculateGrowth, h0]

/-- C9 on sample snapshots: from a previous total of 0 the growth is the
number 0. -/
theorem calculateGrowth_zero_guard_witness :
    calculateGrowth (sampleSnapshot 7) (some (sampleSnapshot 0)) "totalMentions"
      = JSValue.number 0 :=
  calculateGrowth_zero_guard (sampleSnapshot 7) (some (sampleSnapshot 0)) "totalMentions"
    (Or.inr ⟨sampleSnapshot 0, rfl, by simp [Metrics.lookup, sampleSnapshot]⟩)

/-- The magnitude of a rational number, from its numerator and denominator. -/
theorem abs_eq_natAbs_div (x : ℚ) : |x| = (x.num.natAbs : ℚ) / (x.den : ℚ) := by
  rw [Rat.abs_def, Rat.divInt_eq_div]
  simp [Nat.cast_natAbs]

/-- The integer `toFixed` picks is the magnitude scaled by 10^fractionDigits
and rounded to the nearest integer, upwards from a half. -/
theorem toFixedDigits_nearest (fractionDigits : Nat) (x : ℚ) :
    (toFixedDigits fractionDigits x : ℚ) ≤ |x| * 10 ^ fractionDigits + 1 / 2
    ∧ |x| * 10 ^ fractionDigits + 1 / 2 < (toFixedDigits fractionDigits x : ℚ) + 1 := by
  have hdpos : 0 < x.den := x.den_pos
  have hd : (0 : ℚ) < (x.den : ℚ) := by exact_mod_cast hdpos
  have h2d : (0 : ℚ) < 2 * (x.den : ℚ) := by linarith
  have hval : |x| * 10 ^ fractionDigits + 1 / 2
      = ((2 * x.num.natAbs * 10 ^ fractionDigits + x.den : ℕ) : ℚ) / (2 * (x.den : ℚ)) := by
    rw [abs_eq_natAbs_div]
    push_cast
    field_simp
    ring
  have hle : toFixedDigits fractionDigits x * (2 * x.den)
      ≤ 2 * x.num.natAbs * 10 ^ fractionDigits + x.den :=
    Nat.div_mul_le_self _ _
  have hlt : 2 * x.num.natAbs * 10 ^ fractionDigits + x.den
      < (toFixedDigits fractionDigits x + 1) * (2 * x.den) := by
    unfold toFixedDigits
    exact (Nat.div_lt_iff_lt_mul (by omega)).mp (Nat.lt_succ_self _)
  rw [hval]
  constructor
  · rw [le_div_iff₀ h2d]
    exact_mod_cast hle
  · rw [div_lt_iff₀ h2d]
    exact_mod_cast hlt

/-- The digits already produced stay behind the digits still to come. -/
theorem toDigitsCore_acc (fuel n : Nat) (ds : List Char) :
    Nat.toDigitsCore 10 fuel n ds = Nat.toDigitsCore 10 fuel n [] ++ ds := by
  induction fuel generalizing n ds with
  | zero => simp [Nat.toDigitsCore]
  | succ fuel ih =>
    by_cases h : n / 10 = 0
    · simp [Nat.toDigitsCore, h]
    · simp only [Nat.toDigitsCore, h, if_false]
      rw [ih (n / 10) (Nat.digitChar (n % 10) :: ds), ih (n / 10) [Nat.digitChar (n % 10)]]
      simp

/-- Any fuel above the number gives the same digits. -/
theorem toDigitsCore_fuel (n : Nat) :
    ∀ fuel₁ fuel₂ : Nat, n < fuel₁ → n < fuel₂ → ∀ ds : List Char,
      Nat.toDigitsCore 10 fuel₁ n ds = Nat.toDigitsCore 10 fuel₂ n ds := by
  induction n using Nat.strong_induction_on with
  | _ n ih =>
    intro fuel₁ fuel₂ h₁ h₂ ds
    cases fuel₁ with
    | zero => omega
    | succ f₁ =>
      cases fuel₂ with
      | zero => omega
      | succ f₂ =>
        by_cases h : n / 10 = 0
        · simp [Nat.toDigitsCore, h]
        · simp only [Nat.toDigitsCore, h, if_false]
          have hlt : n / 10 < n := by omega
          exact ih (n / 10) hlt f₁ f₂ (by omega) (by omega) _

/-- The decimal digits of a number: one digit below ten, else the digits of
the tenth part followed by the last digit. -/
theorem toDigits_ten (n : Nat) :
    Nat.toDigits 10 n
      = if n < 10 then [Nat.digitChar n]
        else Nat.toDigits 10 (n / 10) ++ [Nat.digitChar (n % 10)] := by
  unfold Nat.toDigits
  by_cases h : n < 10
  · have h0 : n / 10 = 0 := by omega
    have hm : n % 10 = n := by omega
    simp [Nat.toDigitsCore, h, h0, hm]
  · have h0 : ¬ n / 10 = 0 := by omega
    have hstep : Nat.toDigitsCore 10 (n + 1) n []
        = Nat.toDigitsCore 10 n (n / 10) [Nat.digitChar (n % 10)] := by
      simp [Nat.toDigitsCore, h0]
    rw [if_neg h, hstep, toDigitsCore_acc,
      toDigitsCore_fuel (n / 10) n (n / 10 + 1) (by omega) (by omega)]

/-- The decimal digits of a number are never empty. -/
theorem toDigits_ten_ne_nil (n : Nat) : Nat.toDigits 10 n ≠ [] := by
  rw [toDigits_ten]
  split <;> simp

/-- With one fraction digit, `toFixed` prints the sign, the decimal digits of
the whole tenths n / 10, a point, and the digit n % 10. -/
theorem toFixed_one (x : ℚ) :
    toFixed 1 x
      = String.mk ((if x < 0 then ['-'] else [])
          ++ Nat.toDigits 10 (toFixedDigits 1 x / 10)
          ++ ['.'] ++ [Nat.digitChar (toFixedDigits 1 x % 10)]) := by
  unfold toFixed
  simp only [Nat.one_ne_zero, if_false]
  congr 1
  rw [toDigits_ten (toFixedDigits 1 x)]
  by_cases h : toFixedDigits 1 x < 10
  · have h0 : toFixedDigits 1 x / 10 = 0 := by omega
    have hm : toFixedDigits 1 x % 10 = toFixedDigits 1 x := by omega
    have hz : Nat.toDigits 10 0 = ['0'] := by decide
    simp [h, h0, hm, hz]
  · have hne := toDigits_ten_ne_nil (toFixedDigits 1 x / 10)
    have hlen : 0 < (Nat.toDigits 10 (toFixedDigits 1 x / 10)).length :=
      List.length_pos.mpr hne
    have hnot : ¬ (Nat.toDigits 10 (toFixedDigits 1 x / 10)).length + 1 ≤ 1 := by omega
    simp [h, hnot]

/-- In double-precision arithmetic (15 - 10) / 10 * 100 is 50. -/
theorem percentChange_15_10 : percentChange 15 10 = 50 := by
  have h1 : (15 : ℚ) - 10 = 5 := by norm_num
  have h2 : (5 : ℚ) / 10 = (1 : ℚ) / 2 := by norm_num
  have h3 : (1 : ℚ) / 2 * 100 = 50 := by norm_num
  unfold percentChange
  rw [binary64_eval_15, binary64_eval_10, h1, binary64_eval_5, h2, binary64_eval_1_2, h3,
    binary64_eval_50]

/-- The growth from 10 to 15 total mentions is the text "50.0". -/
theorem calculateGrowth_sample :
    calculateGrowth (sampleSnapshot 15) (some (sampleSnapshot 10)) "totalMentions"
      = JSValue.string "50.0" := by
  have h10 : ¬ ((10 : ℚ) = 0) := by norm_num
  have htext : toFixed 1 50 = "50.0" := by decide
  simp only [calculateGrowth, Metrics.lookup, sampleSnapshot, if_true, Option.some.injEq,
    Nat.cast_ofNat, h10, if_false, percentChange_15_10, htext]

/-- The growth from 80 to 103 total mentions is the text "28.7": the double
the code computes for 23 / 80 * 100 lies just below 28.75. -/
theorem calculateGrowth_tie_sample :
    calculateGrowth (sampleSnapshot 103) (some (sampleSnapshot 80)) "totalMentions"
      = JSValue.string "28.7" := by
  have h80 : ¬ ((80 : ℚ) = 0) := by norm_num
  simp only [calculateGrowth, Metrics.lookup, sampleSnapshot, if_true, Option.some.injEq,
    Nat.cast_ofNat, h80, if_false, percentChange_103_80_text]

/-- C10, as stated, fails: from 10 to 15 total mentions `calculateGrowth`
returns the string "50.0", which is no number, while the zero guard returns
the number 0. -/
theorem calculateGrowth_not_a_number :
    calculateGrowth (sampleSnapshot 15) (some (sampleSnapshot 10)) "totalMentions"
      = JSValue.string "50.0"
    ∧ calculateGrowth (sampleSnapshot 15) (some (sampleSnapshot 0)) "totalMentions"
      = JSValue.number 0
    ∧ ¬ ∃ q : ℚ, calculateGrowth (sampleSnapshot 15) (some (sampleSnapshot 10)) "totalMentions"
      = JSValue.number q := by
  refine ⟨calculateGrowth_sample, ?_, ?_⟩
  · simp [calculateGrowth, Metrics.lookup, sampleSnapshot]
  · rintro ⟨q, hq⟩
    rw [calculateGrowth_sample] at hq
    cases hq

/-- C10 (amended): when the previous value of the metric is not 0 (and the
percentage stays below 10^21 in magnitude), `calculateGrowth` returns a
string, not a number: the text `toFixed(1)` gives for
(current - previous) / previous * 100 as the code computes it, in
double-precision arithmetic. That text is the sign, the whole part n / 10 in
decimal digits, a point and the digit n % 10, where n is the magnitude of
that double in tenths rounded to the nearest integer, upwards from a half.
The double is the result of rounding the difference, the quotient and the
product each to the nearest double; for two doubles that are equal, or whose
difference and quotient are not below 2^-1000 in magnitude, it is within the
fraction 2^-51 of the exact percentage. From 80 to 103 total mentions the
exact percentage is 28.75, the double lies just below it, and the text is
28.7. -/
theorem calculateGrowth_percentage_text (self previousData : Analytics) (metric : String)
    (current previous : ℚ)
    (hc : self.metrics.lookup metric = some current)
    (hp : previousData.metrics.lookup metric = some previous)
    (h0 : previous ≠ 0)
    (_hbig : |percentChange current previous| < 10 ^ 21) :
    calculateGrowth self (some previousData) metric
      = JSValue.string (toFixed 1 (percentChange current previous))
    ∧ toFixed 1 (percentChange current previous)
      = String.mk ((if percentChange current previous < 0 then ['-'] else [])
          ++ Nat.toDigits 10 (toFixedDigits 1 (percentChange current previous) / 10)
          ++ ['.']
          ++ [Nat.digitChar (toFixedDigits 1 (percentChange current previous) % 10)])
    ∧ (toFixedDigits 1 (percentChange current previous) : ℚ)
        ≤ |percentChange current previous| * 10 + 1 / 2
    ∧ |percentChange current previous| * 10 + 1 / 2
        < (toFixedDigits 1 (percentChange current previous) : ℚ) + 1
    ∧ percentChange current previous
        = binary64 (binary64 (binary64 (binary64 current - binary64 previous)
            / binary64 previous) * 100)
    ∧ (binary64 current = current → binary64 previous = previous
        → (current = previous
            ∨ ((2 : ℚ) ^ (-1000 : ℤ) ≤ |current - previous|
              ∧ (2 : ℚ) ^ (-1000 : ℤ) ≤ |(current - previous) / previous|))
        → |percentChange current previous - (current - previous) / previous * 100|
            ≤ |(current - previous) / previous * 100| / 2 ^ 51)
    ∧ calculateGrowth (sampleSnapshot 103) (some (sampleSnapshot 80)) "totalMentions"
        = JSValue.string "28.7" := by
  have hr := toFixedDigits_nearest 1 (percentChange current previous)
  rw [pow_one] at hr
  refine ⟨?_, toFixed_one _, hr.1, hr.2, rfl, ?_, calculateGrowth_tie_sample⟩
  · simp [calculateGrowth, hc, hp, h0]
  · intro hcur hprev hn
    exact percentChange_accuracy current previous hcur hprev h0 hn

/-- C10 (amended) on sample snapshots: from 10 to 15 total mentions the growth
is the text of 50 with one decimal, and the double the code computes is
within the fraction 2^-51 of the exact percentage. -/
theorem calculateGrowth_percentage_text_witness :
    calculateGrowth (sampleSnapshot 15) (some (sampleSnapshot 10)) "totalMentions"
      = JSValue.string (toFixed 1 (percentChange 15 10))
    ∧ |percentChange 15 10 - ((15 : ℚ) - 10) / 10 * 100|
        ≤ |((15 : ℚ) - 10) / 10 * 100| / 2 ^ 51 :=
  have h := calculateGrowth_percentage_text (sampleSnapshot 15) (sampleSnapshot 10)
    "totalMentions" 15 10 (by simp [Metrics.lookup, sampleSnapshot])
    (by simp [Metrics.lookup, sampleSnapshot])
    (by norm_num) (by rw [percentChange_15_10]; norm_num [abs_of_nonneg])
  ⟨h.1, h.2.2.2.2.2.1 binary64_eval_15 binary64_eval_10
    (Or.inr ⟨le_trans (two_zpow_le_of_le (-1000) 0 (by norm_num)) (by norm_num),
      le_trans (two_zpow_le_of_le (-1000) (-1) (by norm_num))
        (by rw [abs_of_nonneg (by norm_num)]; norm_num)⟩)⟩

/-- With two fraction digits, `toFixed` prints the sign, the decimal digits of
the whole part n / 100, a point, and the digits of the tenths and of the
hundredths of n. -/
theorem toFixed_two (x : ℚ) :
    toFixed 2 x
      = String.mk ((if x < 0 then ['-'] else [])
          ++ Nat.toDigits 10 (toFixedDigits 2 x / 100)
          ++ ['.'] ++ [Nat.digitChar (toFixedDigits 2 x / 10 % 10),
            Nat.digitChar (toFixedDigits 2 x % 10)]) := by
  unfold toFixed
  have h20 : ¬ (2 : Nat) = 0 := by decide
  simp only [h20, if_false]
  congr 1
  have hz : Nat.toDigits 10 0 = ['0'] := by decide
  have hd0 : Nat.digitChar 0 = '0' := by decide
  rw [toDigits_ten (toFixedDigits 2 x)]
  by_cases h : toFixedDigits 2 x < 10
  · have h0 : toFixedDigits 2 x / 100 = 0 := by omega
    have h1 : toFixedDigits 2 x / 10 % 10 = 0 := by omega
    have hm : toFixedDigits 2 x % 10 = toFixedDigits 2 x := by omega
    simp [h, h0, h1, hm, hz, hd0, List.replicate]
  · rw [if_neg h, toDigits_ten (toFixedDigits 2 x / 10)]
    by_cases h' : toFixedDigits 2 x / 10 < 10
    · have h0 : toFixedDigits 2 x / 100 = 0 := by omega
      have h1 : toFixedDigits 2 x / 10 % 10 = toFixedDigits 2 x / 10 := by omega
      simp [h', h0, h1, hz, List.replicate]
    · have hdd : toFixedDigits 2 x / 10 / 10 = toFixedDigits 2 x / 100 := by omega
      have hne := toDigits_ten_ne_nil (toFixedDigits 2 x / 100)
      have hlen : 0 < (Nat.toDigits 10 (toFixedDigits 2 x / 100)).length :=
        List.length_pos.mpr hne
      have hnot : ¬ (Nat.toDigits 10 (toFixedDigits 2 x / 100)).length + 1 + 1 ≤ 2 := by omega
      simp [h', hdd, hnot]

/-- The mean of seven daily counts of 10 is 10. -/
theorem avgOf_seven_tens :
    avgOf (avgCount [(1, 10), (2, 10), (3, 10), (4, 10), (5, 10), (6, 10), (7, 10)]) = 10 := by
  norm_num [avgOf, avgCount]

/-- In double-precision arithmetic (30 - 10) / 10 * 100 is 200. -/
theorem percentChange_30_10 : percentChange 30 10 = 200 := by
  have h1 : (30 : ℚ) - 10 = 20 := by norm_num
  have h2 : (20 : ℚ) / 10 = 2 := by norm_num
  have h3 : (2 : ℚ) * 100 = 200 := by norm_num
  unfold percentChange
  rw [binary64_eval_30, binary64_eval_10, h1, binary64_eval_20, h2, binary64_eval_2, h3,
    binary64_eval_200]

/-- The spike percentage of 183 mentions over an average of 160 is the text
"14.37": the double the code computes lies just below 14.375. -/
theorem spikeResponse_tie_sample :
    (spikeResponse 183 160).spikePercentage = JSValue.string "14.37" := by
  have hpos : (160 : ℚ) > 0 := by norm_num
  simp only [spikeResponse, hpos, if_true, Nat.cast_ofNat, percentChange_183_160_text]

/-- The spike percentage of 7 mentions over an average of 32 / 3 is the text
"-34.37": the double the code computes lies just above -34.375. -/
theorem spikeResponse_negative_tie_sample :
    (spikeResponse 7 (32 / 3)).spikePercentage = JSValue.string "-34.37" := by
  have hpos : (32 : ℚ) / 3 > 0 := by norm_num
  simp only [spikeResponse, hpos, if_true, Nat.cast_ofNat, percentChange_7_32_3_text]

/-- C11: in the spike-alerts response computed from the current-day count c
and the baseline average a, isSpike is true exactly when c > a * 2, and
spikePercentage is the text of (c - a) / a * 100, as the code computes it in
double-precision arithmetic, with two decimals when a > 0 (the sign, the
whole part, a point and two digits of the magnitude of that double in
hundredths rounded to the nearest integer) and the number 0 when a = 0. The
double is the result of rounding the difference, the quotient and the product
each to the nearest double; for a count below 2^53 and a double a, equal or
with a difference and a quotient not below 2^-1000 in magnitude, it is within
the fraction 2^-51 of the exact percentage. The baseline daily counts 10, 10,
10, 10, 10, 10, 10 with c = 30 give isSpike = true and spikePercentage
200.00; 183 over 160 gives 14.37 and 7 over 32 / 3 gives -34.37, where the
exact percentages are 14.375 and -34.375. -/
theorem spikeResponse_spec (c : Nat) (a : ℚ) :
    ((spikeResponse c a).isSpike = true ↔ (c : ℚ) > a * 2)
    ∧ (spikeResponse c a).spikePercentage
        = (if a > 0 then JSValue.string (toFixed 2 (percentChange (c : ℚ) a))
           else JSValue.number 0)
    ∧ toFixed 2 (percentChange (c : ℚ) a)
        = String.mk ((if percentChange (c : ℚ) a < 0 then ['-'] else [])
          ++ Nat.toDigits 10 (toFixedDigits 2 (percentChange (c : ℚ) a) / 100)
          ++ ['.'] ++ [Nat.digitChar (toFixedDigits 2 (percentChange (c : ℚ) a) / 10 % 10),
            Nat.digitChar (toFixedDigits 2 (percentChange (c : ℚ) a) % 10)])
    ∧ (toFixedDigits 2 (percentChange (c : ℚ) a) : ℚ)
        ≤ |percentChange (c : ℚ) a| * 10 ^ 2 + 1 / 2
    ∧ |percentChange (c : ℚ) a| * 10 ^ 2 + 1 / 2
        < (toFixedDigits 2 (percentChange (c : ℚ) a) : ℚ) + 1
    ∧ (spikeResponse 30 (avgOf (avgCount
        [(1, 10), (2, 10), (3, 10), (4, 10), (5, 10), (6, 10), (7, 10)]))).isSpike = true
    ∧ (spikeResponse 30 (avgOf (avgCount
        [(1, 10), (2, 10), (3, 10), (4, 10), (5, 10), (6, 10), (7, 10)]))).spikePercentage
        = JSValue.string "200.00"
    ∧ percentChange (c : ℚ) a
        = binary64 (binary64 (binary64 (binary64 (c : ℚ) - binary64 a) / binary64 a) * 100)
    ∧ (c < 2 ^ 53 → binary64 a = a → a ≠ 0
        → ((c : ℚ) = a
            ∨ ((2 : ℚ) ^ (-1000 : ℤ) ≤ |(c : ℚ) - a|
              ∧ (2 : ℚ) ^ (-1000 : ℤ) ≤ |((c : ℚ) - a) / a|))
        → |percentChange (c : ℚ) a - ((c : ℚ) - a) / a * 100|
            ≤ |((c : ℚ) - a) / a * 100| / 2 ^ 51)
    ∧ (spikeResponse 183 160).spikePercentage = JSValue.string "14.37"
    ∧ (spikeResponse 7 (32 / 3)).spikePercentage = JSValue.string "-34.37" := by
  have hr := toFixedDigits_nearest 2 (percentChange (c : ℚ) a)
  refine ⟨by simp [spikeResponse], rfl, toFixed_two _, hr.1, hr.2, ?_, ?_, rfl, ?_,
    spikeResponse_tie_sample, spikeResponse_negative_tie_sample⟩
  · rw [avgOf_seven_tens]
    simp only [spikeResponse, decide_eq_true_eq]
    norm_num
  · rw [avgOf_seven_tens]
    have hpos : (10 : ℚ) > 0 := by norm_num
    have htext : toFixed 2 200 = "200.00" := by decide
    simp only [spikeResponse, hpos, if_true, Nat.cast_ofNat, percentChange_30_10, htext]
  · intro hc ha ha0 hn
    exact percentChange_accuracy (c : ℚ) a (binary64_natCast c hc) ha ha0 hn

/-- C11 at c = 30 and a = 10, both doubles: the double the code computes is
within the fraction 2^-51 of the exact percentage (it is 200 itself). -/
theorem spikeResponse_spec_witness :
    (30 < 2 ^ 53 ∧ binary64 (10 : ℚ) = 10 ∧ (10 : ℚ) ≠ 0)
    ∧ |percentChange ((30 : ℕ) : ℚ) 10 - (((30 : ℕ) : ℚ) - 10) / 10 * 100|
        ≤ |(((30 : ℕ) : ℚ) - 10) / 10 * 100| / 2 ^ 51 :=
  ⟨⟨by norm_num, binary64_eval_10, by norm_num⟩,
    (spikeResponse_spec 30 10).2.2.2.2.2.2.2.2.1 (by norm_num) binary64_eval_10 (by norm_num)
      (Or.inr ⟨le_trans (two_zpow_le_of_le (-1000) 0 (by norm_num)) (by norm_num),
        le_trans (two_zpow_le_of_le (-1000) 0 (by norm_num)) (by norm_num)⟩)⟩

/-- The weekly average is 0 when no mention of the brand lies in the window. -/
theorem weeklyAverage_empty (collection : List Mention) (brand : String) (w : SpikeWindow)
    (h : weeklyMatch collection brand w = []) :
    (spikeAlerts collection brand w).weeklyAverage = 0 := by
  simp [spikeAlerts, spikeResponse, weeklyAvg, h, groupByDay, avgCount, avgOf]

/-- C12 fails on the code: the three mentions of the current day raise
weeklyAverage from 1 to 2, since the `$match` of the weekly aggregation has no
upper bound and the current day forms a group of its own. -/
theorem weeklyAverage_counts_today :
    (∀ m ∈ sampleToday,
      sampleWindow.todayStart ≤ m.timestamp ∧ m.timestamp < sampleWindow.todayEnd)
    ∧ (spikeAlerts sampleBaseline "acme" sampleWindow).weeklyAverage = 1
    ∧ (spikeAlerts (sampleBaseline ++ sampleToday) "acme" sampleWindow).weeklyAverage = 2 := by
  have g1 : groupByDay (weeklyMatch sampleBaseline "acme" sampleWindow) = [(6, 1)] := by decide
  have g2 : groupByDay (weeklyMatch (sampleBaseline ++ sampleToday) "acme" sampleWindow)
      = [(6, 1), (7, 3)] := by decide
  refine ⟨by decide, ?_, ?_⟩
  · simp only [spikeAlerts, spikeResponse, weeklyAvg, g1]
    norm_num [avgOf, avgCount]
  · simp only [spikeAlerts, spikeResponse, weeklyAvg, g2]
    norm_num [avgOf, avgCount]

/-! ## Dashboard summary -/

/-- The mean the second `$group` stage yields is never negative. -/
theorem avgOf_avgCount_nonneg (groups : List (Int × Nat)) : 0 ≤ avgOf (avgCount groups) := by
  cases groups with
  | nil => simp [avgOf, avgCount]
  | cons g gs =>
    simp only [avgOf, avgCount, List.head?_cons, Option.getD_some]
    refine div_nonneg (List.sum_nonneg ?_) (Nat.cast_nonneg _)
    intro x hx
    rcases List.mem_map.mp hx with ⟨y, _, hy⟩
    rw [← hy]
    exact Nat.cast_nonneg _

/-- C13, as stated, fails: for seven mentions that all fall on the current day
the summary divides 7 mentions by 7 days and reports a spike (7 > 1 × 1.5),
while the mean of per-day counts that spike-alerts uses is 7, for which
7 > 7 × 1.5 is false. -/
theorem summary_baseline_differs :
    (summaryRealTime (recentMentions sampleBurst "acme" 0) (periodDays "7d")
        604800000).isSpike = true
    ∧ (summaryRealTime (recentMentions sampleBurst "acme" 0) (periodDays "7d")
        604800000).todayMentions = 7
    ∧ avgOf (weeklyAvg sampleBurst "acme" sampleWindow) = 7
    ∧ ¬ (((summaryRealTime (recentMentions sampleBurst "acme" 0) (periodDays "7d")
        604800000).todayMentions : ℚ)
          > avgOf (weeklyAvg sampleBurst "acme" sampleWindow) * (3 / 2)) := by
  have hrec : recentMentions sampleBurst "acme" 0 = sampleBurst := by decide
  have htoday : todayMentions sampleBurst 604800000 = 7 := by decide
  have hlen : sampleBurst.length = 7 := by decide
  have hdays : periodDays "7d" = 7 := by decide
  have hgroups : groupByDay (weeklyMatch sampleBurst "acme" sampleWindow) = [(7, 7)] := by
    decide
  have havg : avgOf (weeklyAvg sampleBurst "acme" sampleWindow) = 7 := by
    simp only [weeklyAvg, hgroups]
    norm_num [avgOf, avgCount]
  have hdaily : avgDailyMentions sampleBurst 7 = 1 := by
    have h1 : ((7 : ℕ) : ℚ) / ((7 : ℕ) : ℚ) = 1 := by norm_num
    unfold avgDailyMentions
    rw [hlen, h1, binary64_eval_1]
  have hthreshold : binary64 (avgDailyMentions sampleBurst 7 * (3 / 2)) = 3 / 2 := by
    have h2 : (1 : ℚ) * (3 / 2) = (3 : ℚ) / 2 := by norm_num
    rw [hdaily, h2, binary64_eval_3_2]
  rw [hrec, hdays, havg]
  refine ⟨?_, htoday, rfl, ?_⟩
  · simp only [summaryRealTime, htoday, hthreshold, decide_eq_true_eq]
    norm_num
  · simp only [summaryRealTime, htoday]
    norm_num

/-- The summary of thirty-two fetched mentions over thirty days, one of them
of the current day: the baseline is the double nearest to 32 / 30, the exact
percentage would be -6.25, the double the code computes lies just above it,
and the text is "-6.2". -/
theorem summary_tie_sample :
    (summaryRealTime sampleMonth (periodDays "30d") 604800000).spikePercentage
      = JSValue.string "-6.2" := by
  have htoday : todayMentions sampleMonth 604800000 = 1 := by decide
  have hlen : sampleMonth.length = 32 := by decide
  have hdays : periodDays "30d" = 30 := by decide
  have hdaily : avgDailyMentions sampleMonth 30
      = (4803839602528529 : ℚ) / 4503599627370496 := by
    have h1 : ((32 : ℕ) : ℚ) / ((30 : ℕ) : ℚ) = (16 : ℚ) / 15 := by norm_num
    unfold avgDailyMentions
    rw [hlen, h1, binary64_eval_16_15]
  have hpos : (4803839602528529 : ℚ) / 4503599627370496 > 0 := by norm_num
  rw [hdays]
  simp only [summaryRealTime, htoday, hdaily, hpos, if_true, Nat.cast_one,
    percentChange_1_16_15_text]

/-- C13 (amended): the spike result of the dashboard summary is the detector
of the specification with multiplier 1.5 and one decimal, and the spike
percentage of spike-alerts is that of the same detector with two decimals
(its isSpike is the comparison with the baseline times 2), but over another
baseline: the summary divides the number of fetched mentions (the 50 newest
at most, the current day included) by the days of the period, where
spike-alerts takes the mean of the per-day counts. Every operation is the
double-precision one of the code: thirty-two fetched mentions over thirty
days, one of them of the current day, give the text -6.2, where the exact
percentage is -6.25. -/
theorem summary_spike_detector (collection : List Mention) (brand period : String)
    (startDate today : Int) (w : SpikeWindow) :
    ((summaryRealTime (recentMentions collection brand startDate) (periodDays period)
          today).isSpike,
       (summaryRealTime (recentMentions collection brand startDate) (periodDays period)
          today).spikePercentage)
      = specSpikeDetector (3 / 2) 1
          (todayMentions (recentMentions collection brand startDate) today)
          (binary64 (((recentMentions collection brand startDate).length : ℚ)
            / (periodDays period : ℚ)))
    ∧ ((spikeAlerts collection brand w).isSpike = true
        ↔ (todayCount collection brand w : ℚ) > avgOf (weeklyAvg collection brand w) * 2)
    ∧ (spikeAlerts collection brand w).spikePercentage
      = (specSpikeDetector 2 2 (todayCount collection brand w)
          (avgOf (weeklyAvg collection brand w))).2
    ∧ (recentMentions collection brand startDate).length ≤ 50
    ∧ todayMentions (recentMentions collection brand startDate) today
        ≤ (recentMentions collection brand startDate).length
    ∧ (sampleMonth.length = 32 ∧ todayMentions sampleMonth 604800000 = 1
        ∧ (summaryRealTime sampleMonth (periodDays "30d") 604800000).spikePercentage
          = JSValue.string "-6.2") := by
  refine ⟨?_, ?_, ?_, ?_, ?_, by decide, by decide, summary_tie_sample⟩
  · have hdays : (0 : ℚ) < (periodDays period : ℚ) := by
      have : 0 < periodDays period := by
        unfold periodDays
        split
        · decide
        · split <;> decide
      exact_mod_cast this
    have hnn : (0 : ℚ) ≤ binary64 (((recentMentions collection brand startDate).length : ℚ)
        / (periodDays period : ℚ)) :=
      binary64_nonneg _ (div_nonneg (Nat.cast_nonneg _) (le_of_lt hdays))
    simp only [summaryRealTime, specSpikeDetector, avgDailyMentions]
    congr 1
    by_cases h0 : binary64 (((recentMentions collection brand startDate).length : ℚ)
        / (periodDays period : ℚ)) = 0
    · simp [h0]
    · have hpos : binary64 (((recentMentions collection brand startDate).length : ℚ)
          / (periodDays period : ℚ)) > 0 := lt_of_le_of_ne hnn (Ne.symm h0)
      rw [if_pos hpos, if_neg h0]
  · simp [spikeAlerts, spikeResponse]
  · have hnn := avgOf_avgCount_nonneg (groupByDay (weeklyMatch collection brand w))
    simp only [spikeAlerts, spikeResponse, specSpikeDetector, weeklyAvg]
    by_cases h0 : avgOf (avgCount (groupByDay (weeklyMatch collection brand w))) = 0
    · simp [h0]
    · have hpos : avgOf (avgCount (groupByDay (weeklyMatch collection brand w))) > 0 :=
        lt_of_le_of_ne hnn (Ne.symm h0)
      rw [if_pos hpos, if_neg h0]
  · unfold recentMentions
    rw [List.length_take]
    omega
  · exact List.length_filter_le _ _

/-! ## Sentiment widget -/

/-- Reading a label after a write. -/
theorem LabelMap.get_after_set (acc : LabelMap) (k k' : String) (v : Nat) :
    (acc.set k v).get k' = if k' = k then some v else acc.get k' := by
  induction acc with
  | nil =>
    by_cases h : k' = k
    · simp [LabelMap.set, LabelMap.get, h]
    · have h' : ¬ k = k' := fun e => h e.symm
      simp [LabelMap.set, LabelMap.get, h, h']
  | cons p rest ih =>
    unfold LabelMap.get at ih ⊢
    by_cases hp : p.1 = k
    · by_cases h : k' = k
      · simp [LabelMap.set, hp, h]
      · have h' : ¬ k = k' := fun e => h e.symm
        have h'' : ¬ p.1 = k' := fun e => h (e.symm.trans hp)
        simp [LabelMap.set, hp, h, h', List.find?_cons, h'', hp ▸ h'']
    · by_cases h : k' = k
      · have h'' : ¬ p.1 = k' := fun e => hp (e.trans h)
        simp only [LabelMap.set, hp, if_false, List.find?_cons, h'', decide_False]
        simpa [h] using ih
      · by_cases hq : p.1 = k'
        · simp [LabelMap.set, hp, h, List.find?_cons, hq]
        · simp only [LabelMap.set, hp, if_false, List.find?_cons, hq, decide_False]
          simpa [h] using ih

/-- A write to a label that is present keeps the labels of the object. -/
theorem LabelMap.keys_set_of_mem (acc : LabelMap) (k : String) (v : Nat)
    (hk : k ∈ acc.map (fun p => p.1)) :
    (acc.set k v).map (fun p => p.1) = acc.map (fun p => p.1) := by
  induction acc with
  | nil => simp at hk
  | cons p rest ih =>
    by_cases hp : p.1 = k
    · simp [LabelMap.set, hp]
    · have hk' : k ∈ rest.map (fun p => p.1) := by
        rcases List.mem_cons.mp hk with h | h
        · exact absurd h.symm hp
        · exact h
      simp [LabelMap.set, hp, ih hk']

/-- The value of a label after the `reduce` has run over `mentions` from the
accumulator `acc`. -/
theorem labelFold_get (mentions : List Mention) (acc : LabelMap) (l : String) :
    (mentions.foldl labelStep acc).get l
      = if (mentions.filter (fun m => m.sentiment = l)).length = 0 then acc.get l
        else some ((acc.get l).getD 0 + (mentions.filter (fun m => m.sentiment = l)).length) := by
  induction mentions generalizing acc with
  | nil => simp
  | cons m ms ih =>
    rw [List.foldl_cons, ih]
    unfold labelStep
    rw [LabelMap.get_after_set]
    by_cases hs : m.sentiment = l
    · have hs' : l = m.sentiment := hs.symm
      subst hs'
      by_cases h0 : (ms.filter (fun x => x.sentiment = m.sentiment)).length = 0
      · simp [List.filter_cons, h0]
      · simp [List.filter_cons, h0]; omega
    · have hs' : ¬ l = m.sentiment := fun e => hs e.symm
      simp [List.filter_cons, hs, hs']

/-- With valid labels the `reduce` adds no property to the object. -/
theorem labelFold_keys (mentions : List Mention) (acc : LabelMap)
    (h : ∀ m ∈ mentions, m.sentiment ∈ acc.map (fun p => p.1)) :
    (mentions.foldl labelStep acc).map (fun p => p.1) = acc.map (fun p => p.1) := by
  induction mentions generalizing acc with
  | nil => rfl
  | cons m ms ih =>
    have hm := h m (List.mem_cons_self _ _)
    have hkeys : (labelStep acc m).map (fun p => p.1) = acc.map (fun p => p.1) :=
      LabelMap.keys_set_of_mem acc m.sentiment _ hm
    rw [List.foldl_cons, ih, hkeys]
    intro x hx
    rw [hkeys]
    exact h x (List.mem_cons_of_mem _ hx)

/-- The count the widget holds for one of its three labels. -/
theorem sentimentCounts_get (mentions : List Mention) (l : String)
    (hl : l = "positive" ∨ l = "negative" ∨ l = "neutral") :
    (sentimentCounts mentions).get l
      = some (mentions.filter (fun m => m.sentiment = l)).length := by
  have hget : LabelMap.get [("positive", 0), ("negative", 0), ("neutral", 0)] l = some 0 := by
    rcases hl with rfl | rfl | rfl <;> decide
  unfold sentimentCounts
  rw [labelFold_get, hget]
  by_cases h0 : (mentions.filter (fun m => m.sentiment = l)).length = 0
  · rw [if_pos h0, h0]
  · rw [if_neg h0]
    simp

/-- In double-precision arithmetic 2 / 4 * 100 is 50. -/
theorem percentShare_2_4 : percentShare 2 4 = 50 := by
  have h1 : (2 : ℚ) / 4 = (1 : ℚ) / 2 := by norm_num
  have h2 : (1 : ℚ) / 2 * 100 = 50 := by norm_num
  unfold percentShare
  rw [binary64_eval_2, binary64_eval_4, h1, binary64_eval_1_2, h2, binary64_eval_50]

/-- In double-precision arithmetic 1 / 4 * 100 is 25. -/
theorem percentShare_1_4 : percentShare 1 4 = 25 := by
  have h2 : (1 : ℚ) / 4 * 100 = 25 := by norm_num
  unfold percentShare
  rw [binary64_eval_1, binary64_eval_4, binary64_eval_1_4, h2, binary64_eval_25]

/-- The percentages of the sample of four mentions. -/
theorem sampleFour_percentages :
    (getSentimentWidgetData sampleFour).percentages
      = { positive := JSValue.string "50.0"
          negative := JSValue.string "25.0"
          neutral := JSValue.string "25.0" } := by
  have hcounts : sentimentCounts sampleFour
      = [("positive", 2), ("negative", 1), ("neutral", 1)] := by decide
  have hlen : sampleFour.length = 4 := by decide
  have t50 : toFixed 1 50 = "50.0" := by decide
  have t25 : toFixed 1 25 = "25.0" := by decide
  have gp : LabelMap.get [("positive", 2), ("negative", 1), ("neutral", 1)] "positive"
      = some 2 := by decide
  have gn : LabelMap.get [("positive", 2), ("negative", 1), ("neutral", 1)] "negative"
      = some 1 := by decide
  have gu : LabelMap.get [("positive", 2), ("negative", 1), ("neutral", 1)] "neutral"
      = some 1 := by decide
  have h4 : 4 > 0 := by decide
  simp only [getSentimentWidgetData, labelPercent, hcounts, hlen, gp, gn, gu, h4, if_true,
    Nat.cast_ofNat, Nat.cast_one, percentShare_2_4, percentShare_1_4, t50, t25]

/-- The share of 23 mentions among 80 is the text "28.7": the double the code
computes for 23 / 80 * 100 lies just below 28.75. -/
theorem percentOf_tie_sample : percentOf 23 80 = JSValue.string "28.7" := by
  have h80 : 80 > 0 := by decide
  simp only [percentOf, h80, if_true, Nat.cast_ofNat, percentShare_23_80_text]

/-- C14: when every mention carries one of the labels positive, negative or
neutral, `getSentimentWidgetData` returns as data exactly the three labels,
each with the number of mentions of that label, as totalMentions the length
of the list (so the three counts add up to it), and as percentage of each
label the text of count / total * 100 with one decimal, or the number 0 for
each label when the list is empty; the labels positive, positive, negative,
neutral give the counts 2, 1, 1, the percentages 50.0, 25.0, 25.0 and the
total 4. The text is the one `toFixed(1)` gives for the double the code
computes, rounding the quotient and the product each to the nearest double;
below 2^53 mentions that double is within the fraction 2^-51 of the exact
share. For 23 mentions among 80 the exact share is 28.75, the double lies
just below it, and the text is 28.7. -/
theorem getSentimentWidgetData_spec (mentions : List Mention)
    (h : ∀ m ∈ mentions, validSentiment m) :
    (getSentimentWidgetData mentions).data.map (fun p => p.1)
        = ["positive", "negative", "neutral"]
    ∧ (getSentimentWidgetData mentions).data.get "positive" = some (positiveMentions mentions)
    ∧ (getSentimentWidgetData mentions).data.get "negative" = some (negativeMentions mentions)
    ∧ (getSentimentWidgetData mentions).data.get "neutral" = some (neutralMentions mentions)
    ∧ (getSentimentWidgetData mentions).totalMentions = mentions.length
    ∧ positiveMentions mentions + negativeMentions mentions + neutralMentions mentions
        = (getSentimentWidgetData mentions).totalMentions
    ∧ (getSentimentWidgetData mentions).percentages
        = { positive := percentOf (positiveMentions mentions) mentions.length
            negative := percentOf (negativeMentions mentions) mentions.length
            neutral := percentOf (neutralMentions mentions) mentions.length }
    ∧ (mentions = [] → (getSentimentWidgetData mentions).percentages
        = { positive := JSValue.number 0, negative := JSValue.number 0,
            neutral := JSValue.number 0 })
    ∧ (getSentimentWidgetData sampleFour).data
        = [("positive", 2), ("negative", 1), ("neutral", 1)]
    ∧ (getSentimentWidgetData sampleFour).percentages
        = { positive := JSValue.string "50.0"
            negative := JSValue.string "25.0"
            neutral := JSValue.string "25.0" }
    ∧ (getSentimentWidgetData sampleFour).totalMentions = 4
    ∧ (∀ count : ℕ, 0 < mentions.length →
        percentOf count mentions.length
          = JSValue.string (toFixed 1 (percentShare (count : ℚ) (mentions.length : ℚ))))
    ∧ (∀ count total : ℚ, percentShare count total
        = binary64 (binary64 (binary64 count / binary64 total) * 100))
    ∧ (∀ count : ℕ, count < 2 ^ 53 → 0 < mentions.length → mentions.length < 2 ^ 53 →
        |percentShare (count : ℚ) (mentions.length : ℚ)
            - (count : ℚ) / (mentions.length : ℚ) * 100|
          ≤ (count : ℚ) / (mentions.length : ℚ) * 100 / 2 ^ 51)
    ∧ percentOf 23 80 = JSValue.string "28.7" := by
  have hp := sentimentCounts_get mentions "positive" (Or.inl rfl)
  have hn := sentimentCounts_get mentions "negative" (Or.inr (Or.inl rfl))
  have hu := sentimentCounts_get mentions "neutral" (Or.inr (Or.inr rfl))
  have hkeys : (sentimentCounts mentions).map (fun p => p.1)
      = ["positive", "negative", "neutral"] := by
    unfold sentimentCounts
    rw [labelFold_keys]
    · rfl
    · intro m hm
      rcases h m hm with hv | hv | hv <;> simp [hv]
  have hpct : (getSentimentWidgetData mentions).percentages
        = { positive := percentOf (positiveMentions mentions) mentions.length
            negative := percentOf (negativeMentions mentions) mentions.length
            neutral := percentOf (neutralMentions mentions) mentions.length } := by
    simp only [getSentimentWidgetData, labelPercent, percentOf, hp, hn, hu,
      positiveMentions, negativeMentions, neutralMentions]
  refine ⟨hkeys, hp, hn, hu, rfl, label_counts_add mentions h, hpct, ?_, by decide,
    sampleFour_percentages, by decide, ?_, fun _ _ => rfl, ?_, percentOf_tie_sample⟩
  · intro hnil
    rw [hpct, hnil]
    simp [percentOf]
  · intro count hlen
    simp [percentOf, hlen]
  · intro count hcount hlen hbound
    exact percentShare_accuracy count mentions.length hcount hbound hlen

/-- C14 on the sample of four mentions, whose labels are valid: the count of
the positive label, and the double computed for 2 mentions among the 4, which
is within the fraction 2^-51 of the exact share. -/
theorem getSentimentWidgetData_spec_witness :
    (∀ m ∈ sampleFour, validSentiment m)
    ∧ (getSentimentWidgetData sampleFour).data.get "positive"
        = some (positiveMentions sampleFour)
    ∧ |percentShare ((2 : ℕ) : ℚ) (sampleFour.length : ℚ)
          - ((2 : ℕ) : ℚ) / (sampleFour.length : ℚ) * 100|
        ≤ ((2 : ℕ) : ℚ) / (sampleFour.length : ℚ) * 100 / 2 ^ 51 :=
  have h := getSentimentWidgetData_spec sampleFour (by decide)
  ⟨by decide, h.2.1,
    h.2.2.2.2.2.2.2.2.2.2.2.2.2.1 2 (by norm_num) (by decide) (by decide)⟩

/-! ## Insights -/

/-- The source counts of a list with a mention are not empty. -/
theorem sourceBreakdown_ne_nil (mentions : List Mention) (h : mentions ≠ []) :
    sourceBreakdown mentions ≠ [] := by
  intro hnil
  have hsum := sourceFold_sum mentions []
  unfold sourceBreakdown at hnil
  rw [hnil] at hsum
  have hlen : 0 < mentions.length := List.length_pos.mpr h
  simp at hsum
  omega

/-- On a list with a mention the `reduce` over the source counts does not
throw, and `generateInsights` returns the sentiment insight, the engagement
insight and the top platform insight, in this order. -/
theorem generateInsights_of_ne_nil (mentions : List Mention) (h : mentions ≠ []) :
    ∃ top, topSource mentions = some top
      ∧ generateInsights mentions
          = some (sentimentInsights mentions ++ engagementInsights mentions
              ++ [topPlatformInsight top]) := by
  have hne := sourceBreakdown_ne_nil mentions h
  have hlen : ¬ mentions.length = 0 := fun h0 => h (List.length_eq_zero.mp h0)
  cases hsb : sourceBreakdown mentions with
  | nil => exact absurd hsb hne
  | cons e rest =>
    refine ⟨(rest.foldl pickTop e).1, ?_, ?_⟩
    · simp [topSource, reduce1, hsb]
    · simp [generateInsights, hlen, topSource, reduce1, hsb]

/-- The titles of the sentiment insights. -/
theorem sentimentInsights_titles (mentions : List Mention) :
    (sentimentInsights mentions).map (fun i => i.title)
      = if (positiveMentions mentions : ℚ) / (mentions.length : ℚ) > 7 / 10 then
          ["Excellent Sentiment"]
        else if (negativeMentions mentions : ℚ) / (mentions.length : ℚ) > 3 / 10 then
          ["Negative Sentiment Alert"]
        else [] := by
  unfold sentimentInsights
  split
  · rfl
  · split <;> rfl

/-- The titles of the engagement insights. -/
theorem engagementInsights_titles (mentions : List Mention) :
    (engagementInsights mentions).map (fun i => i.title)
      = if (engagementTotal mentions : ℚ) / (mentions.length : ℚ) > 50 then
          ["High Engagement"]
        else [] := by
  unfold engagementInsights
  split <;> rfl

/-- C15: `generateInsights` of the empty list returns exactly one insight, the
info insight titled No Data Available, and of a list with a mention it
returns a list that holds no insight of that title. -/
theorem generateInsights_no_data :
    generateInsights [] = some [noDataInsight]
    ∧ noDataInsight.type = "info" ∧ noDataInsight.title = "No Data Available"
    ∧ ∀ (m : Mention) (ms : List Mention), ∃ insights,
        generateInsights (m :: ms) = some insights
        ∧ ∀ i ∈ insights, i.title ≠ "No Data Available" := by
  refine ⟨rfl, rfl, rfl, ?_⟩
  intro m ms
  rcases generateInsights_of_ne_nil (m :: ms) (List.cons_ne_nil m ms) with ⟨top, _, hgen⟩
  refine ⟨_, hgen, ?_⟩
  intro i hi
  have hti : i.title ∈ (sentimentInsights (m :: ms) ++ engagementInsights (m :: ms)
      ++ [topPlatformInsight top]).map (fun i => i.title) := List.mem_map.mpr ⟨i, hi, rfl⟩
  rw [List.map_append, List.map_append, sentimentInsights_titles, engagementInsights_titles]
    at hti
  intro heq
  rw [heq] at hti
  rcases List.mem_append.mp hti with hti | hti
  · rcases List.mem_append.mp hti with hti | hti
    · split at hti
      · simp at hti
      · split at hti <;> simp at hti
    · split at hti <;> simp at hti
  · simp [topPlatformInsight] at hti

/-- The sentiment insights of the sample of ten mentions. -/
theorem sampleTen_titles :
    ∃ insights, generateInsights sampleTen = some insights
      ∧ "Excellent Sentiment" ∈ insights.map (fun i => i.title)
      ∧ "Negative Sentiment Alert" ∉ insights.map (fun i => i.title) := by
  have hne : sampleTen ≠ [] := by decide
  rcases generateInsights_of_ne_nil sampleTen hne with ⟨top, _, hgen⟩
  have hp : positiveMentions sampleTen = 8 := by decide
  have hlen : sampleTen.length = 10 := by decide
  have hgt : ((8 : ℕ) : ℚ) / ((10 : ℕ) : ℚ) > 7 / 10 := by norm_num
  refine ⟨_, hgen, ?_, ?_⟩
  · rw [List.map_append, List.map_append, sentimentInsights_titles, hp, hlen, if_pos hgt]
    simp
  · rw [List.map_append, List.map_append, sentimentInsights_titles, engagementInsights_titles,
      hp, hlen, if_pos hgt]
    split <;> simp [topPlatformInsight]

/-- C16: of a list with a mention `generateInsights` returns at most one of the
two sentiment insights: the insight titled Excellent Sentiment once and no
Negative Sentiment Alert when positiveCount / total > 0.7; otherwise no
Excellent Sentiment, and the Negative Sentiment Alert once exactly when
negativeCount / total > 0.3. Eight positive mentions out of ten yield the
positive insight and no warning. -/
theorem generateInsights_sentiment (m : Mention) (ms : List Mention) :
    (∃ insights, generateInsights (m :: ms) = some insights
      ∧ (insights.map (fun i => i.title)).count "Excellent Sentiment"
          = (if (positiveMentions (m :: ms) : ℚ) / ((m :: ms).length : ℚ) > 7 / 10 then 1
             else 0)
      ∧ (insights.map (fun i => i.title)).count "Negative Sentiment Alert"
          = (if (positiveMentions (m :: ms) : ℚ) / ((m :: ms).length : ℚ) > 7 / 10 then 0
             else if (negativeMentions (m :: ms) : ℚ) / ((m :: ms).length : ℚ) > 3 / 10 then 1
             else 0)
      ∧ (insights.map (fun i => i.title)).count "Excellent Sentiment"
          + (insights.map (fun i => i.title)).count "Negative Sentiment Alert" ≤ 1)
    ∧ (∃ insights, generateInsights sampleTen = some insights
      ∧ "Excellent Sentiment" ∈ insights.map (fun i => i.title)
      ∧ "Negative Sentiment Alert" ∉ insights.map (fun i => i.title)) := by
  refine ⟨?_, sampleTen_titles⟩
  rcases generateInsights_of_ne_nil (m :: ms) (List.cons_ne_nil m ms) with ⟨top, _, hgen⟩
  have hE : ((engagementInsights (m :: ms)).map (fun i => i.title)).count "Excellent Sentiment"
      = 0 := by
    rw [engagementInsights_titles]; split <;> simp
  have hN : ((engagementInsights (m :: ms)).map (fun i => i.title)).count
      "Negative Sentiment Alert" = 0 := by
    rw [engagementInsights_titles]; split <;> simp
  have hTE : ([topPlatformInsight top].map (fun i => i.title)).count "Excellent Sentiment"
      = 0 := by simp [topPlatformInsight]
  have hTN : ([topPlatformInsight top].map (fun i => i.title)).count
      "Negative Sentiment Alert" = 0 := by simp [topPlatformInsight]
  have hSE : ((sentimentInsights (m :: ms)).map (fun i => i.title)).count "Excellent Sentiment"
      = (if (positiveMentions (m :: ms) : ℚ) / ((m :: ms).length : ℚ) > 7 / 10 then 1
         else 0) := by
    rw [sentimentInsights_titles]
    split
    · simp
    · split <;> simp
  have hSN : ((sentimentInsights (m :: ms)).map (fun i => i.title)).count
      "Negative Sentiment Alert"
      = (if (positiveMentions (m :: ms) : ℚ) / ((m :: ms).length : ℚ) > 7 / 10 then 0
         else if (negativeMentions (m :: ms) : ℚ) / ((m :: ms).length : ℚ) > 3 / 10 then 1
         else 0) := by
    rw [sentimentInsights_titles]
    split
    · simp
    · split <;> simp
  have hcE : ((sentimentInsights (m :: ms) ++ engagementInsights (m :: ms)
      ++ [topPlatformInsight top]).map (fun i => i.title)).count "Excellent Sentiment"
      = (if (positiveMentions (m :: ms) : ℚ) / ((m :: ms).length : ℚ) > 7 / 10 then 1
         else 0) := by
    rw [List.map_append, List.map_append, List.count_append, List.count_append, hSE, hE, hTE]
    simp
  have hcN : ((sentimentInsights (m :: ms) ++ engagementInsights (m :: ms)
      ++ [topPlatformInsight top]).map (fun i => i.title)).count "Negative Sentiment Alert"
      = (if (positiveMentions (m :: ms) : ℚ) / ((m :: ms).length : ℚ) > 7 / 10 then 0
         else if (negativeMentions (m :: ms) : ℚ) / ((m :: ms).length : ℚ) > 3 / 10 then 1
         else 0) := by
    rw [List.map_append, List.map_append, List.count_append, List.count_append, hSN, hN, hTN]
    simp
  refine ⟨_, hgen, hcE, hcN, ?_⟩
  rw [hcE, hcN]
  split
  · simp
  · split <;> simp

/-! ### The top platform -/

/-- The keys of the source counts stand in the order in which the sources are
first seen, through the `reduce`. -/
theorem sourceFold_keys_order (mentions : List Mention) (acc : SourceMap) (seen : List Source)
    (hsound : ∀ k ∈ acc.map (fun p => p.1), k ∈ seen)
    (hcomplete : ∀ k ∈ seen, k ∈ acc.map (fun p => p.1))
    (hord : (acc.map (fun p => p.1)).Pairwise (fun a b => seen.indexOf a < seen.indexOf b)) :
    (∀ k ∈ (mentions.foldl sourceStep acc).map (fun p => p.1),
        k ∈ seen ++ mentions.map (fun m => m.source))
    ∧ ((mentions.foldl sourceStep acc).map (fun p => p.1)).Pairwise (fun a b =>
        (seen ++ mentions.map (fun m => m.source)).indexOf a
          < (seen ++ mentions.map (fun m => m.source)).indexOf b) := by
  induction mentions generalizing acc seen with
  | nil =>
    simp only [List.foldl_nil, List.map_nil, List.append_nil]
    exact ⟨hsound, hord⟩
  | cons m ms ih =>
    rw [List.foldl_cons]
    have hkeys := SourceMap.keys_set acc m.source ((acc.get m.source).getD 0 + 1)
    have hstep : seen ++ (m :: ms).map (fun m => m.source)
        = (seen ++ [m.source]) ++ ms.map (fun m => m.source) := by simp
    rw [hstep]
    by_cases hm : m.source ∈ acc.map (fun p => p.1)
    · rw [if_pos hm] at hkeys
      apply ih
      · intro k hk
        unfold sourceStep at hk
        rw [hkeys] at hk
        exact List.mem_append_left _ (hsound k hk)
      · intro k hk
        unfold sourceStep
        rw [hkeys]
        rcases List.mem_append.mp hk with hk | hk
        · exact hcomplete k hk
        · have : k = m.source := by simpa using hk
          rw [this]; exact hm
      · unfold sourceStep
        rw [hkeys]
        refine List.Pairwise.imp_of_mem ?_ hord
        intro a b ha hb hab
        rw [List.indexOf_append_of_mem (hsound a ha), List.indexOf_append_of_mem (hsound b hb)]
        exact hab
    · rw [if_neg hm] at hkeys
      have hns : m.source ∉ seen := fun h => hm (hcomplete _ h)
      apply ih
      · intro k hk
        unfold sourceStep at hk
        rw [hkeys] at hk
        rcases List.mem_append.mp hk with hk | hk
        · exact List.mem_append_left _ (hsound k hk)
        · exact List.mem_append_right _ hk
      · intro k hk
        unfold sourceStep
        rw [hkeys]
        rcases List.mem_append.mp hk with hk | hk
        · exact List.mem_append_left _ (hcomplete k hk)
        · exact List.mem_append_right _ hk
      · unfold sourceStep
        rw [hkeys, List.pairwise_append]
        refine ⟨?_, by simp, ?_⟩
        · refine List.Pairwise.imp_of_mem ?_ hord
          intro a b ha hb hab
          rw [List.indexOf_append_of_mem (hsound a ha),
            List.indexOf_append_of_mem (hsound b hb)]
          exact hab
        · intro a ha b hb
          have hb' : b = m.source := by simpa using hb
          subst hb'
          rw [List.indexOf_append_of_mem (hsound a ha), List.indexOf_append_of_not_mem hns]
          have := List.indexOf_lt_length.mpr (hsound a ha)
          omega

/-- An entry of an object with distinct keys is what reading its key gives. -/
theorem SourceMap.get_of_mem (acc : SourceMap) (hnd : (acc.map (fun p => p.1)).Nodup)
    (s : Source) (n : Nat) (h : (s, n) ∈ acc) : acc.get s = some n := by
  induction acc with
  | nil => simp at h
  | cons p rest ih =>
    rw [List.map_cons, List.nodup_cons] at hnd
    unfold SourceMap.get at ih ⊢
    rcases List.mem_cons.mp h with h | h
    · subst h
      simp [List.find?_cons]
    · have hne : ¬ p.1 = s := by
        intro e
        exact hnd.1 (e ▸ List.mem_map.mpr ⟨(s, n), h, rfl⟩)
      simp only [List.find?_cons, hne, decide_False]
      exact ih hnd.2 h

/-- What reading a key gives is an entry of the object. -/
theorem SourceMap.mem_of_get (acc : SourceMap) (s : Source) (n : Nat)
    (h : acc.get s = some n) : (s, n) ∈ acc := by
  unfold SourceMap.get at h
  rcases Option.map_eq_some'.mp h with ⟨p, hp, hpn⟩
  have h1 := List.mem_of_find?_eq_some hp
  have h2 : p.1 = s := by simpa using List.find?_some hp
  have : p = (s, n) := Prod.ext h2 hpn
  rw [← this]; exact h1

/-- The `reduce` with `pickTop` returns the last entry of maximal count: the
entries before it are not larger, the entries after it are smaller. -/
theorem foldl_pickTop_split (rest : List (Source × Nat)) :
    ∀ (pre mid : List (Source × Nat)) (a : Source × Nat),
      (∀ x ∈ pre, x.2 ≤ a.2) → (∀ x ∈ mid, x.2 < a.2) →
      ∃ pre' post', pre ++ a :: (mid ++ rest) = pre' ++ rest.foldl pickTop a :: post'
        ∧ (∀ x ∈ pre', x.2 ≤ (rest.foldl pickTop a).2)
        ∧ (∀ x ∈ post', x.2 < (rest.foldl pickTop a).2) := by
  induction rest with
  | nil =>
    intro pre mid a hpre hmid
    exact ⟨pre, mid, by simp, hpre, hmid⟩
  | cons b rest ih =>
    intro pre mid a hpre hmid
    rw [List.foldl_cons]
    by_cases hab : a.2 > b.2
    · have hpick : pickTop a b = a := by simp [pickTop, hab]
      rw [hpick]
      have h := ih pre (mid ++ [b]) a hpre (by
        intro x hx
        rcases List.mem_append.mp hx with hx | hx
        · exact hmid x hx
        · have : x = b := by simpa using hx
          rw [this]; exact hab)
      simpa [List.append_assoc] using h
    · have hpick : pickTop a b = b := by simp [pickTop, hab]
      rw [hpick]
      have hle : a.2 ≤ b.2 := by omega
      have h := ih (pre ++ a :: mid) [] b (by
        intro x hx
        rcases List.mem_append.mp hx with hx | hx
        · exact le_trans (hpre x hx) hle
        · rcases List.mem_cons.mp hx with hx | hx
          · rw [hx]; exact hle
          · exact le_trans (le_of_lt (hmid x hx)) hle) (by simp)
      simpa [List.append_assoc] using h

/-- The source the `reduce` names has a maximal number of mentions, and every
other source with as many mentions was first seen before it. -/
theorem topSource_last_maximal (mentions : List Mention) (top : Source)
    (h : topSource mentions = some top) :
    0 < (mentions.filter (fun m => m.source = top)).length
    ∧ (∀ s : Source, (mentions.filter (fun m => m.source = s)).length
        ≤ (mentions.filter (fun m => m.source = top)).length)
    ∧ (∀ s : Source, s ≠ top →
        (mentions.filter (fun m => m.source = s)).length
          = (mentions.filter (fun m => m.source = top)).length →
        (mentions.map (fun m => m.source)).indexOf s
          < (mentions.map (fun m => m.source)).indexOf top) := by
  have hnd : ((sourceBreakdown mentions).map (fun p => p.1)).Nodup :=
    sourceFold_nodup mentions [] (by simp)
  have hget : ∀ s : Source, (sourceBreakdown mentions).get s
      = if (mentions.filter (fun m => m.source = s)).length = 0 then none
        else some (mentions.filter (fun m => m.source = s)).length := by
    intro s
    unfold sourceBreakdown
    rw [sourceFold_get]
    simp [SourceMap.get]
  have hord : ((sourceBreakdown mentions).map (fun p => p.1)).Pairwise (fun a b =>
      (mentions.map (fun m => m.source)).indexOf a
        < (mentions.map (fun m => m.source)).indexOf b) := by
    have h0 := (sourceFold_keys_order mentions [] [] (by simp) (by simp) (by simp)).2
    rw [List.nil_append] at h0
    exact h0
  cases hsb : sourceBreakdown mentions with
  | nil => simp [topSource, reduce1, hsb] at h
  | cons e rest =>
    have htop : (rest.foldl pickTop e).1 = top := by
      simpa [topSource, reduce1, hsb] using h
    rcases foldl_pickTop_split rest [] [] e (by simp) (by simp) with ⟨pre, post, hsplit, hpre, hpost⟩
    simp only [List.nil_append] at hsplit
    have hentries : sourceBreakdown mentions = pre ++ rest.foldl pickTop e :: post := by
      rw [hsb, hsplit]
    have hrmem : rest.foldl pickTop e ∈ sourceBreakdown mentions := by
      rw [hentries]; simp
    have hrget := SourceMap.get_of_mem (sourceBreakdown mentions) hnd
      (rest.foldl pickTop e).1 (rest.foldl pickTop e).2 hrmem
    rw [hget, htop] at hrget
    have hcount : (mentions.filter (fun m => m.source = top)).length ≠ 0
        ∧ (rest.foldl pickTop e).2 = (mentions.filter (fun m => m.source = top)).length := by
      by_cases h0 : (mentions.filter (fun m => m.source = top)).length = 0
      · rw [if_pos h0] at hrget; cases hrget
      · rw [if_neg h0] at hrget
        exact ⟨h0, (Option.some.inj hrget).symm⟩
    have hwhere : ∀ s : Source, (mentions.filter (fun m => m.source = s)).length ≠ 0 →
        (s, (mentions.filter (fun m => m.source = s)).length) ∈ pre
        ∨ (s, (mentions.filter (fun m => m.source = s)).length) = rest.foldl pickTop e
        ∨ (s, (mentions.filter (fun m => m.source = s)).length) ∈ post := by
      intro s hs
      have hmem := SourceMap.mem_of_get (sourceBreakdown mentions) s _
        (by rw [hget, if_neg hs])
      rw [hentries] at hmem
      rcases List.mem_append.mp hmem with hm | hm
      · exact Or.inl hm
      · rcases List.mem_cons.mp hm with hm | hm
        · exact Or.inr (Or.inl hm)
        · exact Or.inr (Or.inr hm)
    refine ⟨Nat.pos_of_ne_zero hcount.1, ?_, ?_⟩
    · intro s
      by_cases hs : (mentions.filter (fun m => m.source = s)).length = 0
      · omega
      · rw [← hcount.2]
        rcases hwhere s hs with hm | hm | hm
        · exact hpre _ hm
        · rw [← hm]
        · exact le_of_lt (hpost _ hm)
    · intro s hne heq
      have hs : (mentions.filter (fun m => m.source = s)).length ≠ 0 := by
        rw [heq]; exact hcount.1
      rcases hwhere s hs with hm | hm | hm
      · rw [hentries, List.map_append, List.map_cons, List.pairwise_append] at hord
        have hs1 : s ∈ pre.map (fun p => p.1) := List.mem_map.mpr ⟨_, hm, rfl⟩
        have := hord.2.2 s hs1 (rest.foldl pickTop e).1 (List.mem_cons_self _ _)
        rw [htop] at this
        exact this
      · exact absurd (by rw [← htop, ← hm]) hne
      · have := hpost _ hm
        rw [hcount.2, heq] at this
        exact absurd this (lt_irrefl _)

/-- C17, as stated, fails: for a twitter mention followed by a news mention,
one each, the insights end with the top platform insight that names news, the
source seen last, though twitter was seen first. -/
theorem topPlatform_tie_names_last :
    (∃ before, generateInsights sampleTie = some (before ++ [topPlatformInsight .news]))
    ∧ (sampleTie.filter (fun m => m.source = .twitter)).length
        = (sampleTie.filter (fun m => m.source = .news)).length
    ∧ (sampleTie.map (fun m => m.source)).indexOf .twitter
        < (sampleTie.map (fun m => m.source)).indexOf .news
    ∧ topPlatformInsight .news ≠ topPlatformInsight .twitter := by
  refine ⟨?_, by decide, by decide, by decide⟩
  rcases generateInsights_of_ne_nil sampleTie (by decide) with ⟨top, htop, hgen⟩
  have hnews : topSource sampleTie = some .news := by decide
  rw [hnews] at htop
  have : top = .news := (Option.some.inj htop).symm
  subst this
  exact ⟨_, hgen⟩

/-- C17 (amended): of a list with a mention `generateInsights` returns a list
that ends with the top platform insight and holds no other insight of that
title; the source it names has a maximal number of mentions, and when several
sources share the maximal count it names the one encountered last: every
other source of maximal count is first seen earlier in the list of mentions
(earlier in the iteration order of the source counts). -/
theorem generateInsights_top_platform (m : Mention) (ms : List Mention) :
    ∃ top before,
      generateInsights (m :: ms) = some (before ++ [topPlatformInsight top])
      ∧ (∀ i ∈ before, i.title ≠ "Top Platform")
      ∧ (topPlatformInsight top).title = "Top Platform"
      ∧ 0 < ((m :: ms).filter (fun x => x.source = top)).length
      ∧ (∀ s : Source, ((m :: ms).filter (fun x => x.source = s)).length
          ≤ ((m :: ms).filter (fun x => x.source = top)).length)
      ∧ (∀ s : Source, s ≠ top →
          ((m :: ms).filter (fun x => x.source = s)).length
            = ((m :: ms).filter (fun x => x.source = top)).length →
          ((m :: ms).map (fun x => x.source)).indexOf s
            < ((m :: ms).map (fun x => x.source)).indexOf top) := by
  rcases generateInsights_of_ne_nil (m :: ms) (List.cons_ne_nil m ms) with ⟨top, htop, hgen⟩
  have hmax := topSource_last_maximal (m :: ms) top htop
  refine ⟨top, _, hgen, ?_, rfl, hmax.1, hmax.2.1, hmax.2.2⟩
  intro i hi heq
  have hti : i.title ∈ (sentimentInsights (m :: ms) ++ engagementInsights (m :: ms)).map
      (fun i => i.title) := List.mem_map.mpr ⟨i, hi, rfl⟩
  rw [List.map_append, sentimentInsights_titles, engagementInsights_titles, heq] at hti
  rcases List.mem_append.mp hti with hti | hti
  · split at hti
    · simp at hti
    · split at hti <;> simp at hti
  · split at hti <;> simp at hti

/-! ## Widget dispatcher -/

/-- C18 fails on the code: the dispatcher sends the data of a helper for the
five widget types sentiment, sources, timeline, topics and engagement only; it
answers status 400, Unknown widget type, for every other type, among them
metrics and alerts, which the `enum` of the dashboard schema lists. -/
theorem widgetRoute_metrics_alerts_unknown :
    widgetRoute "metrics" true = WidgetReply.badRequest "Unknown widget type"
    ∧ widgetRoute "alerts" true = WidgetReply.badRequest "Unknown widget type"
    ∧ "metrics" ∈ widgetTypeEnum ∧ "alerts" ∈ widgetTypeEnum
    ∧ ∀ widgetType : String,
        widgetRoute widgetType true = WidgetReply.badRequest "Unknown widget type"
          ↔ widgetType ∉ ["sentiment", "sources", "timeline", "topics", "engagement"] := by
  refine ⟨by decide, by decide, by decide, by decide, ?_⟩
  intro widgetType
  unfold widgetRoute
  simp only [if_true, List.mem_cons, List.mem_singleton, List.not_mem_nil, or_false, not_or]
  constructor
  · intro h
    refine ⟨?_, ?_, ?_, ?_, ?_⟩ <;> intro hw <;> simp [hw] at h
  · rintro ⟨h1, h2, h3, h4, h5⟩
    simp [h1, h2, h3, h4, h5]

/-! ## Daily job -/

/-- The brands the job calls are those the loop calls. -/
theorem attempted_dailyJob (brands : List (String × FetchOutcome)) :
    attempted (dailyJob (some brands)) = attempted (brandLoop brands).1 := by
  have hlast : ∀ b : Bool,
      attempted [if b then JobEvent.completed else JobEvent.jobError] = [] := by
    intro b
    cases b <;> rfl
  have happ : ∀ l₁ l₂ : List JobEvent, attempted (l₁ ++ l₂) = attempted l₁ ++ attempted l₂ := by
    intro l₁ l₂
    simp [attempted, List.filterMap_append]
  show attempted ([JobEvent.starting] ++ ((brandLoop brands).1
      ++ [if (brandLoop brands).2 then JobEvent.completed else JobEvent.jobError])) = _
  rw [happ, happ, hlast]
  simp [attempted]

/-- When no `fetch` throws, the job calls `fetch` for every brand. -/
theorem attempted_all_of_no_throw (brands : List (String × FetchOutcome))
    (h : ∀ p ∈ brands, p.2 ≠ FetchOutcome.thrown) :
    attempted (dailyJob (some brands)) = brands.map (fun p => p.1) := by
  have hloop : attempted (brandLoop brands).1 = brands.map (fun p => p.1) := by
    induction brands with
    | nil => rfl
    | cons p rest ih =>
      have ih := ih (fun q hq => h q (List.mem_cons_of_mem _ hq))
      have hp := h p (List.mem_cons_self _ _)
      rcases p with ⟨b, o⟩
      cases o with
      | ok => simpa [brandLoop, attempted] using ih
      | notOk => simpa [brandLoop, attempted] using ih
      | thrown => exact absurd rfl hp
  rw [attempted_dailyJob, hloop]

/-- A thrown `fetch` ends the job: no brand after it is called. -/
theorem attempted_stops_at_throw (before after : List (String × FetchOutcome)) (brand : String)
    (h : ∀ p ∈ before, p.2 ≠ FetchOutcome.thrown) :
    attempted (dailyJob (some (before ++ (brand, FetchOutcome.thrown) :: after)))
      = before.map (fun p => p.1) ++ [brand] := by
  have hloop : (brandLoop (before ++ (brand, FetchOutcome.thrown) :: after)).2 = false
      ∧ attempted (brandLoop (before ++ (brand, FetchOutcome.thrown) :: after)).1
        = before.map (fun p => p.1) ++ [brand] := by
    induction before with
    | nil => exact ⟨rfl, rfl⟩
    | cons p rest ih =>
      have ih := ih (fun q hq => h q (List.mem_cons_of_mem _ hq))
      have hp := h p (List.mem_cons_self _ _)
      rcases p with ⟨b, o⟩
      cases o with
      | ok => simpa [brandLoop, attempted] using ih
      | notOk => simpa [brandLoop, attempted] using ih
      | thrown => exact absurd rfl hp
  rw [attempted_dailyJob, hloop.2]

/-- C19 fails on the code: when the request for the first of two brands
throws, the job writes its error line and ends; the second brand is never
called, although its request would succeed. A response that is not ok does
not end the job. -/
theorem dailyJob_throw_skips_rest :
    dailyJob (some [("a", FetchOutcome.thrown), ("b", FetchOutcome.ok)])
      = [JobEvent.starting, JobEvent.generating "a", JobEvent.jobError]
    ∧ attempted (dailyJob (some [("a", FetchOutcome.thrown), ("b", FetchOutcome.ok)])) = ["a"]
    ∧ "b" ∉ attempted (dailyJob (some [("a", FetchOutcome.thrown), ("b", FetchOutcome.ok)]))
    ∧ attempted (dailyJob (some [("a", FetchOutcome.notOk), ("b", FetchOutcome.ok)]))
        = ["a", "b"] := by
  refine ⟨by decide, by decide, by decide, by decide⟩

/-! ## generate-daily -/

/-- C20, as stated, fails: with the same brand and the same mentions the answer
carries the computed analytics when the save succeeds and is status 500 with
the message of the error when the save throws. -/
theorem generateDaily_save_failure :
    generateDaily (fun _ => 0) (some "acme") (Except.ok sampleMentions) (Except.ok ())
      = GenerateDailyReply.success "Daily analytics generated successfully"
          (calculateRealTimeAnalytics (fun _ => 0) sampleMentions)
    ∧ generateDaily (fun _ => 0) (some "acme") (Except.ok sampleMentions)
        (Except.error "write failed")
      = GenerateDailyReply.serverError "write failed"
    ∧ generateDaily (fun _ => 0) (some "acme") (Except.ok sampleMentions)
        (Except.error "write failed")
      ≠ generateDaily (fun _ => 0) (some "acme") (Except.ok sampleMentions) (Except.ok ()) := by
  have h1 : generateDaily (fun _ => 0) (some "acme") (Except.ok sampleMentions) (Except.ok ())
      = GenerateDailyReply.success "Daily analytics generated successfully"
          (calculateRealTimeAnalytics (fun _ => 0) sampleMentions) := by
    simp [generateDaily]
  have h2 : generateDaily (fun _ => 0) (some "acme") (Except.ok sampleMentions)
        (Except.error "write failed")
      = GenerateDailyReply.serverError "write failed" := by
    simp [generateDaily]
  refine ⟨h1, h2, ?_⟩
  rw [h1, h2]
  intro h
  cases h

/-- C20 (amended): in the generate-daily operation with a brand name, when the
analytics computation succeeds, the answer carries the computed analytics
when the save succeeds, and when the save fails the answer is status 500 with
the message of the save error and without the analytics. -/
theorem generateDaily_after_computation (tz : Int → Int) (brand : String)
    (mentions : List Mention) (save : Except String Unit) (hbrand : brand ≠ "") :
    generateDaily tz (some brand) (Except.ok mentions) save
      = (match save with
         | Except.ok _ =>
           GenerateDailyReply.success "Daily analytics generated successfully"
             (calculateRealTimeAnalytics tz mentions)
         | Except.error message => GenerateDailyReply.serverError message) := by
  cases save with
  | ok u => simp [generateDaily, hbrand]
  | error message => simp [generateDaily, hbrand]

/-- C20 (amended) on the sample mentions with a failing save. -/
theorem generateDaily_after_computation_witness :
    generateDaily (fun _ => 0) (some "acme") (Except.ok sampleMentions)
        (Except.error "write failed")
      = GenerateDailyReply.serverError "write failed" :=
  generateDaily_after_computation (fun _ => 0) "acme" sampleMentions
    (Except.error "write failed") (by decide)

/-! ## Independence of the order of the mentions -/

/-- The number of mentions of a label does not depend on their order. -/
theorem filter_label_length_perm (label : String) {l₁ l₂ : List Mention} (h : l₁.Perm l₂) :
    (l₁.filter (fun m => m.sentiment = label)).length
      = (l₂.filter (fun m => m.sentiment = label)).length :=
  (h.filter _).length_eq

/-- The engagement sum does not depend on the order of the mentions. -/
theorem engagementTotal_perm {l₁ l₂ : List Mention} (h : l₁.Perm l₂) :
    engagementTotal l₁ = engagementTotal l₂ := by
  unfold engagementTotal
  rw [engagement_foldl, engagement_foldl]
  exact congrArg _ ((h.map _).sum_eq)

/-- The metrics do not depend on the order of the mentions. -/
theorem metrics_perm (tz : Int → Int) {l₁ l₂ : List Mention} (h : l₁.Perm l₂) :
    (calculateRealTimeAnalytics tz l₁).metrics = (calculateRealTimeAnalytics tz l₂).metrics := by
  have hlen : totalMentions l₁ = totalMentions l₂ := h.length_eq
  have hp : positiveMentions l₁ = positiveMentions l₂ := filter_label_length_perm "positive" h
  have hn : negativeMentions l₁ = negativeMentions l₂ := filter_label_length_perm "negative" h
  have hu : neutralMentions l₁ = neutralMentions l₂ := filter_label_length_perm "neutral" h
  have he : engagementTotal l₁ = engagementTotal l₂ := engagementTotal_perm h
  have hs : sentimentScore l₁ = sentimentScore l₂ := by
    unfold sentimentScore
    rw [hlen, hp, hn]
  have hg : engagementScore l₁ = engagementScore l₂ := by
    unfold engagementScore
    rw [hlen, he]
  simp only [calculateRealTimeAnalytics, hlen, hp, hn, hu, hs, hg]

/-- The peak hours do not depend on the order of the mentions. -/
theorem peakHours_perm (tz : Int → Int) {l₁ l₂ : List Mention} (h : l₁.Perm l₂) :
    peakHours tz l₁ = peakHours tz l₂ := by
  unfold peakHours
  apply List.map_congr_left
  intro hour _
  rw [(h.filter _).length_eq]

/-- The tags of two orders of the mentions are the same up to order. -/
theorem allTags_perm {l₁ l₂ : List Mention} (h : l₁.Perm l₂) :
    (allTags l₁).Perm (allTags l₂) :=
  h.flatMap_right tagsOf

/-- The topics accumulated are the tags of the mentions. -/
theorem mem_topicAccumulate_topics (mentions : List Mention) (t : String) :
    t ∈ (topicAccumulate mentions).map (fun e => e.topic) ↔ t ∈ allTags mentions := by
  have inv := topicAccumulate_inv mentions
  constructor
  · intro ht
    rcases List.mem_map.mp ht with ⟨e, he, het⟩
    have := inv.sound e he
    rw [tagPairs_fst, het] at this
    exact this
  · intro ht
    rw [← tagPairs_fst] at ht
    rcases List.mem_map.mp ht with ⟨p, hp, hpt⟩
    exact hpt ▸ inv.complete p hp

/-- The counts accumulated are the occurrences of the topics accumulated. -/
theorem topicAccumulate_counts (mentions : List Mention) :
    (topicAccumulate mentions).map (fun e => e.count)
      = ((topicAccumulate mentions).map (fun e => e.topic)).map
          (fun t => (allTags mentions).count t) := by
  rw [List.map_map]
  apply List.map_congr_left
  intro e he
  have := ((topicAccumulate_inv mentions).counts e he).1
  rw [countP_tagPairs] at this
  exact this

/-- The counts accumulated for two orders of the mentions are the same up to
order. -/
theorem topicAccumulate_counts_perm {l₁ l₂ : List Mention} (h : l₁.Perm l₂) :
    ((topicAccumulate l₁).map (fun e => e.count)).Perm
      ((topicAccumulate l₂).map (fun e => e.count)) := by
  have htopics : ((topicAccumulate l₁).map (fun e => e.topic)).Perm
      ((topicAccumulate l₂).map (fun e => e.topic)) := by
    rw [List.perm_ext_iff_of_nodup (topicAccumulate_inv l₁).nodup (topicAccumulate_inv l₂).nodup]
    intro t
    rw [mem_topicAccumulate_topics, mem_topicAccumulate_topics]
    exact (allTags_perm h).mem_iff
  have hcount : (fun t => (allTags l₁).count t) = (fun t => (allTags l₂).count t) := by
    funext t
    exact (allTags_perm h).count_eq t
  rw [topicAccumulate_counts l₁, topicAccumulate_counts l₂, hcount]
  exact htopics.map _

/-- The sequence of counts of the sorted topic entries does not depend on the
order of the mentions. -/
theorem topicSorted_counts_perm {l₁ l₂ : List Mention} (h : l₁.Perm l₂) :
    (topicSorted l₁).map (fun e => e.count) = (topicSorted l₂).map (fun e => e.count) := by
  have hsorted : ∀ l : List Mention,
      ((topicSorted l).map (fun e => e.count)).Sorted (fun a b => b ≤ a) := by
    intro l
    have := topicSorted_sorted l
    unfold countDesc at this
    exact List.pairwise_map.mpr this
  have hperm : ((topicSorted l₁).map (fun e => e.count)).Perm
      ((topicSorted l₂).map (fun e => e.count)) :=
    (((topicSorted_perm l₁).map _).trans (topicAccumulate_counts_perm h)).trans
      ((topicSorted_perm l₂).map _).symm
  haveI : IsAntisymm ℕ (fun a b => b ≤ a) := ⟨fun a b hab hba => Nat.le_antisymm hba hab⟩
  exact List.eq_of_perm_of_sorted hperm (hsorted l₁) (hsorted l₂)

/-- An entry of the sorted topic list is determined by its topic, whatever the
order of the mentions. -/
theorem topicSorted_entry_perm {l₁ l₂ : List Mention} (h : l₁.Perm l₂)
    (e₁ e₂ : TopicEntry) (h₁ : e₁ ∈ topicSorted l₁) (h₂ : e₂ ∈ topicSorted l₂)
    (ht : e₁.topic = e₂.topic) : e₁ = e₂ := by
  have c₁ := topicSorted_counts l₁ e₁ h₁
  have c₂ := topicSorted_counts l₂ e₂ h₂
  have hall := fun t => (allTags_perm h).count_eq t
  have hlab : ∀ (label t : String),
      (allTags (l₁.filter (fun m => m.sentiment = label))).count t
        = (allTags (l₂.filter (fun m => m.sentiment = label))).count t :=
    fun label t => (allTags_perm (h.filter _)).count_eq t
  rcases e₁ with ⟨t₁, n₁, ⟨p₁, g₁, u₁⟩⟩
  rcases e₂ with ⟨t₂, n₂, ⟨p₂, g₂, u₂⟩⟩
  simp only at ht c₁ c₂
  subst ht
  rw [hall, hlab "positive", hlab "negative", hlab "neutral"] at c₁
  rw [c₁.1, c₁.2.1, c₁.2.2.1, c₁.2.2.2, c₂.1, c₂.2.1, c₂.2.2.1, c₂.2.2.2]

/-- C22: for every mention list and every permutation of it,
`calculateRealTimeAnalytics` returns the same metrics (total, positive,
negative, neutral, sentimentScore, engagementScore, reach), the same
peakHours, a sourceBreakdown that maps every source to the same value, and a
topicDistribution with the same sequence of counts; an entry of one
topicDistribution and an entry of the other that carry the same topic are
equal, so the two differ at most in which of several equal-count topics is
placed first or kept. -/
theorem calculateRealTimeAnalytics_perm (tz : Int → Int) (l₁ l₂ : List Mention)
    (h : l₁.Perm l₂) :
    (calculateRealTimeAnalytics tz l₁).metrics = (calculateRealTimeAnalytics tz l₂).metrics
    ∧ (calculateRealTimeAnalytics tz l₁).peakHours = (calculateRealTimeAnalytics tz l₂).peakHours
    ∧ (∀ s : Source, (calculateRealTimeAnalytics tz l₁).sourceBreakdown.get s
        = (calculateRealTimeAnalytics tz l₂).sourceBreakdown.get s)
    ∧ (calculateRealTimeAnalytics tz l₁).topicDistribution.map (fun e => e.count)
        = (calculateRealTimeAnalytics tz l₂).topicDistribution.map (fun e => e.count)
    ∧ (∀ e₁ ∈ (calculateRealTimeAnalytics tz l₁).topicDistribution,
        ∀ e₂ ∈ (calculateRealTimeAnalytics tz l₂).topicDistribution,
          e₁.topic = e₂.topic → e₁ = e₂) := by
  refine ⟨metrics_perm tz h, peakHours_perm tz h, ?_, ?_, ?_⟩
  · intro s
    show (sourceBreakdown l₁).get s = (sourceBreakdown l₂).get s
    unfold sourceBreakdown
    rw [sourceFold_get, sourceFold_get, (h.filter _).length_eq]
  · show (topicDistribution l₁).map (fun e => e.count)
      = (topicDistribution l₂).map (fun e => e.count)
    unfold topicDistribution
    rw [List.map_take, List.map_take, topicSorted_counts_perm h]
  · intro e₁ h₁ e₂ h₂ ht
    exact topicSorted_entry_perm h e₁ e₂ (List.mem_of_mem_take h₁) (List.mem_of_mem_take h₂) ht

/-- C22 on the sample list and its reverse. -/
theorem calculateRealTimeAnalytics_perm_witness :
    (calculateRealTimeAnalytics (fun _ => 0) sampleMentions.reverse).metrics
      = (calculateRealTimeAnalytics (fun _ => 0) sampleMentions).metrics :=
  (calculateRealTimeAnalytics_perm (fun _ => 0) sampleMentions.reverse sampleMentions
    (List.reverse_perm sampleMentions)).1

/-! ## Zero divisors -/

/-- The guarded ratios: with a zero divisor the sentiment score, the
engagement score, the sentiment percentages of the summary and of the widget,
and the spike percentages of spike-alerts and of the summary are 0. -/
theorem guarded_ratios_zero (c : Nat) (counts : LabelMap) (label : String) (days : Nat)
    (today : Int) :
    sentimentScore [] = 0
    ∧ engagementScore [] = 0
    ∧ percentOf c 0 = JSValue.number 0
    ∧ labelPercent counts label 0 = JSValue.number 0
    ∧ (spikeResponse c 0).spikePercentage = JSValue.number 0
    ∧ (summaryRealTime [] days today).spikePercentage = JSValue.number 0 := by
  refine ⟨by simp [sentimentScore, totalMentions], by simp [engagementScore, totalMentions],
    by simp [percentOf], by simp [labelPercent], by simp [spikeResponse], ?_⟩
  simp [summaryRealTime, avgDailyMentions, binary64_zero]

/-- C21 fails on the code: for the snapshot of a brand with no mention, where
totalMentions = 0, `updateQuickStats` assigns positiveRate = NaN and
negativeRate = NaN, the value of 0 / 0 * 100, and not 0: its two rates are
divided with no guard, unlike the sentiment score and the engagement score of
the same snapshot, which are 0. -/
theorem updateQuickStats_zero_total :
    emptySnapshot.metrics.totalMentions = 0
    ∧ emptySnapshot.metrics.sentimentScore = 0
    ∧ emptySnapshot.metrics.engagementScore = 0
    ∧ updateQuickStats (some emptySnapshot)
      = QuickStatsOutcome.assigned
          { totalMentions := 0
            positiveRate := JSNumber.nan
            negativeRate := JSNumber.nan
            avgEngagement := 0
            topSource := Source.forum
            trendingTopic := "No topics" }
    ∧ ∀ stats, updateQuickStats (some emptySnapshot) = QuickStatsOutcome.assigned stats →
        stats.positiveRate ≠ JSNumber.finite 0 ∧ stats.negativeRate ≠ JSNumber.finite 0 := by
  have hs : sentimentScore [] = 0 := by simp [sentimentScore, totalMentions]
  have he : engagementScore [] = 0 := by simp [engagementScore, totalMentions]
  have hval : updateQuickStats (some emptySnapshot)
      = QuickStatsOutcome.assigned
          { totalMentions := 0
            positiveRate := JSNumber.nan
            negativeRate := JSNumber.nan
            avgEngagement := 0
            topSource := Source.forum
            trendingTopic := "No topics" } := by
    have htop : reduce1 pickTop
        [(Source.twitter, 0), (Source.facebook, 0), (Source.news, 0), (Source.blog, 0),
          (Source.forum, 0)] = some (Source.forum, 0) := by
      decide
    simp [updateQuickStats, emptySnapshot, calculateRealTimeAnalytics, totalMentions,
      positiveMentions, negativeMentions, jsRate, he, htop]
  refine ⟨rfl, hs, he, hval, ?_⟩
  intro stats hstats
  rw [hval] at hstats
  have := QuickStatsOutcome.assigned.inj hstats
  subst this
  exact ⟨by simp, by simp⟩

end BrandTracker
